import Mathlib

/-!
# A shallow embedding of `uthreads.c`

The user-level thread library keeps all of its state in file-scope globals:
the table of thread control blocks `g_thread`, the pointer `g_current`, the
quantum counter `g_total_quantums` and a circular buffer `ready_queue` with
the two cursors `q_head` and `q_tail`.  The embedding passes that state
explicitly.

Conventions of the embedding.

* `MAX_THREAD_NUM` comes from `uthreads.h`; every function takes it as the
  parameter `N`.
* C `int` values that the caller supplies or that count quanta are `Int`.
  Signed overflow is undefined behaviour in C; the embedding describes the
  executions in which no `int` addition overflows, and the statements that
  read a sum or a counter say so with a bound by `INT_MAX`.  Slot indices,
  the `tid` field and the ready-queue entries only ever receive
  non-negative values in the source and are `Nat`; `dequeue` returns `none`
  where the C function returns `-1`.
* `g_current` is `none` for the C `NULL` and `some i` for `&g_thread[i]`.
* A `jmp_buf` is represented by what happens when it is restored
  (`Context`).  `siglongjmp` never returns to its caller, so a function that
  reaches `context_switch` stops there: the rest of its body runs only when
  its own context is restored later (`resume_context`).
* Functions that dereference `g_current` or run the selection loop return
  `Option`; `none` stands for a `NULL` dereference or for a loop that did
  not finish within the given number of iterations.
* A library call that reaches `context_switch` has the outcome
  `Outcome.switched`; the state it yields is the one in which the thread
  switched to is back in user code.
* `Reachable N` collects the states between two library calls or timer
  ticks, starting from a successful `uthread_init` at program start.
  `FreshReachable N` keeps the runs in which `uthread_spawn` takes no slot
  that was allocated before, `OrderlyReachable N` the runs whose calls do not
  act on `READY` threads or on sleepers.
-/

namespace UThreads

/-! ## Data model -/

/-- Modelled from the spec: the enumeration of thread states is declared in
`uthreads.h`, which is not among the sources.  The five states are those the
spec lists and `uthreads.c` uses; the spec says the table is zero-initialized
to `UNUSED`, so `THREAD_UNUSED` is the value that `memset` leaves. -/
inductive ThreadState
  | THREAD_UNUSED
  | THREAD_READY
  | THREAD_RUNNING
  | THREAD_BLOCKED
  | THREAD_TERMINATED
  deriving DecidableEq, Repr

open ThreadState

/-- Abstraction of a saved `sigjmp_buf`: the program point it resumes. -/
inductive Context
  /-- all-zero buffer left by `memset` -/
  | zeroed
  /-- buffer seeded by `setup_thread`: jumps to the entry point -/
  | at_entry (pc : Nat)
  /-- saved by `sigsetjmp` in `uthread_init` -/
  | in_init
  /-- saved in `context_switch`, scheduler entered from `timer_handler` -/
  | in_timer
  /-- saved in `context_switch`, scheduler entered from `uthread_terminate tid` -/
  | in_terminate (tid : Nat)
  /-- saved in `context_switch`, scheduler entered from `uthread_block` -/
  | in_block
  /-- saved in `context_switch`, scheduler entered from `uthread_sleep` -/
  | in_sleep
  deriving DecidableEq, Repr

/-- Modelled from the spec: the thread control block `thread_t` is declared in
`uthreads.h`, which is not among the sources.  The fields are the ones
`uthreads.c` reads and writes (`tid`, `state`, `quantums`, `sleep_until`,
`entry`, `env`), as in the data model of the spec; `entry` is the address of
the entry point and `env` the saved context. -/
structure thread_t where
  tid : Nat
  state : ThreadState
  quantums : Int
  sleep_until : Int
  entry : Nat
  env : Context
  deriving DecidableEq, Repr

/-- Modelled from the spec: the all-zero thread control block produced by
`memset`; its state is `THREAD_UNUSED` because the spec has the table
zero-initialized to `UNUSED`. -/
def thread_t.zero : thread_t :=
  ⟨0, THREAD_UNUSED, 0, 0, 0, Context.zeroed⟩

instance : Inhabited thread_t := ⟨thread_t.zero⟩

/-- The globals of `uthreads.c`. -/
structure State where
  g_quantum_usecs : Int
  g_total_quantums : Int
  g_thread : List thread_t
  g_current : Option Nat
  ready_queue : List Nat
  q_head : Nat
  q_tail : Nat
  deriving DecidableEq, Repr

/-- The value of the globals at program start (static zero initialisation). -/
def State.static_init (N : Nat) : State :=
  ⟨0, 0, List.replicate N thread_t.zero, none, List.replicate N 0, 0, 0⟩

/-- Read `g_thread[i]`. -/
def State.thread (s : State) (i : Nat) : thread_t :=
  s.g_thread.getD i thread_t.zero

/-- Write `g_thread[i] = t`. -/
def State.set_thread (s : State) (i : Nat) (t : thread_t) : State :=
  { s with g_thread := s.g_thread.set i t }

/-- Write `g_thread[i].state = st`. -/
def State.set_state (s : State) (i : Nat) (st : ThreadState) : State :=
  s.set_thread i { s.thread i with state := st }

/-- How a library call ends for the thread that made it. -/
inductive Outcome
  /-- the call returned this value to its caller -/
  | ret (v : Int)
  /-- the scheduler switched to another context before the call returned -/
  | switched
  /-- the process exited with this status -/
  | exited (status : Int)
  deriving DecidableEq, Repr

/-- The largest value of a C `int`.  The counters `g_total_quantums` and
`quantums` and the wake-up time `sleep_until` are `int` objects in the source;
the width of `int` is taken to be 32 bits. -/
def INT_MAX : Int := 2147483647

/-- The function `enqueue`: store at `q_tail`, advance `q_tail` modulo `N`. -/
def enqueue (N : Nat) (s : State) (tid : Nat) : State :=
  { s with ready_queue := s.ready_queue.set s.q_tail tid,
           q_tail := (s.q_tail + 1) % N }

/-- The function `dequeue`: `none` (the C `-1`) when `q_head == q_tail`, otherwise the entry
at `q_head`, advancing `q_head` modulo `N`. -/
def dequeue (N : Nat) (s : State) : Option Nat × State :=
  if s.q_head = s.q_tail then (none, s)
  else (some (s.ready_queue.getD s.q_head 0),
        { s with q_head := (s.q_head + 1) % N })

/-- Number of entries between `q_head` and `q_tail`. -/
def queue_len (N : Nat) (s : State) : Nat :=
  (s.q_tail + N - s.q_head) % N

/-- The entries of the ready queue from `q_head` up to `q_tail`, in the order
in which `dequeue` would return them. -/
def queue_list (N : Nat) (s : State) : List Nat :=
  (List.range (queue_len N s)).map
    (fun k => s.ready_queue.getD ((s.q_head + k) % N) 0)

/-! ## Scheduler -/

/-- Slot `i` is a sleeper whose wake-up quantum has come: the condition tested
by the sleep-wake loop of `schedule_next`. -/
def is_due (s : State) (i : Nat) : Prop :=
  (s.thread i).state = THREAD_BLOCKED
    ∧ (s.thread i).sleep_until ≠ 0
    ∧ (s.thread i).sleep_until ≤ s.g_total_quantums

instance (s : State) (i : Nat) : Decidable (is_due s i) := by
  unfold is_due; infer_instance

/-- One iteration of the sleep-wake loop of `schedule_next` for slot `i`. -/
def wake_step (N : Nat) (s : State) (i : Nat) : State :=
  if (s.thread i).state = THREAD_BLOCKED
      ∧ (s.thread i).sleep_until ≠ 0
      ∧ (s.thread i).sleep_until ≤ s.g_total_quantums then
    enqueue N
      (s.set_thread i { s.thread i with sleep_until := 0, state := THREAD_READY }) i
  else s

/-- The sleep-wake loop of `schedule_next`: slots `1 .. N-1` in ascending order. -/
def wake_sweep (N : Nat) (s : State) : State :=
  (List.range' 1 (N - 1)).foldl (wake_step N) s

/-- The function `context_switch(current, next)`, called from the site whose
continuation is `k`: `g_current = next`, then `sigsetjmp` saves the context of
`current` (recorded as `k`).  The `siglongjmp` that follows does not return;
what the restored thread does is `resume_context`. -/
def context_switch (k : Context) (s : State) (current next : Nat) : State :=
  let s1 := { s with g_current := some next }
  s1.set_thread current { s1.thread current with env := k }

/-- The body of the `if (g_thread[tid].state == THREAD_READY)` branch of
`schedule_next`: the selectee becomes `RUNNING`, the previous thread `prev` is
demoted and enqueued when its state is `RUNNING`, then
`context_switch(prev, &g_thread[tid])`. -/
def switch_to (N : Nat) (k : Context) (prev : Nat) (s : State) (tid : Nat) : State :=
  let s1 := s.set_state tid THREAD_RUNNING
  let s2 :=
    if (s1.thread prev).state = THREAD_RUNNING then
      enqueue N (s1.set_state prev THREAD_READY) (s1.thread prev).tid
    else s1
  context_switch k s2 prev tid

/-- The `while ((tid = dequeue()) != -1)` loop of `schedule_next`, run for at
most `fuel` iterations.  The result is the state and whether a context switch
took place; `none` when `fuel` iterations did not finish the loop. -/
def select_loop (N : Nat) (k : Context) (start prev : Nat) : Nat → State → Option (State × Bool)
  | 0, _ => none
  | fuel + 1, s =>
    match dequeue N s with
    | (none, s1) => some (s1, false)
    | (some tid, s1) =>
      if (s1.thread tid).state = THREAD_READY then
        some (switch_to N k prev s1 tid, true)
      else
        let s2 := enqueue N s1 tid
        if s2.q_head = start then some (s2, false)
        else select_loop N k start prev fuel s2

/-- The function `schedule_next`, entered from the call site whose continuation is `k`.
The Boolean tells whether `context_switch` was reached, in which case the
state is the one at the `siglongjmp`. -/
def schedule_next (N : Nat) (k : Context) (s : State) : Option (State × Bool) :=
  match s.g_current with
  | none => none
  | some prev => select_loop N k s.q_head prev N (wake_sweep N s)

/-- What the thread that `siglongjmp` lands in does before it is back in user
code: a context saved inside `uthread_terminate tid` continues with
`g_thread[tid].state = THREAD_UNUSED`; every other context changes nothing. -/
def resume_context (s : State) : State :=
  match s.g_current with
  | none => s
  | some c =>
    match (s.thread c).env with
    | Context.in_terminate tid => s.set_state tid THREAD_UNUSED
    | _ => s

/-! ## Public operations -/

/-- The function `uthread_init`. -/
def uthread_init (N : Nat) (s : State) (quantum_usecs : Int) : State × Int :=
  if quantum_usecs ≤ 0 then (s, -1)
  else
    let tbl := List.replicate N thread_t.zero
    let main_tcb : thread_t :=
      { thread_t.zero with
          tid := 0, state := THREAD_RUNNING, quantums := 1, sleep_until := 0,
          env := Context.in_init }
    ({ s with g_thread := tbl.set 0 main_tcb,
              g_quantum_usecs := quantum_usecs,
              g_total_quantums := 1,
              g_current := some 0 }, 0)

/-- The search loop of `uthread_spawn`: the first `i` in `1 .. N-1` whose slot
is `THREAD_UNUSED`. -/
def find_unused (N : Nat) (s : State) : Option Nat :=
  (List.range' 1 (N - 1)).find? (fun i => decide ((s.thread i).state = THREAD_UNUSED))

/-- The function `uthread_spawn`; the entry point is an address, `0` being
`NULL`.  The new TCB gets `tid`, `state`, `quantums`, `sleep_until` and `entry`
from the assignments of `uthread_spawn` and its `env` from `setup_thread`. -/
def uthread_spawn (N : Nat) (s : State) (entry_point : Nat) : State × Int :=
  if entry_point = 0 then (s, -1)
  else
    match find_unused N s with
    | none => (s, -1)
    | some tid =>
      let t : thread_t :=
        { tid := tid, state := THREAD_READY, quantums := 0, sleep_until := 0,
          entry := entry_point, env := Context.at_entry entry_point }
      (enqueue N (s.set_thread tid t) tid, (tid : Int))

/-- The function `uthread_terminate`. -/
def uthread_terminate (N : Nat) (s : State) (tid : Int) : Option (State × Outcome) :=
  if tid < 0 ∨ tid ≥ (N : Int) ∨ (s.thread tid.toNat).state = THREAD_UNUSED then
    some (s, Outcome.ret (-1))
  else if tid = 0 then some (s, Outcome.exited 0)
  else if (s.thread tid.toNat).state = THREAD_RUNNING then
    match s.g_current with
    | none => none
    | some c =>
      if (s.thread tid.toNat).tid = (s.thread c).tid then
        match schedule_next N (Context.in_terminate tid.toNat)
            (s.set_state tid.toNat THREAD_TERMINATED) with
        | none => none
        | some (s2, true) => some (resume_context s2, Outcome.switched)
        | some (s2, false) => some (s2.set_state tid.toNat THREAD_UNUSED, Outcome.ret 0)
      else some (s.set_state tid.toNat THREAD_UNUSED, Outcome.ret 0)
  else some (s.set_state tid.toNat THREAD_UNUSED, Outcome.ret 0)

/-- The function `uthread_block`. -/
def uthread_block (N : Nat) (s : State) (tid : Int) : Option (State × Outcome) :=
  if tid = 0 ∨ tid < 0 ∨ tid ≥ (N : Int) ∨ (s.thread tid.toNat).state = THREAD_UNUSED then
    some (s, Outcome.ret (-1))
  else if (s.thread tid.toNat).state = THREAD_BLOCKED then some (s, Outcome.ret 0)
  else
    match s.g_current with
    | none => none
    | some c =>
      if tid = ((s.thread c).tid : Int) then
        match schedule_next N Context.in_block (s.set_state tid.toNat THREAD_BLOCKED) with
        | none => none
        | some (s2, true) => some (resume_context s2, Outcome.switched)
        | some (s2, false) => some (s2, Outcome.ret 0)
      else some (s.set_state tid.toNat THREAD_BLOCKED, Outcome.ret 0)

/-- The function `uthread_resume`. -/
def uthread_resume (N : Nat) (s : State) (tid : Int) : State × Int :=
  if tid < 0 ∨ tid ≥ (N : Int) ∨ (s.thread tid.toNat).state = THREAD_UNUSED then (s, -1)
  else if (s.thread tid.toNat).state = THREAD_BLOCKED then
    (enqueue N (s.set_state tid.toNat THREAD_READY) tid.toNat, 0)
  else (s, 0)

/-- The two assignments of `uthread_sleep` before it enters the scheduler:
`g_current->sleep_until = g_total_quantums + num_quantums` and
`g_current->state = THREAD_BLOCKED`, `c` being the slot of `g_current`.  The
sum is the one in `Int`: it is what the C `int` addition yields when it lies
between `INT_MIN` and `INT_MAX`, and says nothing of a call in which the
addition overflows.  Statements whose conclusion depends on the sum carry
that bound as a hypothesis. -/
def sleep_mark (s : State) (c : Nat) (num_quantums : Int) : State :=
  (s.set_thread c
    { s.thread c with sleep_until := s.g_total_quantums + num_quantums }).set_state c
      THREAD_BLOCKED

/-- The function `uthread_sleep`. -/
def uthread_sleep (N : Nat) (s : State) (num_quantums : Int) : Option (State × Outcome) :=
  match s.g_current with
  | none => none
  | some c =>
    if (s.thread c).tid = 0 then some (s, Outcome.ret (-1))
    else
      match schedule_next N Context.in_sleep (sleep_mark s c num_quantums) with
      | none => none
      | some (s3, true) => some (resume_context s3, Outcome.switched)
      | some (s3, false) => some (s3, Outcome.ret 0)

/-- The function `uthread_get_tid`. -/
def uthread_get_tid (s : State) : Int :=
  match s.g_current with
  | none => -1
  | some c => ((s.thread c).tid : Int)

/-- The function `uthread_get_total_quantums`. -/
def uthread_get_total_quantums (s : State) : Int :=
  s.g_total_quantums

/-- The function `uthread_get_quantums`. -/
def uthread_get_quantums (N : Nat) (s : State) (tid : Int) : Int :=
  if tid < 0 ∨ tid ≥ (N : Int) ∨ (s.thread tid.toNat).state = THREAD_UNUSED then -1
  else (s.thread tid.toNat).quantums

/-- The two increments of `timer_handler` before it enters the scheduler:
`++g_total_quantums` and `++g_current->quantums`, `c` being the slot of
`g_current`.  The increments are the ones in `Int`: they are what the C `int`
increments yield while the counters are below `INT_MAX`, and say nothing of a
tick at which a counter overflows.  Statements whose conclusion depends on the
counters carry that bound as a hypothesis. -/
def tick_count (s : State) (c : Nat) : State :=
  let s1 := { s with g_total_quantums := s.g_total_quantums + 1 }
  s1.set_thread c { s1.thread c with quantums := (s1.thread c).quantums + 1 }

/-- The function `timer_handler`: count the quantum, then enter the scheduler. -/
def timer_handler (N : Nat) (s : State) : Option State :=
  match s.g_current with
  | none => none
  | some c =>
    match schedule_next N Context.in_timer (tick_count s c) with
    | none => none
    | some (s3, true) => some (resume_context s3)
    | some (s3, false) => some s3

/-! ## Auxiliary predicates -/

/-- The ring buffer is well formed: it has `N` cells, both cursors are inside
it and every cell holds a slot index. -/
def queue_wf (N : Nat) (s : State) : Prop :=
  s.ready_queue.length = N ∧ s.q_head < N ∧ s.q_tail < N ∧ ∀ e ∈ s.ready_queue, e < N

instance (N : Nat) (s : State) : Decidable (queue_wf N s) := by
  unfold queue_wf; infer_instance

/-- The state `s'` has the same table, current thread and counters as `s`. -/
def same_table (s s' : State) : Prop :=
  s'.g_thread = s.g_thread ∧ s'.g_current = s.g_current
    ∧ s'.g_total_quantums = s.g_total_quantums
    ∧ s'.g_quantum_usecs = s.g_quantum_usecs

/-! ## Reachable states -/

/-- One public call or timer tick after which the process is still running
(`uthread_terminate 0` exits the process and has no successor state). -/
inductive Step (N : Nat) : State → State → Prop
  | init (s : State) (q : Int) : Step N s (uthread_init N s q).1
  | spawn (s : State) (entry_point : Nat) : Step N s (uthread_spawn N s entry_point).1
  | terminate (s s1 : State) (tid : Int) (o : Outcome) :
      uthread_terminate N s tid = some (s1, o) → (∀ st, o ≠ Outcome.exited st) → Step N s s1
  | block (s s1 : State) (tid : Int) (o : Outcome) :
      uthread_block N s tid = some (s1, o) → Step N s s1
  | resume (s : State) (tid : Int) : Step N s (uthread_resume N s tid).1
  | sleep (s s1 : State) (n : Int) (o : Outcome) :
      uthread_sleep N s n = some (s1, o) → Step N s s1
  | tick (s s1 : State) : timer_handler N s = some s1 → Step N s s1

/-- The states reachable from a successful `uthread_init` at program start by
public calls and timer ticks. -/
inductive Reachable (N : Nat) : State → Prop
  | init (q : Int) : 0 < q → Reachable N (uthread_init N (State.static_init N) q).1
  | step (s s1 : State) : Reachable N s → Step N s s1 → Reachable N s1

/-- Structural invariant of the library state. -/
structure Inv (N : Nat) (s : State) : Prop where
  queue : queue_wf N s
  table_len : s.g_thread.length = N
  current : ∃ c, s.g_current = some c ∧ c < N ∧ (s.thread c).tid = c
  tid_ok : ∀ i, i < N → (s.thread i).state ≠ THREAD_UNUSED → (s.thread i).tid = i
  env_ok : ∀ i x, i < N → (s.thread i).env = Context.in_terminate x → x = i

/-! ## Concrete states used by the examples

Runs with `MAX_THREAD_NUM = 3` and `MAX_THREAD_NUM = 4`, written out so that
they can be traced by hand.  A TCB is listed as
`⟨tid, state, quantums, sleep_until, entry, env⟩`. -/

/-- After `uthread_init(100000)` at program start. -/
def ex3_init : State := (uthread_init 3 (State.static_init 3) 100000).1

/-- After `ex3_init` and `uthread_spawn`: thread 1 is `READY` and queued. -/
def ex3_spawn : State := (uthread_spawn 3 ex3_init 7).1

/-- After `ex3_spawn` and one timer tick: thread 1 runs, thread 0 is queued. -/
def ex3_run1 : State :=
  { g_quantum_usecs := 100000, g_total_quantums := 2,
    g_thread := [⟨0, THREAD_READY, 2, 0, 0, Context.in_timer⟩,
                 ⟨1, THREAD_RUNNING, 0, 0, 7, Context.at_entry 7⟩,
                 thread_t.zero],
    g_current := some 1, ready_queue := [1, 0, 0], q_head := 1, q_tail := 2 }

/-- After `ex3_run1` and `uthread_sleep(1)` called by thread 1: thread 1 sleeps
until quantum 3, thread 0 runs, the queue is empty. -/
def ex3_sleeper : State :=
  { g_quantum_usecs := 100000, g_total_quantums := 2,
    g_thread := [⟨0, THREAD_RUNNING, 2, 0, 0, Context.in_timer⟩,
                 ⟨1, THREAD_BLOCKED, 0, 3, 7, Context.in_sleep⟩,
                 thread_t.zero],
    g_current := some 0, ready_queue := [1, 0, 0], q_head := 2, q_tail := 2 }

/-- After `ex3_sleeper` and `uthread_resume(1)`: thread 1 is `READY` and queued
and still has `sleep_until = 3`. -/
def ex3_resumed : State :=
  { g_quantum_usecs := 100000, g_total_quantums := 2,
    g_thread := [⟨0, THREAD_RUNNING, 2, 0, 0, Context.in_timer⟩,
                 ⟨1, THREAD_READY, 0, 3, 7, Context.in_sleep⟩,
                 thread_t.zero],
    g_current := some 0, ready_queue := [1, 0, 1], q_head := 2, q_tail := 0 }

/-- After `ex3_resumed` and one timer tick: thread 1 runs in quantum 3 with
`sleep_until = 3`. -/
def ex3_stale : State :=
  { g_quantum_usecs := 100000, g_total_quantums := 3,
    g_thread := [⟨0, THREAD_READY, 3, 0, 0, Context.in_timer⟩,
                 ⟨1, THREAD_RUNNING, 0, 3, 7, Context.in_sleep⟩,
                 thread_t.zero],
    g_current := some 1, ready_queue := [0, 0, 1], q_head := 0, q_tail := 1 }

/-- After `ex3_spawn` and `uthread_block(1)`: thread 1 is `BLOCKED`, its queue
entry stays. -/
def ex3_blocked : State :=
  { g_quantum_usecs := 100000, g_total_quantums := 1,
    g_thread := [⟨0, THREAD_RUNNING, 1, 0, 0, Context.in_init⟩,
                 ⟨1, THREAD_BLOCKED, 0, 0, 7, Context.at_entry 7⟩,
                 thread_t.zero],
    g_current := some 0, ready_queue := [1, 0, 0], q_head := 0, q_tail := 1 }

/-- After `ex3_blocked` and `uthread_resume(1)`: thread 1 is `READY` and stands
twice in the queue, which now holds `N - 1 = 2` entries. -/
def ex3_full : State :=
  { g_quantum_usecs := 100000, g_total_quantums := 1,
    g_thread := [⟨0, THREAD_RUNNING, 1, 0, 0, Context.in_init⟩,
                 ⟨1, THREAD_READY, 0, 0, 7, Context.at_entry 7⟩,
                 thread_t.zero],
    g_current := some 0, ready_queue := [1, 1, 0], q_head := 0, q_tail := 2 }

/-- After `ex3_full` and `uthread_block(1)`: thread 1 is `BLOCKED` with
`sleep_until = 0` and the queue still holds 2 entries. -/
def ex3_full_blocked : State :=
  { g_quantum_usecs := 100000, g_total_quantums := 1,
    g_thread := [⟨0, THREAD_RUNNING, 1, 0, 0, Context.in_init⟩,
                 ⟨1, THREAD_BLOCKED, 0, 0, 7, Context.at_entry 7⟩,
                 thread_t.zero],
    g_current := some 0, ready_queue := [1, 1, 0], q_head := 0, q_tail := 2 }

/-- After `ex3_spawn` and a second `uthread_spawn`: threads 1 and 2 are queued. -/
def ex3_two : State := (uthread_spawn 3 ex3_spawn 8).1

/-- After `ex3_two` and one timer tick: thread 1 runs, the queue is `[2, 0]`. -/
def ex3_two_run1 : State :=
  { g_quantum_usecs := 100000, g_total_quantums := 2,
    g_thread := [⟨0, THREAD_READY, 2, 0, 0, Context.in_timer⟩,
                 ⟨1, THREAD_RUNNING, 0, 0, 7, Context.at_entry 7⟩,
                 ⟨2, THREAD_READY, 0, 0, 8, Context.at_entry 8⟩],
    g_current := some 1, ready_queue := [1, 2, 0], q_head := 1, q_tail := 0 }

/-- After `ex3_two_run1` and `uthread_terminate(1)` called by thread 1. -/
def ex3_terminated : State :=
  { g_quantum_usecs := 100000, g_total_quantums := 2,
    g_thread := [⟨0, THREAD_READY, 2, 0, 0, Context.in_timer⟩,
                 ⟨1, THREAD_TERMINATED, 0, 0, 7, Context.in_terminate 1⟩,
                 ⟨2, THREAD_RUNNING, 0, 0, 8, Context.at_entry 8⟩],
    g_current := some 2, ready_queue := [1, 2, 0], q_head := 2, q_tail := 0 }

/-- After `ex3_two_run1` and `uthread_block(2)` called by thread 1. -/
def ex3_two_blocked : State :=
  { g_quantum_usecs := 100000, g_total_quantums := 2,
    g_thread := [⟨0, THREAD_READY, 2, 0, 0, Context.in_timer⟩,
                 ⟨1, THREAD_RUNNING, 0, 0, 7, Context.at_entry 7⟩,
                 ⟨2, THREAD_BLOCKED, 0, 0, 8, Context.at_entry 8⟩],
    g_current := some 1, ready_queue := [1, 2, 0], q_head := 1, q_tail := 0 }

/-- After `ex3_two_blocked` and `uthread_resume(2)`: the third entry wrapped
`q_tail` onto `q_head`, so the queue reads as empty although threads 0 and 2
are `READY`. -/
def ex3_lost : State :=
  { g_quantum_usecs := 100000, g_total_quantums := 2,
    g_thread := [⟨0, THREAD_READY, 2, 0, 0, Context.in_timer⟩,
                 ⟨1, THREAD_RUNNING, 0, 0, 7, Context.at_entry 7⟩,
                 ⟨2, THREAD_READY, 0, 0, 8, Context.at_entry 8⟩],
    g_current := some 1, ready_queue := [2, 2, 0], q_head := 1, q_tail := 1 }

/-- The state in which `uthread_block(1)`, called by thread 1 in `ex3_lost`,
enters `schedule_next`: thread 1 has just been marked `BLOCKED`. -/
def ex3_lost_marked : State :=
  { g_quantum_usecs := 100000, g_total_quantums := 2,
    g_thread := [⟨0, THREAD_READY, 2, 0, 0, Context.in_timer⟩,
                 ⟨1, THREAD_BLOCKED, 0, 0, 7, Context.at_entry 7⟩,
                 ⟨2, THREAD_READY, 0, 0, 8, Context.at_entry 8⟩],
    g_current := some 1, ready_queue := [2, 2, 0], q_head := 1, q_tail := 1 }

/-- A state in which slot 0 is `BLOCKED` with `sleep_until = 1` in quantum 2
while thread 1 runs. -/
def ex3_main_asleep : State :=
  { g_quantum_usecs := 100000, g_total_quantums := 2,
    g_thread := [⟨0, THREAD_BLOCKED, 2, 1, 0, Context.in_timer⟩,
                 ⟨1, THREAD_RUNNING, 0, 0, 7, Context.at_entry 7⟩,
                 thread_t.zero],
    g_current := some 1, ready_queue := [1, 0, 0], q_head := 2, q_tail := 2 }

/-- With `MAX_THREAD_NUM = 4`: `uthread_init`, two `uthread_spawn`. -/
def ex4_two : State :=
  (uthread_spawn 4 (uthread_spawn 4 (uthread_init 4 (State.static_init 4) 100000).1 7).1 8).1

/-- After `ex4_two` and two timer ticks: thread 2 runs in quantum 3. -/
def ex4_run2 : State :=
  { g_quantum_usecs := 100000, g_total_quantums := 3,
    g_thread := [⟨0, THREAD_READY, 2, 0, 0, Context.in_timer⟩,
                 ⟨1, THREAD_READY, 1, 0, 7, Context.in_timer⟩,
                 ⟨2, THREAD_RUNNING, 0, 0, 8, Context.at_entry 8⟩,
                 thread_t.zero],
    g_current := some 2, ready_queue := [1, 2, 0, 1], q_head := 2, q_tail := 0 }

/-- After `ex4_run2`, `uthread_sleep(1)` called by thread 2 and
`uthread_resume(2)` called by thread 0: thread 2 is `READY` with
`sleep_until = 4`. -/
def ex4_resumed : State :=
  { g_quantum_usecs := 100000, g_total_quantums := 3,
    g_thread := [⟨0, THREAD_RUNNING, 2, 0, 0, Context.in_timer⟩,
                 ⟨1, THREAD_READY, 1, 0, 7, Context.in_timer⟩,
                 ⟨2, THREAD_READY, 0, 4, 8, Context.in_sleep⟩,
                 thread_t.zero],
    g_current := some 0, ready_queue := [2, 2, 0, 1], q_head := 3, q_tail := 1 }

/-- After `ex4_resumed`, one timer tick and `uthread_block(2)` called by
thread 1: thread 1 runs in quantum 4, the queue is `[2, 0]`, thread 2 is
`BLOCKED` with `sleep_until = 4` and thread 0 is `READY`. -/
def ex4_stale : State :=
  { g_quantum_usecs := 100000, g_total_quantums := 4,
    g_thread := [⟨0, THREAD_READY, 3, 0, 0, Context.in_timer⟩,
                 ⟨1, THREAD_RUNNING, 1, 0, 7, Context.in_timer⟩,
                 ⟨2, THREAD_BLOCKED, 0, 4, 8, Context.in_sleep⟩,
                 thread_t.zero],
    g_current := some 1, ready_queue := [2, 0, 0, 1], q_head := 0, q_tail := 2 }

/-- After `ex3_stale` and `uthread_block(1)` called by thread 1: the sweep has
woken thread 1, which is `READY` and queued; thread 0 runs. -/
def ex3_stale_once : State :=
  { g_quantum_usecs := 100000, g_total_quantums := 3,
    g_thread := [⟨0, THREAD_RUNNING, 3, 0, 0, Context.in_timer⟩,
                 ⟨1, THREAD_READY, 0, 0, 7, Context.in_block⟩,
                 thread_t.zero],
    g_current := some 0, ready_queue := [0, 1, 1], q_head := 1, q_tail := 2 }

/-- After `ex3_stale_once` and a second `uthread_block(1)`: thread 1 is
`BLOCKED`. -/
def ex3_stale_twice : State :=
  { g_quantum_usecs := 100000, g_total_quantums := 3,
    g_thread := [⟨0, THREAD_RUNNING, 3, 0, 0, Context.in_timer⟩,
                 ⟨1, THREAD_BLOCKED, 0, 0, 7, Context.in_block⟩,
                 thread_t.zero],
    g_current := some 0, ready_queue := [0, 1, 1], q_head := 1, q_tail := 2 }

/-! ## Further example states, invariants and restricted runs -/

/-- After `ex3_two_run1` and `uthread_sleep(1)` called by thread 1: thread 1
sleeps until quantum 3, thread 2 runs, the queue is `[0]`. -/
def ex3_two_asleep : State :=
  { g_quantum_usecs := 100000, g_total_quantums := 2,
    g_thread := [⟨0, THREAD_READY, 2, 0, 0, Context.in_timer⟩,
                 ⟨1, THREAD_BLOCKED, 0, 3, 7, Context.in_sleep⟩,
                 ⟨2, THREAD_RUNNING, 0, 0, 8, Context.at_entry 8⟩],
    g_current := some 2, ready_queue := [1, 2, 0], q_head := 2, q_tail := 0 }

/-- After `ex3_two_asleep` and one timer tick: the sweep woke thread 1 in
quantum 3, thread 0 runs and the queue is `[1, 2]`. -/
def ex3_two_woken : State :=
  { g_quantum_usecs := 100000, g_total_quantums := 3,
    g_thread := [⟨0, THREAD_RUNNING, 2, 0, 0, Context.in_timer⟩,
                 ⟨1, THREAD_READY, 0, 0, 7, Context.in_sleep⟩,
                 ⟨2, THREAD_READY, 1, 0, 8, Context.in_timer⟩],
    g_current := some 0, ready_queue := [1, 2, 0], q_head := 0, q_tail := 2 }

/-- After `ex3_two`, `uthread_block(1)` and `uthread_block(2)` called by thread
0: both threads are `BLOCKED` and their entries are still in the queue. -/
def ex3_both_blocked : State :=
  { g_quantum_usecs := 100000, g_total_quantums := 1,
    g_thread := [⟨0, THREAD_RUNNING, 1, 0, 0, Context.in_init⟩,
                 ⟨1, THREAD_BLOCKED, 0, 0, 7, Context.at_entry 7⟩,
                 ⟨2, THREAD_BLOCKED, 0, 0, 8, Context.at_entry 8⟩],
    g_current := some 0, ready_queue := [1, 2, 0], q_head := 0, q_tail := 2 }

/-- After `ex3_two_blocked` and one timer tick: thread 0 runs; the stale entry
of the `BLOCKED` thread 2 is still in the queue, in front of thread 1. -/
def ex3_two_blocked_tick : State :=
  { g_quantum_usecs := 100000, g_total_quantums := 3,
    g_thread := [⟨0, THREAD_RUNNING, 2, 0, 0, Context.in_timer⟩,
                 ⟨1, THREAD_READY, 1, 0, 7, Context.in_timer⟩,
                 ⟨2, THREAD_BLOCKED, 0, 0, 8, Context.at_entry 8⟩],
    g_current := some 0, ready_queue := [2, 1, 0], q_head := 0, q_tail := 2 }

/-- With `MAX_THREAD_NUM = 4`: `uthread_init`, `uthread_spawn`,
`uthread_block(1)`, `uthread_resume(1)`: thread 1 is `READY` and stands twice in
the queue. -/
def ex4_dup : State :=
  { g_quantum_usecs := 100000, g_total_quantums := 1,
    g_thread := [⟨0, THREAD_RUNNING, 1, 0, 0, Context.in_init⟩,
                 ⟨1, THREAD_READY, 0, 0, 7, Context.at_entry 7⟩,
                 thread_t.zero, thread_t.zero],
    g_current := some 0, ready_queue := [1, 1, 0, 0], q_head := 0, q_tail := 2 }

/-- After `ex4_dup` and one timer tick: thread 1 runs and the queue is `[1, 0]`,
its first entry being the second, stale entry of thread 1. -/
def ex4_dup_run1 : State :=
  { g_quantum_usecs := 100000, g_total_quantums := 2,
    g_thread := [⟨0, THREAD_READY, 2, 0, 0, Context.in_timer⟩,
                 ⟨1, THREAD_RUNNING, 0, 0, 7, Context.at_entry 7⟩,
                 thread_t.zero, thread_t.zero],
    g_current := some 1, ready_queue := [1, 1, 0, 0], q_head := 1, q_tail := 3 }

/-- After `ex4_dup_run1` and `uthread_sleep(0)` called by thread 1: the sweep woke
thread 1 at once and the selection loop picked it through its stale entry;
thread 1 is current and `READY`. -/
def ex4_self : State :=
  { g_quantum_usecs := 100000, g_total_quantums := 2,
    g_thread := [⟨0, THREAD_READY, 2, 0, 0, Context.in_timer⟩,
                 ⟨1, THREAD_READY, 0, 0, 7, Context.in_sleep⟩,
                 thread_t.zero, thread_t.zero],
    g_current := some 1, ready_queue := [1, 1, 0, 1], q_head := 2, q_tail := 1 }

/-- Invariant on the main thread and on the `RUNNING` state: slot 0 is `READY`
or `RUNNING`, never sleeps and its saved context is not one inside
`uthread_terminate`; a TCB whose state is `RUNNING` is the current one. -/
structure RunInv (s : State) : Prop where
  main_state : (s.thread 0).state = THREAD_READY ∨ (s.thread 0).state = THREAD_RUNNING
  main_sleep : (s.thread 0).sleep_until = 0
  main_env : ∀ x, (s.thread 0).env ≠ Context.in_terminate x
  run_cur : ∀ i, (s.thread i).state = THREAD_RUNNING → s.g_current = some i

/-- After `ex3_two_run1` and `uthread_sleep(0)` called by thread 1: the sweep woke
the caller at once and its entry was the third one in a ring of three, so the
queue reads as empty, nothing was selected and every thread is `READY`. -/
def ex3_all_ready : State :=
  { g_quantum_usecs := 100000, g_total_quantums := 2,
    g_thread := [⟨0, THREAD_READY, 2, 0, 0, Context.in_timer⟩,
                 ⟨1, THREAD_READY, 0, 0, 7, Context.at_entry 7⟩,
                 ⟨2, THREAD_READY, 0, 0, 8, Context.at_entry 8⟩],
    g_current := some 1, ready_queue := [1, 2, 0], q_head := 1, q_tail := 1 }

/-- The state `s'` has the same quantum counters and `tid` fields as `s`. -/
def same_counts (s s' : State) : Prop :=
  s'.g_total_quantums = s.g_total_quantums ∧
  ∀ i, (s'.thread i).quantums = (s.thread i).quantums ∧ (s'.thread i).tid = (s.thread i).tid

/-- The outcome of `k` timer ticks in a row with no library call in between. -/
def ticks (N : Nat) : Nat → State → Option State
  | 0, s => some s
  | k + 1, s =>
    match timer_handler N s with
    | none => none
    | some s1 => ticks N k s1

/-- The state of the round-robin scenario before the first tick:
`uthread_init(q)` at program start, then `uthread_spawn(f)` and
`uthread_spawn(g)`. -/
def rr_start (N : Nat) (q : Int) (f g : Nat) : State :=
  (uthread_spawn N (uthread_spawn N (uthread_init N (State.static_init N) q).1 f).1 g).1

/-- Three threads taking turns: `c` runs, `a` and `b` wait in the queue in this
order, nobody is blocked and no saved context of a waiting thread is one
inside `uthread_terminate`. -/
structure RoundRobin (N : Nat) (s : State) (c a b : Nat) : Prop where
  inv : Inv N s
  cur : s.g_current = some c
  ha : a < N
  hb : b < N
  hca : c ≠ a
  hcb : c ≠ b
  hab : a ≠ b
  run : (s.thread c).state = THREAD_RUNNING
  ready_a : (s.thread a).state = THREAD_READY
  ready_b : (s.thread b).state = THREAD_READY
  awake : ∀ i, (s.thread i).state ≠ THREAD_BLOCKED
  env_a : ∀ x, (s.thread a).env ≠ Context.in_terminate x
  env_b : ∀ x, (s.thread b).env ≠ Context.in_terminate x
  queue : queue_list N s = [a, b]

/-- After `ex4_two` and six timer ticks: thread 0 runs again in quantum 7. -/
def ex4_six_ticks : State :=
  { g_quantum_usecs := 100000, g_total_quantums := 7,
    g_thread := [⟨0, THREAD_RUNNING, 3, 0, 0, Context.in_timer⟩,
                 ⟨1, THREAD_READY, 2, 0, 7, Context.in_timer⟩,
                 ⟨2, THREAD_READY, 2, 0, 8, Context.in_timer⟩,
                 thread_t.zero],
    g_current := some 0, ready_queue := [2, 0, 1, 2], q_head := 2, q_tail := 0 }

/-- The queue discipline: no index stands twice in the ready queue, an index
stands in it exactly when its thread is `READY`, a thread that is `READY` or
`RUNNING` has no wake-up time, and a context saved inside `uthread_terminate`
belongs to a slot that is `TERMINATED` or `UNUSED`. -/
structure QueueInv (N : Nat) (s : State) : Prop where
  nodup : (queue_list N s).Nodup
  mem : ∀ i, i ∈ queue_list N s ↔ (s.thread i).state = THREAD_READY
  awake : ∀ i, (s.thread i).state = THREAD_READY ∨ (s.thread i).state = THREAD_RUNNING →
    (s.thread i).sleep_until = 0
  env_term : ∀ i x, (s.thread i).env = Context.in_terminate x →
    (s.thread i).state = THREAD_TERMINATED ∨ (s.thread i).state = THREAD_UNUSED

/-- The state in which the sleep-wake sweep of a scheduler pass entered by
thread `c` works: the queue discipline holds, `c` is not `READY` and is not a
sleeper to wake. -/
structure SweepInv (N : Nat) (s : State) (c : Nat) : Prop where
  wf : queue_wf N s
  len : s.g_thread.length = N
  hc : c < N
  q : QueueInv N s
  not_ready : (s.thread c).state ≠ THREAD_READY
  not_due : ¬ is_due s c

/-- One timer tick or public call of an orderly run: `uthread_sleep` is called
with a positive number of quantums, `uthread_block` is applied to the calling
thread or to a thread that is already `BLOCKED`, `uthread_terminate` to the
calling thread or to a thread that is not `READY`, `uthread_resume` not to a
sleeping thread, and `uthread_init` is not called again.  No `int` addition
overflows: `uthread_sleep(n)` is called with `g_total_quantums + n` at most
`INT_MAX`, and a timer tick arrives while `g_total_quantums` and every
`quantums` field are below `INT_MAX`. -/
inductive OrderlyStep (N : Nat) : State → State → Prop
  | spawn (s : State) (entry_point : Nat) : OrderlyStep N s (uthread_spawn N s entry_point).1
  | terminate (s s1 : State) (tid : Int) (o : Outcome) :
      uthread_terminate N s tid = some (s1, o) → (∀ st, o ≠ Outcome.exited st) →
      (s.thread tid.toNat).state ≠ THREAD_READY → OrderlyStep N s s1
  | block (s s1 : State) (tid : Int) (o : Outcome) :
      uthread_block N s tid = some (s1, o) →
      (s.thread tid.toNat).state ≠ THREAD_READY →
      (s.thread tid.toNat).state ≠ THREAD_TERMINATED → OrderlyStep N s s1
  | resume (s : State) (tid : Int) :
      ¬ ((s.thread tid.toNat).state = THREAD_BLOCKED ∧ (s.thread tid.toNat).sleep_until ≠ 0) →
      OrderlyStep N s (uthread_resume N s tid).1
  | sleep (s s1 : State) (n : Int) (o : Outcome) :
      uthread_sleep N s n = some (s1, o) → 1 ≤ n → s.g_total_quantums + n ≤ INT_MAX →
      OrderlyStep N s s1
  | tick (s s1 : State) :
      timer_handler N s = some s1 → s.g_total_quantums < INT_MAX →
      (∀ i, i < N → (s.thread i).quantums < INT_MAX) → OrderlyStep N s s1

/-- The states of orderly runs: reachable from a successful `uthread_init` at
program start by the steps of `OrderlyStep`. -/
inductive OrderlyReachable (N : Nat) : State → Prop
  | init (q : Int) : 0 < q → OrderlyReachable N (uthread_init N (State.static_init N) q).1
  | step (s s1 : State) : OrderlyReachable N s → OrderlyStep N s s1 → OrderlyReachable N s1

/-- The invariant of orderly runs: the queue discipline, and the current
thread is `RUNNING`. -/
structure OrderlyInv (N : Nat) (s : State) : Prop where
  q : QueueInv N s
  cur_run : ∀ c, s.g_current = some c → (s.thread c).state = THREAD_RUNNING

/-! ## Elementary facts about the table and the queue -/

theorem mod_wrap (a N : Nat) (h : a < 2 * N) :
    a % N = if a < N then a else a - N := by
  split
  · next h1 => exact Nat.mod_eq_of_lt h1
  · next h1 =>
    rw [Nat.mod_eq_sub_mod (by omega)]
    exact Nat.mod_eq_of_lt (by omega)

theorem thread_set_thread (s : State) (i j : Nat) (t : thread_t) :
    (s.set_thread i t).thread j
      = if j = i ∧ i < s.g_thread.length then t else s.thread j := by
  unfold State.set_thread State.thread
  simp only [List.getD_eq_getElem?_getD, List.getElem?_set]
  by_cases h : i = j
  · subst h
    by_cases h2 : i < s.g_thread.length
    · simp [h2]
    · simp [h2]
      have : s.g_thread.length ≤ i := by omega
      simp [List.getElem?_eq_none this]
  · have h' : ¬ j = i := fun e => h e.symm
    simp [h, h']

theorem thread_set_thread_self (s : State) (i : Nat) (t : thread_t)
    (h : i < s.g_thread.length) : (s.set_thread i t).thread i = t := by
  rw [thread_set_thread]; simp [h]

theorem thread_set_thread_ne (s : State) (i j : Nat) (t : thread_t)
    (h : j ≠ i) : (s.set_thread i t).thread j = s.thread j := by
  rw [thread_set_thread]; simp [h]

theorem thread_of_ge (s : State) (i : Nat) (h : s.g_thread.length ≤ i) :
    s.thread i = thread_t.zero := by
  unfold State.thread
  simp [List.getD_eq_getElem?_getD, List.getElem?_eq_none h]

theorem lt_of_state_ne_unused (s : State) (i : Nat)
    (h : (s.thread i).state ≠ THREAD_UNUSED) : i < s.g_thread.length := by
  by_contra hc
  apply h
  rw [thread_of_ge s i (by omega)]
  rfl

theorem thread_set_state (s : State) (i j : Nat) (st : ThreadState) :
    (s.set_state i st).thread j
      = if j = i ∧ i < s.g_thread.length then { s.thread i with state := st }
        else s.thread j := by
  unfold State.set_state
  rw [thread_set_thread]

theorem thread_enqueue (N : Nat) (s : State) (x i : Nat) :
    (enqueue N s x).thread i = s.thread i := rfl

theorem queue_len_lt (N : Nat) (s : State) (hN : 0 < N) : queue_len N s < N :=
  Nat.mod_lt _ hN

theorem queue_len_enqueue (N : Nat) (s : State) (x : Nat)
    (hh : s.q_head < N) (ht : s.q_tail < N) (hfull : queue_len N s + 1 < N) :
    queue_len N (enqueue N s x) = queue_len N s + 1 := by
  unfold queue_len enqueue at *
  simp only at *
  rw [mod_wrap (s.q_tail + 1) N (by omega)]
  rw [mod_wrap (s.q_tail + N - s.q_head) N (by omega)] at hfull ⊢
  split_ifs at hfull ⊢ <;> rw [mod_wrap _ N (by omega)] <;> split_ifs <;> omega

theorem queue_idx_ne_tail (N : Nat) (s : State) (k : Nat)
    (hh : s.q_head < N) (ht : s.q_tail < N) (hk : k < queue_len N s) :
    (s.q_head + k) % N ≠ s.q_tail := by
  unfold queue_len at hk
  rw [mod_wrap (s.q_tail + N - s.q_head) N (by omega)] at hk
  have hkN : k < N := by split_ifs at hk <;> omega
  rw [mod_wrap _ N (by omega)]
  split_ifs at hk ⊢ <;> omega

theorem queue_idx_len (N : Nat) (s : State)
    (hh : s.q_head < N) (ht : s.q_tail < N) :
    (s.q_head + queue_len N s) % N = s.q_tail := by
  unfold queue_len
  rw [mod_wrap (s.q_tail + N - s.q_head) N (by omega)]
  split_ifs <;> rw [mod_wrap _ N (by omega)] <;> split_ifs <;> omega

/-- Below capacity, `enqueue` appends at the tail. -/
theorem queue_list_enqueue (N : Nat) (s : State) (x : Nat)
    (hq : s.ready_queue.length = N)
    (hh : s.q_head < N) (ht : s.q_tail < N) (hfull : queue_len N s + 1 < N) :
    queue_list N (enqueue N s x) = queue_list N s ++ [x] := by
  unfold queue_list
  rw [queue_len_enqueue N s x hh ht hfull, List.range_succ, List.map_append]
  congr 1
  · apply List.map_congr_left
    intro k hk
    have hk' : k < queue_len N s := List.mem_range.mp hk
    have hne := queue_idx_ne_tail N s k hh ht hk'
    simp only [enqueue, List.getD_eq_getElem?_getD, List.getElem?_set]
    rw [if_neg (fun e => hne e.symm)]
  · simp only [List.map_cons, List.map_nil, enqueue]
    rw [queue_idx_len N s hh ht]
    simp [List.getD_eq_getElem?_getD, List.getElem?_set, hq, ht]

theorem queue_len_eq_zero (N : Nat) (s : State)
    (hh : s.q_head < N) (ht : s.q_tail < N) :
    queue_len N s = 0 ↔ s.q_head = s.q_tail := by
  unfold queue_len
  rw [mod_wrap (s.q_tail + N - s.q_head) N (by omega)]
  split_ifs <;> omega

theorem queue_len_advance (N : Nat) (s : State)
    (hh : s.q_head < N) (ht : s.q_tail < N) (hne : s.q_head ≠ s.q_tail) :
    queue_len N s = queue_len N { s with q_head := (s.q_head + 1) % N } + 1 := by
  unfold queue_len
  simp only
  rw [mod_wrap (s.q_head + 1) N (by omega)]
  rw [mod_wrap (s.q_tail + N - s.q_head) N (by omega)]
  split_ifs <;> rw [mod_wrap _ N (by omega)] <;> split_ifs <;> omega

/-- On a non-empty queue, the entry at `q_head` is the first of `queue_list`
and advancing `q_head` leaves the rest. -/
theorem queue_list_advance (N : Nat) (s : State)
    (hh : s.q_head < N) (ht : s.q_tail < N) (hne : s.q_head ≠ s.q_tail) :
    queue_list N s
      = s.ready_queue.getD s.q_head 0
          :: queue_list N { s with q_head := (s.q_head + 1) % N } := by
  unfold queue_list
  rw [queue_len_advance N s hh ht hne, List.range_succ_eq_map]
  simp only [List.map_cons, List.map_map, Nat.add_zero]
  rw [Nat.mod_eq_of_lt hh]
  congr 1
  apply List.map_congr_left
  intro k _
  simp only [Function.comp, Nat.succ_eq_add_one]
  rw [Nat.mod_add_mod]
  congr 2
  omega

theorem queue_list_eq_nil (N : Nat) (s : State)
    (hh : s.q_head < N) (ht : s.q_tail < N) :
    queue_list N s = [] ↔ s.q_head = s.q_tail := by
  rw [← queue_len_eq_zero N s hh ht]
  unfold queue_list
  simp

/-! ## `uthread_init` -/

/-- C1: `uthread_init q` returns -1 and changes nothing when `q <= 0`; for
`q > 0` it returns 0 and leaves TID 0 `RUNNING` with `quantums = 1` and
`sleep_until = 0`, `current = 0`, `total_quantums = 1` and every other slot
`UNUSED`, so that `get_tid() = 0`, `get_total_quantums() = 1` and
`get_quantums(0) = 1`. -/
theorem uthread_init_spec (N : Nat) (s : State) (q : Int) (hN : 0 < N) :
    (q ≤ 0 → uthread_init N s q = (s, -1)) ∧
    (0 < q →
      (uthread_init N s q).2 = 0 ∧
      ((uthread_init N s q).1.thread 0).state = THREAD_RUNNING ∧
      ((uthread_init N s q).1.thread 0).quantums = 1 ∧
      ((uthread_init N s q).1.thread 0).sleep_until = 0 ∧
      ((uthread_init N s q).1.thread 0).tid = 0 ∧
      (uthread_init N s q).1.g_current = some 0 ∧
      (uthread_init N s q).1.g_total_quantums = 1 ∧
      (∀ i, 0 < i → i < N → ((uthread_init N s q).1.thread i).state = THREAD_UNUSED) ∧
      uthread_get_tid (uthread_init N s q).1 = 0 ∧
      uthread_get_total_quantums (uthread_init N s q).1 = 1 ∧
      uthread_get_quantums N (uthread_init N s q).1 0 = 1) := by
  constructor
  · intro h
    simp [uthread_init, h]
  · intro h
    have hq : ¬ q ≤ 0 := by omega
    have h0 : ((uthread_init N s q).1.thread 0)
        = { thread_t.zero with
            tid := 0, state := THREAD_RUNNING, quantums := 1, sleep_until := 0,
            env := Context.in_init } := by
      simp [uthread_init, hq, State.thread, List.getD_eq_getElem?_getD,
        List.getElem?_set, hN]
    have hcur : (uthread_init N s q).1.g_current = some 0 := by
      simp [uthread_init, hq]
    refine ⟨by simp [uthread_init, hq], by rw [h0], by rw [h0], by rw [h0], by rw [h0],
      hcur, by simp [uthread_init, hq], ?_, ?_, by simp [uthread_init, hq, uthread_get_total_quantums], ?_⟩
    · intro i hi hiN
      have hne : ¬ 0 = i := by omega
      simp [uthread_init, hq, State.thread, List.getD_eq_getElem?_getD,
        List.getElem?_set, hne, List.getElem?_replicate, hiN, thread_t.zero]
    · simp [uthread_get_tid, hcur, h0]
    · have hN' : ¬ (N : Int) ≤ 0 := by omega
      simp [uthread_get_quantums, h0, hN']

/-- Witness for C1 with `N = 3` and `quantum_usecs = 100000`. -/
theorem uthread_init_spec_witness :
    (0 : Nat) < 3 ∧
    uthread_get_quantums 3 (uthread_init 3 (State.static_init 3) 100000).1 0 = 1 :=
  ⟨by decide,
   ((uthread_init_spec 3 (State.static_init 3) 100000 (by decide)).2 (by decide)).2.2.2.2.2.2.2.2.2.2⟩

/-! ## `uthread_spawn` -/

theorem find_unused_eq_some (N : Nat) (s : State) (t : Nat) :
    find_unused N s = some t ↔
      (1 ≤ t ∧ t < N ∧ (s.thread t).state = THREAD_UNUSED
        ∧ ∀ j, 1 ≤ j → j < t → (s.thread j).state ≠ THREAD_UNUSED) := by
  unfold find_unused
  rw [List.find?_range'_eq_some]
  simp only [decide_eq_true_eq, List.mem_range', Bool.not_eq_true', decide_eq_false_iff_not]
  constructor
  · rintro ⟨h1, ⟨k, hk, rfl⟩, h3⟩
    exact ⟨by omega, by omega, h1, h3⟩
  · rintro ⟨h1, h2, h3, h4⟩
    exact ⟨h3, ⟨t - 1, by omega, by omega⟩, h4⟩

theorem find_unused_eq_none (N : Nat) (s : State) :
    find_unused N s = none ↔
      ∀ j, 1 ≤ j → j < N → (s.thread j).state ≠ THREAD_UNUSED := by
  unfold find_unused
  rw [List.find?_eq_none]
  simp only [decide_eq_true_eq, List.mem_range']
  constructor
  · intro h j h1 h2
    exact h j ⟨j - 1, by omega, by omega⟩
  · rintro h j ⟨k, hk, rfl⟩
    exact h _ (by omega) (by omega)

/-- C2 (amended): with a non-null entry point, if `t` is the smallest index in
`[1, N)` whose slot is `UNUSED`, `uthread_spawn` returns `t`, makes slot `t`
`READY` with `quantums = 0` and `sleep_until = 0`, stores `t` at `q_tail` and
advances `q_tail` modulo `N`, and leaves every other TCB, `g_current`,
`g_total_quantums` and `q_head` unchanged; when the queue holds fewer than
`N - 1` entries this appends `t` at its tail.  If no slot in `[1, N)` is
`UNUSED`, or the entry point is null, it returns -1 and changes nothing. -/
theorem uthread_spawn_spec (N : Nat) (s : State) (entry_point : Nat)
    (hentry : entry_point ≠ 0) (hlen : s.g_thread.length = N)
    (hq : s.ready_queue.length = N) (hh : s.q_head < N) (ht : s.q_tail < N) :
    (∀ t, 1 ≤ t → t < N → (s.thread t).state = THREAD_UNUSED →
      (∀ j, 1 ≤ j → j < t → (s.thread j).state ≠ THREAD_UNUSED) →
        (uthread_spawn N s entry_point).2 = (t : Int) ∧
        ((uthread_spawn N s entry_point).1.thread t).state = THREAD_READY ∧
        ((uthread_spawn N s entry_point).1.thread t).quantums = 0 ∧
        ((uthread_spawn N s entry_point).1.thread t).sleep_until = 0 ∧
        (∀ j, j ≠ t → (uthread_spawn N s entry_point).1.thread j = s.thread j) ∧
        (uthread_spawn N s entry_point).1.g_current = s.g_current ∧
        (uthread_spawn N s entry_point).1.g_total_quantums = s.g_total_quantums ∧
        (uthread_spawn N s entry_point).1.ready_queue = s.ready_queue.set s.q_tail t ∧
        (uthread_spawn N s entry_point).1.q_tail = (s.q_tail + 1) % N ∧
        (uthread_spawn N s entry_point).1.q_head = s.q_head ∧
        (queue_len N s + 1 < N →
          queue_list N (uthread_spawn N s entry_point).1 = queue_list N s ++ [t])) ∧
    ((∀ j, 1 ≤ j → j < N → (s.thread j).state ≠ THREAD_UNUSED) →
      uthread_spawn N s entry_point = (s, -1)) ∧
    uthread_spawn N s 0 = (s, -1) := by
  refine ⟨?_, ?_, by simp [uthread_spawn]⟩
  · intro t h1 h2 h3 h4
    have hf : find_unused N s = some t := (find_unused_eq_some N s t).mpr ⟨h1, h2, h3, h4⟩
    have hres : uthread_spawn N s entry_point
        = (enqueue N (s.set_thread t
            { tid := t, state := THREAD_READY, quantums := 0, sleep_until := 0,
              entry := entry_point, env := Context.at_entry entry_point }) t, (t : Int)) := by
      simp [uthread_spawn, hentry, hf]
    rw [hres]
    refine ⟨rfl, ?_, ?_, ?_, ?_, rfl, rfl, rfl, rfl, rfl, ?_⟩
    · rw [thread_enqueue, thread_set_thread_self _ _ _ (by omega)]
    · rw [thread_enqueue, thread_set_thread_self _ _ _ (by omega)]
    · rw [thread_enqueue, thread_set_thread_self _ _ _ (by omega)]
    · intro j hj
      rw [thread_enqueue, thread_set_thread_ne _ _ _ _ hj]
    · intro hfull
      exact queue_list_enqueue N _ t hq hh ht hfull
  · intro h
    have hf : find_unused N s = none := (find_unused_eq_none N s).mpr h
    simp [uthread_spawn, hentry, hf]

/-! ## `uthread_resume` -/

theorem uthread_resume_blocked (N : Nat) (s : State) (tid : Int)
    (h0 : 0 ≤ tid) (hN : tid < (N : Int))
    (hb : (s.thread tid.toNat).state = THREAD_BLOCKED) :
    uthread_resume N s tid
      = (enqueue N (s.set_state tid.toNat THREAD_READY) tid.toNat, 0) := by
  have h1 : ¬ tid < 0 := by omega
  have h2 : ¬ tid ≥ (N : Int) := by omega
  simp [uthread_resume, h1, h2, hb]

theorem uthread_resume_other (N : Nat) (s : State) (tid : Int)
    (h0 : 0 ≤ tid) (hN : tid < (N : Int))
    (hu : (s.thread tid.toNat).state ≠ THREAD_UNUSED)
    (hb : (s.thread tid.toNat).state ≠ THREAD_BLOCKED) :
    uthread_resume N s tid = (s, 0) := by
  have h1 : ¬ tid < 0 := by omega
  have h2 : ¬ tid ≥ (N : Int) := by omega
  simp [uthread_resume, h1, h2, hb, hu]

/-- What `g_thread[t].state = READY; enqueue(t)` does to a state. -/
theorem resume_effect (N : Nat) (s : State) (t : Nat) (ht : t < s.g_thread.length) :
    ((enqueue N (s.set_state t THREAD_READY) t).thread t
        = { s.thread t with state := THREAD_READY }) ∧
    (∀ j, j ≠ t → (enqueue N (s.set_state t THREAD_READY) t).thread j = s.thread j) ∧
    (enqueue N (s.set_state t THREAD_READY) t).g_current = s.g_current ∧
    (enqueue N (s.set_state t THREAD_READY) t).g_total_quantums = s.g_total_quantums ∧
    (enqueue N (s.set_state t THREAD_READY) t).g_quantum_usecs = s.g_quantum_usecs ∧
    (enqueue N (s.set_state t THREAD_READY) t).ready_queue = s.ready_queue.set s.q_tail t ∧
    (enqueue N (s.set_state t THREAD_READY) t).q_tail = (s.q_tail + 1) % N ∧
    (enqueue N (s.set_state t THREAD_READY) t).q_head = s.q_head := by
  refine ⟨?_, ?_, rfl, rfl, rfl, rfl, rfl, rfl⟩
  · rw [thread_enqueue, thread_set_state]; simp [ht]
  · intro j hj
    rw [thread_enqueue, thread_set_state]; simp [hj]

/-- C4 (amended): `uthread_resume` wakes a sleeper at once.  For a valid `tid`
whose slot is `BLOCKED` with `sleep_until != 0` it returns 0, makes the slot
`READY`, stores `tid` at `q_tail` and advances `q_tail` modulo `N`, which
appends `tid` at the tail of the ready queue when the queue holds fewer than
`N - 1` entries; every other TCB, `g_current`, `g_total_quantums` and `q_head`
stay as they were.  The state is therefore changed. -/
theorem uthread_resume_sleeper (N : Nat) (s : State) (tid : Int)
    (h0 : 0 ≤ tid) (hN : tid < (N : Int)) (hlen : s.g_thread.length = N)
    (hq : s.ready_queue.length = N) (hh : s.q_head < N) (ht : s.q_tail < N)
    (hb : (s.thread tid.toNat).state = THREAD_BLOCKED)
    (hs : (s.thread tid.toNat).sleep_until ≠ 0) :
    (uthread_resume N s tid).2 = 0 ∧
    ((uthread_resume N s tid).1.thread tid.toNat).state = THREAD_READY ∧
    (∀ j, j ≠ tid.toNat → (uthread_resume N s tid).1.thread j = s.thread j) ∧
    (uthread_resume N s tid).1.g_current = s.g_current ∧
    (uthread_resume N s tid).1.g_total_quantums = s.g_total_quantums ∧
    (uthread_resume N s tid).1.ready_queue = s.ready_queue.set s.q_tail tid.toNat ∧
    (uthread_resume N s tid).1.q_tail = (s.q_tail + 1) % N ∧
    (uthread_resume N s tid).1.q_head = s.q_head ∧
    (queue_len N s + 1 < N →
      queue_list N (uthread_resume N s tid).1 = queue_list N s ++ [tid.toNat]) ∧
    (uthread_resume N s tid).1 ≠ s := by
  have hlt : tid.toNat < s.g_thread.length := by omega
  have _ := hs
  rw [uthread_resume_blocked N s tid h0 hN hb]
  obtain ⟨e1, e2, e3, e4, _, e6, e7, e8⟩ := resume_effect N s tid.toNat hlt
  refine ⟨rfl, by rw [e1], e2, e3, e4, e6, e7, e8, ?_, ?_⟩
  · intro hfull
    exact queue_list_enqueue N (s.set_state tid.toNat THREAD_READY) tid.toNat hq hh ht hfull
  · intro hcontra
    have : ((enqueue N (s.set_state tid.toNat THREAD_READY) tid.toNat).thread tid.toNat).state
        = THREAD_BLOCKED := by
      simp only at hcontra
      rw [hcontra]; exact hb
    rw [e1] at this
    simp at this

/-- C9 (amended): for a valid `tid` whose slot is `BLOCKED` with
`sleep_until = 0`, `uthread_resume` returns 0, makes the slot `READY`, stores
`tid` at `q_tail` and advances `q_tail` modulo `N`, which appends `tid` at the
tail of the ready queue when the queue holds fewer than `N - 1` entries, and
changes nothing else; for a slot that is `READY` or `RUNNING` it returns 0 and
leaves the whole state unchanged. -/
theorem uthread_resume_spec (N : Nat) (s : State) (tid : Int)
    (h0 : 0 ≤ tid) (hN : tid < (N : Int)) (hlen : s.g_thread.length = N)
    (hq : s.ready_queue.length = N) (hh : s.q_head < N) (ht : s.q_tail < N) :
    ((s.thread tid.toNat).state = THREAD_BLOCKED →
      (s.thread tid.toNat).sleep_until = 0 →
        (uthread_resume N s tid).2 = 0 ∧
        (uthread_resume N s tid).1.thread tid.toNat
          = { s.thread tid.toNat with state := THREAD_READY } ∧
        (∀ j, j ≠ tid.toNat → (uthread_resume N s tid).1.thread j = s.thread j) ∧
        (uthread_resume N s tid).1.g_current = s.g_current ∧
        (uthread_resume N s tid).1.g_total_quantums = s.g_total_quantums ∧
        (uthread_resume N s tid).1.g_quantum_usecs = s.g_quantum_usecs ∧
        (uthread_resume N s tid).1.ready_queue = s.ready_queue.set s.q_tail tid.toNat ∧
        (uthread_resume N s tid).1.q_tail = (s.q_tail + 1) % N ∧
        (uthread_resume N s tid).1.q_head = s.q_head ∧
        (queue_len N s + 1 < N →
          queue_list N (uthread_resume N s tid).1 = queue_list N s ++ [tid.toNat])) ∧
    ((s.thread tid.toNat).state = THREAD_READY ∨ (s.thread tid.toNat).state = THREAD_RUNNING →
      uthread_resume N s tid = (s, 0)) := by
  constructor
  · intro hb _
    have hlt : tid.toNat < s.g_thread.length := by omega
    rw [uthread_resume_blocked N s tid h0 hN hb]
    obtain ⟨e1, e2, e3, e4, e5, e6, e7, e8⟩ := resume_effect N s tid.toNat hlt
    refine ⟨rfl, e1, e2, e3, e4, e5, e6, e7, e8, ?_⟩
    intro hfull
    exact queue_list_enqueue N (s.set_state tid.toNat THREAD_READY) tid.toNat hq hh ht hfull
  · intro h
    apply uthread_resume_other N s tid h0 hN
    · rcases h with h | h <;> rw [h] <;> decide
    · rcases h with h | h <;> rw [h] <;> decide

/-! ## Rejected arguments -/

/-- C8: for a `tid` outside `[0, N)` or naming an `UNUSED` slot,
`uthread_terminate`, `uthread_block`, `uthread_resume` and
`uthread_get_quantums` return -1 and leave the state unchanged;
`uthread_block 0` does the same in every state. -/
theorem invalid_tid_rejected (N : Nat) (s : State) (tid : Int)
    (h : tid < 0 ∨ (N : Int) ≤ tid ∨ (s.thread tid.toNat).state = THREAD_UNUSED) :
    uthread_terminate N s tid = some (s, Outcome.ret (-1)) ∧
    uthread_block N s tid = some (s, Outcome.ret (-1)) ∧
    uthread_resume N s tid = (s, -1) ∧
    uthread_get_quantums N s tid = -1 ∧
    uthread_block N s 0 = some (s, Outcome.ret (-1)) := by
  have h' : tid < 0 ∨ tid ≥ (N : Int) ∨ (s.thread tid.toNat).state = THREAD_UNUSED := h
  refine ⟨?_, ?_, ?_, ?_, ?_⟩
  · unfold uthread_terminate; rw [if_pos h']
  · unfold uthread_block; rw [if_pos (Or.inr h')]
  · unfold uthread_resume; rw [if_pos h']
  · unfold uthread_get_quantums; rw [if_pos h']
  · unfold uthread_block; rw [if_pos (Or.inl rfl)]

/-! ## `uthread_sleep`: rejected calls -/

/-- C5 (amended): `uthread_sleep n` returns -1 and leaves the state unchanged
when the caller is TID 0, whatever `n` is; when the caller is another thread
no value of `n`, negative ones included, makes it return -1. -/
theorem uthread_sleep_rejects_main_only (N : Nat) (s : State) (n : Int) (c : Nat)
    (hc : s.g_current = some c) :
    ((s.thread c).tid = 0 → uthread_sleep N s n = some (s, Outcome.ret (-1))) ∧
    ((s.thread c).tid ≠ 0 →
      ∀ s', uthread_sleep N s n ≠ some (s', Outcome.ret (-1))) := by
  constructor
  · intro h
    simp [uthread_sleep, hc, h]
  · intro h s'
    simp only [uthread_sleep, hc, h, if_false]
    split
    · simp
    · simp
    · simp

/-! ## The sleep-wake sweep -/

theorem wake_step_frame (N : Nat) (s : State) (i : Nat) :
    (wake_step N s i).g_current = s.g_current ∧
    (wake_step N s i).g_total_quantums = s.g_total_quantums ∧
    (wake_step N s i).g_quantum_usecs = s.g_quantum_usecs ∧
    (wake_step N s i).q_head = s.q_head ∧
    (wake_step N s i).g_thread.length = s.g_thread.length := by
  unfold wake_step
  split
  · simp [enqueue, State.set_thread]
  · simp

theorem wake_step_thread (N : Nat) (s : State) (i j : Nat) :
    (wake_step N s i).thread j
      = if j = i ∧ is_due s i then
          { s.thread i with sleep_until := 0, state := THREAD_READY }
        else s.thread j := by
  unfold wake_step is_due
  by_cases hd : (s.thread i).state = THREAD_BLOCKED
      ∧ (s.thread i).sleep_until ≠ 0
      ∧ (s.thread i).sleep_until ≤ s.g_total_quantums
  · rw [if_pos hd, thread_enqueue, thread_set_thread]
    have hlt : i < s.g_thread.length :=
      lt_of_state_ne_unused s i (by rw [hd.1]; decide)
    by_cases hji : j = i
    · simp [hji, hlt, hd]
    · simp [hji]
  · rw [if_neg hd]
    simp [hd]

theorem is_due_congr (s s' : State) (i : Nat) (h1 : s'.thread i = s.thread i)
    (h2 : s'.g_total_quantums = s.g_total_quantums) : is_due s' i ↔ is_due s i := by
  unfold is_due
  rw [h1, h2]

theorem sweep_fold (N : Nat) (l : List Nat) :
    ∀ s : State, l.Nodup →
      ((l.foldl (wake_step N) s).g_current = s.g_current ∧
       (l.foldl (wake_step N) s).g_total_quantums = s.g_total_quantums ∧
       (l.foldl (wake_step N) s).g_quantum_usecs = s.g_quantum_usecs ∧
       (l.foldl (wake_step N) s).q_head = s.q_head ∧
       (l.foldl (wake_step N) s).g_thread.length = s.g_thread.length) ∧
      ∀ j, (l.foldl (wake_step N) s).thread j
        = if j ∈ l ∧ is_due s j then
            { s.thread j with sleep_until := 0, state := THREAD_READY }
          else s.thread j := by
  induction l with
  | nil => intro s _; simp
  | cons i l ih =>
    intro s hnd
    rw [List.nodup_cons] at hnd
    obtain ⟨hi, hl⟩ := hnd
    obtain ⟨f1, f2, f3, f4, f5⟩ := wake_step_frame N s i
    obtain ⟨⟨g1, g2, g3, g4, g5⟩, g6⟩ := ih (wake_step N s i) hl
    rw [List.foldl_cons]
    refine ⟨⟨g1.trans f1, g2.trans f2, g3.trans f3, g4.trans f4, g5.trans f5⟩, ?_⟩
    intro j
    rw [g6 j]
    by_cases hji : j = i
    · subst hji
      have : ¬ (j ∈ l ∧ is_due (wake_step N s j) j) := fun h => hi h.1
      rw [if_neg this, wake_step_thread]
      simp
    · have hth : (wake_step N s i).thread j = s.thread j := by
        rw [wake_step_thread]; simp [hji]
      have hiff := is_due_congr _ _ j hth f2
      simp only [hiff, hth, List.mem_cons, hji, false_or]

theorem wake_sweep_frame (N : Nat) (s : State) :
    (wake_sweep N s).g_current = s.g_current ∧
    (wake_sweep N s).g_total_quantums = s.g_total_quantums ∧
    (wake_sweep N s).g_quantum_usecs = s.g_quantum_usecs ∧
    (wake_sweep N s).q_head = s.q_head ∧
    (wake_sweep N s).g_thread.length = s.g_thread.length :=
  (sweep_fold N _ s (List.nodup_range' 1 (N - 1))).1

/-- After the sweep a slot holds what it held before, except that a due
sleeper in `1 .. N-1` is `READY` with `sleep_until = 0`. -/
theorem wake_sweep_thread (N : Nat) (s : State) (j : Nat) :
    (wake_sweep N s).thread j
      = if (1 ≤ j ∧ j < N) ∧ is_due s j then
          { s.thread j with sleep_until := 0, state := THREAD_READY }
        else s.thread j := by
  unfold wake_sweep
  rw [(sweep_fold N _ s (List.nodup_range' 1 (N - 1))).2 j]
  have : j ∈ List.range' 1 (N - 1) ↔ (1 ≤ j ∧ j < N) := by
    rw [List.mem_range']
    constructor
    · rintro ⟨k, hk, rfl⟩; omega
    · rintro ⟨h1, h2⟩; exact ⟨j - 1, by omega, by omega⟩
  simp only [this]

/-! ## The selection loop -/

theorem same_table_refl (s : State) : same_table s s := ⟨rfl, rfl, rfl, rfl⟩

theorem same_table_trans {s s1 s2 : State} (h1 : same_table s s1) (h2 : same_table s1 s2) :
    same_table s s2 :=
  ⟨h2.1.trans h1.1, h2.2.1.trans h1.2.1, h2.2.2.1.trans h1.2.2.1, h2.2.2.2.trans h1.2.2.2⟩

theorem same_table_thread {s s' : State} (h : same_table s s') (i : Nat) :
    s'.thread i = s.thread i := by
  unfold State.thread; rw [h.1]

theorem same_table_enqueue (N : Nat) (s : State) (x : Nat) : same_table s (enqueue N s x) :=
  ⟨rfl, rfl, rfl, rfl⟩

theorem queue_wf_enqueue (N : Nat) (s : State) (x : Nat) (h : queue_wf N s) (hx : x < N) :
    queue_wf N (enqueue N s x) := by
  obtain ⟨h1, h2, h3, h4⟩ := h
  refine ⟨by simp [enqueue, h1], h2, Nat.mod_lt _ (by omega), ?_⟩
  intro e he
  rcases List.mem_or_eq_of_mem_set he with h | h
  · exact h4 e h
  · rw [h]; exact hx

theorem queue_wf_advance (N : Nat) (s : State) (h : queue_wf N s) :
    queue_wf N { s with q_head := (s.q_head + 1) % N } := by
  obtain ⟨h1, h2, h3, h4⟩ := h
  exact ⟨h1, Nat.mod_lt _ (by omega), h3, h4⟩

theorem queue_head_entry_lt (N : Nat) (s : State) (h : queue_wf N s) :
    s.ready_queue.getD s.q_head 0 < N := by
  obtain ⟨h1, h2, h3, h4⟩ := h
  apply h4
  rw [List.getD_eq_getElem?_getD, List.getElem?_eq_getElem (by omega)]
  simp

theorem dequeue_nonempty (N : Nat) (s : State) (hne : s.q_head ≠ s.q_tail) :
    dequeue N s
      = (some (s.ready_queue.getD s.q_head 0), { s with q_head := (s.q_head + 1) % N }) := by
  unfold dequeue; rw [if_neg hne]

theorem dequeue_empty (N : Nat) (s : State) (he : s.q_head = s.q_tail) :
    dequeue N s = (none, s) := by
  unfold dequeue; rw [if_pos he]

theorem add_mod_ne_self (N a m : Nat) (ha : a < N) (h0 : 0 < m) (hm : m < N) :
    (a + m) % N ≠ a := by
  rw [mod_wrap _ N (by omega)]
  split_ifs <;> omega

/-- With `N` iterations in hand the selection loop always finishes. -/
theorem select_loop_some (N : Nat) (k : Context) (start prev : Nat) :
    ∀ (fuel : Nat) (s : State), 0 < fuel → (s.q_head + fuel) % N = start →
      ∃ r, select_loop N k start prev fuel s = some r := by
  intro fuel
  induction fuel with
  | zero => intro s h; omega
  | succ f ih =>
    intro s _ hst
    unfold select_loop
    by_cases he : s.q_head = s.q_tail
    · rw [dequeue_empty N s he]; exact ⟨_, rfl⟩
    · rw [dequeue_nonempty N s he]
      simp only
      split_ifs with h1 h2
      · exact ⟨_, rfl⟩
      · exact ⟨_, rfl⟩
      · have hf : 0 < f := by
          rcases Nat.eq_zero_or_pos f with h | h
          · subst h
            exfalso; apply h2
            simpa [enqueue] using hst
          · exact h
        apply ih _ hf
        simp only [enqueue]
        rw [Nat.mod_add_mod]
        rw [← hst]
        congr 1
        omega

/-- Whatever the loop returns, it left the table alone or it ended in
`switch_to` on a `READY` entry. -/
theorem select_loop_cases (N : Nat) (k : Context) (start prev : Nat) :
    ∀ (fuel : Nat) (s : State) (r : State × Bool),
      select_loop N k start prev fuel s = some r →
        (r.2 = false ∧ same_table s r.1 ∧ (queue_wf N s → queue_wf N r.1)) ∨
        (∃ s1 tid, r = (switch_to N k prev s1 tid, true) ∧ same_table s s1
          ∧ (queue_wf N s → queue_wf N s1 ∧ tid < N)
          ∧ (s1.thread tid).state = THREAD_READY) := by
  intro fuel
  induction fuel with
  | zero => intro s r h; simp [select_loop] at h
  | succ f ih =>
    intro s r h
    unfold select_loop at h
    by_cases he : s.q_head = s.q_tail
    · rw [dequeue_empty N s he] at h
      simp only [Option.some.injEq] at h
      subst h
      exact Or.inl ⟨rfl, same_table_refl s, id⟩
    · rw [dequeue_nonempty N s he] at h
      simp only at h
      have hst : same_table s { s with q_head := (s.q_head + 1) % N } := ⟨rfl, rfl, rfl, rfl⟩
      split_ifs at h with h1 h2
      · simp only [Option.some.injEq] at h
        subst h
        exact Or.inr ⟨_, _, rfl, hst,
          fun hw => ⟨queue_wf_advance N s hw, queue_head_entry_lt N s hw⟩, h1⟩
      · simp only [Option.some.injEq] at h
        subst h
        refine Or.inl ⟨rfl, same_table_trans hst (same_table_enqueue N _ _), ?_⟩
        intro hw
        exact queue_wf_enqueue N _ _ (queue_wf_advance N s hw) (queue_head_entry_lt N s hw)
      · have hst2 := same_table_trans hst
          (same_table_enqueue N { s with q_head := (s.q_head + 1) % N }
            (s.ready_queue.getD s.q_head 0))
        have hw2 : queue_wf N s → queue_wf N
            (enqueue N { s with q_head := (s.q_head + 1) % N } (s.ready_queue.getD s.q_head 0)) :=
          fun hw => queue_wf_enqueue N _ _ (queue_wf_advance N s hw) (queue_head_entry_lt N s hw)
        rcases ih _ r h with ⟨a1, a2, a3⟩ | ⟨s1, tid, b1, b2, b3, b4⟩
        · exact Or.inl ⟨a1, same_table_trans hst2 a2, fun hw => a3 (hw2 hw)⟩
        · exact Or.inr ⟨s1, tid, b1, same_table_trans hst2 b2, fun hw => b3 (hw2 hw), b4⟩

/-- The loop selects the first entry of the queue whose thread is `READY`; the
entries before it are moved behind the entries after it. -/
theorem select_loop_first_ready (N : Nat) (k : Context) (start prev : Nat) :
    ∀ (pre : List Nat) (fuel : Nat) (s : State) (post : List Nat) (sel j : Nat),
      queue_wf N s → start < N →
      queue_list N s = pre ++ sel :: post →
      (∀ x ∈ pre, (s.thread x).state ≠ THREAD_READY) →
      (s.thread sel).state = THREAD_READY →
      s.q_head = (start + j) % N → j + pre.length < N → pre.length < fuel →
      ∃ s1, select_loop N k start prev fuel s = some (switch_to N k prev s1 sel, true)
        ∧ same_table s s1 ∧ queue_wf N s1 ∧ queue_list N s1 = post ++ pre := by
  intro pre
  induction pre with
  | nil =>
    intro fuel s post sel j hw _ hql _ hsel _ _ hfuel
    obtain ⟨f, rfl⟩ : ∃ f, fuel = f + 1 := ⟨fuel - 1, by simp at hfuel; omega⟩
    have hne : s.q_head ≠ s.q_tail := by
      intro he
      rw [(queue_list_eq_nil N s hw.2.1 hw.2.2.1).mpr he] at hql
      simp at hql
    rw [queue_list_advance N s hw.2.1 hw.2.2.1 hne] at hql
    simp only [List.nil_append, List.cons.injEq] at hql
    obtain ⟨e1, e2⟩ := hql
    have hst : same_table s { s with q_head := (s.q_head + 1) % N } := ⟨rfl, rfl, rfl, rfl⟩
    refine ⟨{ s with q_head := (s.q_head + 1) % N }, ?_, hst, queue_wf_advance N s hw, ?_⟩
    · unfold select_loop
      rw [dequeue_nonempty N s hne]
      simp only
      rw [e1, if_pos (by rw [same_table_thread hst]; exact hsel)]
    · simp [e2]
  | cons y pre ih =>
    intro fuel s post sel j hw hstart hql hpre hsel hhead hj hfuel
    obtain ⟨f, rfl⟩ : ∃ f, fuel = f + 1 := ⟨fuel - 1, by simp at hfuel; omega⟩
    have hne : s.q_head ≠ s.q_tail := by
      intro he
      rw [(queue_list_eq_nil N s hw.2.1 hw.2.2.1).mpr he] at hql
      simp at hql
    have hql0 := hql
    rw [queue_list_advance N s hw.2.1 hw.2.2.1 hne] at hql
    simp only [List.cons_append, List.cons.injEq] at hql
    obtain ⟨e1, e2⟩ := hql
    have hst : same_table s { s with q_head := (s.q_head + 1) % N } := ⟨rfl, rfl, rfl, rfl⟩
    have hw1 := queue_wf_advance N s hw
    have hyN : y < N := by rw [← e1]; exact queue_head_entry_lt N s hw
    have hw2 := queue_wf_enqueue N _ y hw1 hyN
    have hst2 := same_table_trans hst
      (same_table_enqueue N { s with q_head := (s.q_head + 1) % N } y)
    have hlen : queue_len N s = queue_len N { s with q_head := (s.q_head + 1) % N } + 1 :=
      queue_len_advance N s hw.2.1 hw.2.2.1 hne
    have hN : 0 < N := by have := hw.2.1; omega
    have hlt := queue_len_lt N s hN
    have hql2 : queue_list N (enqueue N { s with q_head := (s.q_head + 1) % N } y)
        = pre ++ sel :: (post ++ [y]) := by
      rw [queue_list_enqueue N _ y hw1.1 hw1.2.1 hw1.2.2.1 (by omega), e2]
      simp
    have hhead2 : (enqueue N { s with q_head := (s.q_head + 1) % N } y).q_head
        = (start + (j + 1)) % N := by
      simp only [enqueue]
      rw [hhead, Nat.mod_add_mod]
      congr 1
    simp only [List.length_cons] at hj hfuel
    obtain ⟨s1, r1, r2, r3, r4⟩ := ih f _ (post ++ [y]) sel (j + 1) hw2 hstart hql2
      (fun x hx => by
        rw [same_table_thread hst2]; exact hpre x (List.mem_cons_of_mem _ hx))
      (by rw [same_table_thread hst2]; exact hsel)
      hhead2 (by omega) (by omega)
    refine ⟨s1, ?_, same_table_trans hst2 r2, r3, by rw [r4]; simp⟩
    unfold select_loop
    rw [dequeue_nonempty N s hne]
    simp only
    rw [e1]
    have hy : ¬ (({ s with q_head := (s.q_head + 1) % N } : State).thread y).state
        = THREAD_READY := by
      rw [same_table_thread hst]; exact hpre y (List.mem_cons_self _ _)
    rw [if_neg hy]
    have hns : ¬ (enqueue N { s with q_head := (s.q_head + 1) % N } y).q_head = start := by
      rw [hhead2]
      exact add_mod_ne_self N start (j + 1) hstart (by omega) (by omega)
    rw [if_neg hns]
    exact r1

/-! ## The context switch -/

theorem switch_to_thread (N : Nat) (k : Context) (prev : Nat) (s : State) (tid j : Nat)
    (ht : tid < s.g_thread.length) (hp : prev < s.g_thread.length) :
    (switch_to N k prev s tid).thread j =
      if j = prev then
        { s.thread prev with
            state := if prev = tid ∨ (s.thread prev).state = THREAD_RUNNING then THREAD_READY
                     else (s.thread prev).state,
            env := k }
      else if j = tid then { s.thread tid with state := THREAD_RUNNING }
      else s.thread j := by
  have hlen1 : (s.set_state tid THREAD_RUNNING).g_thread.length = s.g_thread.length := by
    simp [State.set_state, State.set_thread]
  by_cases hpt : prev = tid
  · subst hpt
    have h1 : ((s.set_state prev THREAD_RUNNING).thread prev).state = THREAD_RUNNING := by
      rw [thread_set_state]; simp [hp]
    unfold switch_to context_switch
    simp only [h1, if_true]
    rw [thread_set_thread]
    simp only [enqueue, State.set_state, State.set_thread, List.length_set, hp, and_true]
    by_cases hj : j = prev
    · subst hj
      simp [State.thread, List.getD_eq_getElem?_getD, List.getElem?_set, hp]
    · simp [hj, State.thread, List.getD_eq_getElem?_getD, List.getElem?_set, Ne.symm hj]
  · have h1 : (s.set_state tid THREAD_RUNNING).thread prev = s.thread prev := by
      rw [thread_set_state]; simp [hpt]
    unfold switch_to context_switch
    simp only [h1]
    by_cases hr : (s.thread prev).state = THREAD_RUNNING
    · simp only [hr, if_true, or_true]
      rw [thread_set_thread]
      simp only [enqueue, State.set_state, State.set_thread, List.length_set, hp, and_true]
      by_cases hj : j = prev
      · subst hj
        simp [State.thread, List.getD_eq_getElem?_getD, List.getElem?_set, hp, hpt,
          Ne.symm hpt]
      · by_cases hjt : j = tid
        · subst hjt
          simp [hj, State.thread, List.getD_eq_getElem?_getD, List.getElem?_set, Ne.symm hj, ht]
        · simp [hj, hjt, State.thread, List.getD_eq_getElem?_getD, List.getElem?_set,
            Ne.symm hj, Ne.symm hjt]
    · simp only [hr, if_false, hpt, or_self]
      rw [thread_set_thread]
      simp only [State.set_state, State.set_thread, List.length_set, hp, and_true]
      by_cases hj : j = prev
      · subst hj
        simp [State.thread, List.getD_eq_getElem?_getD, List.getElem?_set, hp, hpt,
          Ne.symm hpt]
      · by_cases hjt : j = tid
        · subst hjt
          simp [hj, State.thread, List.getD_eq_getElem?_getD, List.getElem?_set, Ne.symm hj, ht]
        · simp [hj, hjt, State.thread, List.getD_eq_getElem?_getD, List.getElem?_set,
            Ne.symm hj, Ne.symm hjt]

theorem switch_to_frame (N : Nat) (k : Context) (prev : Nat) (s : State) (tid : Nat) :
    (switch_to N k prev s tid).g_current = some tid ∧
    (switch_to N k prev s tid).g_total_quantums = s.g_total_quantums ∧
    (switch_to N k prev s tid).g_quantum_usecs = s.g_quantum_usecs ∧
    (switch_to N k prev s tid).q_head = s.q_head ∧
    (switch_to N k prev s tid).g_thread.length = s.g_thread.length := by
  unfold switch_to context_switch
  simp only
  split <;> simp [State.set_thread, State.set_state, enqueue]

theorem queue_list_congr (N : Nat) (s s' : State) (h1 : s'.ready_queue = s.ready_queue)
    (h2 : s'.q_head = s.q_head) (h3 : s'.q_tail = s.q_tail) :
    queue_list N s' = queue_list N s := by
  unfold queue_list queue_len
  rw [h1, h2, h3]

theorem queue_wf_congr (N : Nat) (s s' : State) (h1 : s'.ready_queue = s.ready_queue)
    (h2 : s'.q_head = s.q_head) (h3 : s'.q_tail = s.q_tail) (h : queue_wf N s) :
    queue_wf N s' := by
  unfold queue_wf at *
  rw [h1, h2, h3]; exact h

/-- The queue after `switch_to`: the previous thread is appended when it was
`RUNNING` (or is the selectee itself), otherwise the queue is untouched. -/
theorem switch_to_queue (N : Nat) (k : Context) (prev : Nat) (s : State) (tid : Nat)
    (hp : prev < s.g_thread.length) :
    (switch_to N k prev s tid).ready_queue
        = (if prev = tid ∨ (s.thread prev).state = THREAD_RUNNING then
            enqueue N s (s.thread prev).tid else s).ready_queue ∧
    (switch_to N k prev s tid).q_tail
        = (if prev = tid ∨ (s.thread prev).state = THREAD_RUNNING then
            enqueue N s (s.thread prev).tid else s).q_tail ∧
    (switch_to N k prev s tid).q_head = s.q_head := by
  by_cases hpt : prev = tid
  · subst hpt
    have h1 : ((s.set_state prev THREAD_RUNNING).thread prev).state = THREAD_RUNNING := by
      rw [thread_set_state]; simp [hp]
    have h2 : ((s.set_state prev THREAD_RUNNING).thread prev).tid = (s.thread prev).tid := by
      rw [thread_set_state]; simp [hp]
    unfold switch_to context_switch
    simp only [h1, h2, if_true, true_or]
    simp [State.set_thread, State.set_state, enqueue]
  · have h1 : (s.set_state tid THREAD_RUNNING).thread prev = s.thread prev := by
      rw [thread_set_state]; simp [hpt]
    unfold switch_to context_switch
    simp only [h1, hpt, false_or]
    split <;> simp [State.set_thread, State.set_state, enqueue]

/-! ## `schedule_next` -/

theorem schedule_next_eq (N : Nat) (k : Context) (s : State) (c : Nat)
    (hc : s.g_current = some c) :
    schedule_next N k s = select_loop N k s.q_head c N (wake_sweep N s) := by
  unfold schedule_next; rw [hc]

/-- The scheduler returns: the loop of `schedule_next` ends within `N`
iterations. -/
theorem schedule_next_some (N : Nat) (k : Context) (s : State) (c : Nat)
    (hh : s.q_head < N) (hc : s.g_current = some c) :
    ∃ r, schedule_next N k s = some r := by
  rw [schedule_next_eq N k s c hc]
  apply select_loop_some N k s.q_head c N (wake_sweep N s) (by omega)
  rw [(wake_sweep_frame N s).2.2.2.1, Nat.add_mod_right, Nat.mod_eq_of_lt hh]

/-- What `schedule_next` does to the slots that are `BLOCKED` on entry. -/
theorem schedule_next_blocked_slots (N : Nat) (k : Context) (s : State) (c : Nat)
    (hh : s.q_head < N) (hlen : s.g_thread.length = N)
    (hc : s.g_current = some c) (hcN : c < N) :
    ∃ s' sw, schedule_next N k s = some (s', sw) ∧
      ∀ i, (s.thread i).state = THREAD_BLOCKED →
        (((s.thread i).sleep_until = 0 ∨ s.g_total_quantums < (s.thread i).sleep_until) →
          (s'.thread i).state = THREAD_BLOCKED ∧
          (s'.thread i).sleep_until = (s.thread i).sleep_until ∧
          (s'.g_current = some i → s.g_current = some i ∧ sw = false)) ∧
        (((s.thread i).sleep_until ≠ 0 ∧ (s.thread i).sleep_until ≤ s.g_total_quantums) →
          1 ≤ i →
          (s'.thread i).sleep_until = 0 ∧
          ((s'.thread i).state = THREAD_READY ∨ (s'.thread i).state = THREAD_RUNNING)) := by
  obtain ⟨⟨s', sw⟩, hr⟩ := schedule_next_some N k s c hh hc
  refine ⟨s', sw, hr, ?_⟩
  rw [schedule_next_eq N k s c hc] at hr
  obtain ⟨w1, w2, w3, w4, w5⟩ := wake_sweep_frame N s
  intro i hb
  have hiN : i < N := by
    rw [← hlen]; exact lt_of_state_ne_unused s i (by rw [hb]; decide)
  constructor
  · intro hnd
    have hnot : ¬ is_due s i := by
      unfold is_due
      rintro ⟨_, h2, h3⟩
      rcases hnd with h | h
      · exact h2 h
      · omega
    have hwi : (wake_sweep N s).thread i = s.thread i := by
      rw [wake_sweep_thread]; simp [hnot]
    rcases select_loop_cases N k s.q_head c N (wake_sweep N s) (s', sw) hr with
      ⟨a1, a2, _⟩ | ⟨s1, tid, b1, b2, _, b4⟩
    · simp only at a1 a2
      rw [same_table_thread a2, hwi]
      refine ⟨hb, rfl, ?_⟩
      intro hcur
      rw [a2.2.1, w1] at hcur
      exact ⟨hcur, a1⟩
    · simp only [Prod.mk.injEq] at b1
      obtain ⟨rfl, rfl⟩ := b1
      have h1i : s1.thread i = s.thread i := by rw [same_table_thread b2, hwi]
      have hl1 : s1.g_thread.length = N := by rw [b2.1, w5, hlen]
      have htid : tid < s1.g_thread.length :=
        lt_of_state_ne_unused s1 tid (by rw [b4]; decide)
      have hne : i ≠ tid := by
        intro e; subst e; rw [h1i, hb] at b4; exact absurd b4 (by decide)
      rw [switch_to_thread N k c s1 tid i htid (by omega)]
      refine ⟨?_, ?_, ?_⟩
      · by_cases hic : i = c
        · subst hic
          simp [h1i, hb, hne]
        · simp [hic, hne, h1i, hb]
      · by_cases hic : i = c
        · subst hic
          simp [h1i]
        · simp [hic, hne, h1i]
      · intro hcur
        rw [(switch_to_frame N k c s1 tid).1] at hcur
        exact absurd (Option.some.inj hcur).symm hne
  · intro hd h1
    have hdue : is_due s i := ⟨hb, hd.1, hd.2⟩
    have hwi : (wake_sweep N s).thread i
        = { s.thread i with sleep_until := 0, state := THREAD_READY } := by
      rw [wake_sweep_thread]; simp [hdue, h1, hiN]
    rcases select_loop_cases N k s.q_head c N (wake_sweep N s) (s', sw) hr with
      ⟨_, a2, _⟩ | ⟨s1, tid, b1, b2, _, b4⟩
    · simp only at a2
      rw [same_table_thread a2, hwi]
      exact ⟨rfl, Or.inl rfl⟩
    · simp only [Prod.mk.injEq] at b1
      obtain ⟨rfl, rfl⟩ := b1
      have h1i : s1.thread i
          = { s.thread i with sleep_until := 0, state := THREAD_READY } := by
        rw [same_table_thread b2, hwi]
      have hl1 : s1.g_thread.length = N := by rw [b2.1, w5, hlen]
      have htid : tid < s1.g_thread.length :=
        lt_of_state_ne_unused s1 tid (by rw [b4]; decide)
      rw [switch_to_thread N k c s1 tid i htid (by omega)]
      by_cases hic : i = c
      · subst hic
        simp only [if_true, h1i]
        refine ⟨trivial, ?_⟩
        by_cases hit : i = tid
        · simp [hit]
        · simp [hit]
      · by_cases hit : i = tid
        · subst hit
          simp [hic, h1i]
        · simp [hic, hit, h1i]

/-- C7 (amended): `schedule_next` returns, and for every slot `i` that is
`BLOCKED` on entry: if `sleep_until = 0` or `total_quantums < sleep_until`,
slot `i` is still `BLOCKED` with the same `sleep_until` afterwards, and `i` is
current afterwards only when it was current on entry and no switch took place;
if `sleep_until != 0` and `sleep_until <= total_quantums` and `1 <= i`, slot `i`
has `sleep_until = 0` afterwards and is `READY` or `RUNNING`. -/
theorem schedule_next_sleepers (N : Nat) (k : Context) (s : State) (c : Nat)
    (hh : s.q_head < N) (hlen : s.g_thread.length = N)
    (hc : s.g_current = some c) (hcN : c < N) :
    ∃ s' sw, schedule_next N k s = some (s', sw) ∧
      ∀ i, (s.thread i).state = THREAD_BLOCKED →
        (((s.thread i).sleep_until = 0 ∨ s.g_total_quantums < (s.thread i).sleep_until) →
          (s'.thread i).state = THREAD_BLOCKED ∧
          (s'.thread i).sleep_until = (s.thread i).sleep_until ∧
          (s'.g_current = some i → s.g_current = some i ∧ sw = false)) ∧
        (((s.thread i).sleep_until ≠ 0 ∧ (s.thread i).sleep_until ≤ s.g_total_quantums) →
          1 ≤ i →
          (s'.thread i).sleep_until = 0 ∧
          ((s'.thread i).state = THREAD_READY ∨ (s'.thread i).state = THREAD_RUNNING)) :=
  schedule_next_blocked_slots N k s c hh hlen hc hcN

theorem queue_wf_set_thread (N : Nat) (s : State) (i : Nat) (t : thread_t)
    (h : queue_wf N s) : queue_wf N (s.set_thread i t) := h

theorem queue_wf_set_state (N : Nat) (s : State) (i : Nat) (st : ThreadState)
    (h : queue_wf N s) : queue_wf N (s.set_state i st) := h

theorem wake_step_queue_wf (N : Nat) (s : State) (i : Nat) (hi : i < N)
    (h : queue_wf N s) : queue_wf N (wake_step N s i) := by
  unfold wake_step
  split
  · exact queue_wf_enqueue N _ i (queue_wf_set_thread N s i _ h) hi
  · exact h

theorem sweep_fold_queue_wf (N : Nat) (l : List Nat) :
    ∀ s : State, (∀ i ∈ l, i < N) → queue_wf N s → queue_wf N (l.foldl (wake_step N) s) := by
  induction l with
  | nil => intro s _ h; exact h
  | cons i l ih =>
    intro s hl h
    rw [List.foldl_cons]
    apply ih
    · intro j hj; exact hl j (List.mem_cons_of_mem _ hj)
    · exact wake_step_queue_wf N s i (hl i (List.mem_cons_self _ _)) h

theorem wake_sweep_queue_wf (N : Nat) (s : State) (h : queue_wf N s) :
    queue_wf N (wake_sweep N s) := by
  unfold wake_sweep
  apply sweep_fold_queue_wf N _ s _ h
  intro i hi
  rw [List.mem_range'] at hi
  obtain ⟨k, hk, rfl⟩ := hi
  omega

theorem sweep_fold_id (N : Nat) (l : List Nat) :
    ∀ s : State, (∀ i ∈ l, ¬ is_due s i) → l.foldl (wake_step N) s = s := by
  induction l with
  | nil => intro s _; rfl
  | cons i l ih =>
    intro s hl
    have h1 : wake_step N s i = s := by
      unfold wake_step
      exact if_neg (hl i (List.mem_cons_self _ _))
    rw [List.foldl_cons, h1]
    exact ih s (fun j hj => hl j (List.mem_cons_of_mem _ hj))

/-- With no due sleeper in `1 .. N-1` the sweep changes nothing. -/
theorem wake_sweep_id (N : Nat) (s : State)
    (h : ∀ i, 1 ≤ i → i < N → ¬ is_due s i) : wake_sweep N s = s := by
  unfold wake_sweep
  apply sweep_fold_id
  intro i hi
  rw [List.mem_range'] at hi
  obtain ⟨k, hk, rfl⟩ := hi
  exact h _ (by omega) (by omega)

/-- What the scheduler does when the queue left by the sweep holds a `READY`
entry: it switches to the first such entry `sel`; the stale entries `pre` in
front of it are moved behind the entries `post` that followed it, and the
previous thread is appended when it is demoted. -/
theorem schedule_next_selects (N : Nat) (k : Context) (s : State) (c : Nat)
    (pre post : List Nat) (sel : Nat)
    (hw : queue_wf N s) (hc : s.g_current = some c)
    (hql : queue_list N (wake_sweep N s) = pre ++ sel :: post)
    (hpre : ∀ x ∈ pre, ((wake_sweep N s).thread x).state ≠ THREAD_READY)
    (hsel : ((wake_sweep N s).thread sel).state = THREAD_READY) :
    ∃ s1, schedule_next N k s = some (switch_to N k c s1 sel, true)
      ∧ same_table (wake_sweep N s) s1 ∧ queue_wf N s1 ∧ queue_list N s1 = post ++ pre := by
  rw [schedule_next_eq N k s c hc]
  have hww := wake_sweep_queue_wf N s hw
  have hN : 0 < N := by have := hw.2.1; omega
  have hlen : (pre ++ sel :: post).length < N := by
    rw [← hql]
    unfold queue_list
    simp only [List.length_map, List.length_range]
    exact queue_len_lt N _ hN
  simp only [List.length_append, List.length_cons] at hlen
  apply select_loop_first_ready N k s.q_head c pre N (wake_sweep N s) post sel 0 hww hw.2.1
    hql hpre hsel
  · rw [(wake_sweep_frame N s).2.2.2.1, Nat.add_zero, Nat.mod_eq_of_lt hw.2.1]
  · omega
  · omega

theorem sleep_mark_thread (s : State) (c : Nat) (n : Int) (j : Nat)
    (hc : c < s.g_thread.length) :
    (sleep_mark s c n).thread j
      = if j = c then
          { s.thread c with sleep_until := s.g_total_quantums + n, state := THREAD_BLOCKED }
        else s.thread j := by
  unfold sleep_mark
  rw [thread_set_state, thread_set_thread]
  by_cases hj : j = c
  · subst hj
    simp [State.set_thread, hc, thread_set_thread]
  · simp [hj, thread_set_thread_ne]

/-- A restored context that was not saved inside `uthread_terminate` changes
nothing. -/
theorem resume_context_id (s : State) (c : Nat) (hc : s.g_current = some c)
    (he : ∀ x, (s.thread c).env ≠ Context.in_terminate x) : resume_context s = s := by
  cases hx : (s.thread c).env with
  | in_terminate x => exact absurd hx (he x)
  | _ => simp [resume_context, hc, hx]

/-- The effect of `uthread_sleep n`, `n >= 1`, stated on the queue as the
sleep-wake sweep leaves it: `sel` is its first entry whose thread is `READY`
at that point. -/
theorem uthread_sleep_switches_after_sweep (N : Nat) (s : State) (n : Int) (c : Nat)
    (pre post : List Nat) (sel : Nat)
    (hw : queue_wf N s) (hlen : s.g_thread.length = N)
    (hc : s.g_current = some c) (hcN : c < N) (htid : (s.thread c).tid = c)
    (hc0 : c ≠ 0) (hn : 1 ≤ n)
    (hql : queue_list N (wake_sweep N (sleep_mark s c n)) = pre ++ sel :: post)
    (hpre : ∀ x ∈ pre, ((wake_sweep N (sleep_mark s c n)).thread x).state ≠ THREAD_READY)
    (hsel : ((wake_sweep N (sleep_mark s c n)).thread sel).state = THREAD_READY) :
    ∃ s', uthread_sleep N s n = some (resume_context s', Outcome.switched) ∧
      schedule_next N Context.in_sleep (sleep_mark s c n) = some (s', true) ∧
      (s'.thread c).state = THREAD_BLOCKED ∧
      (s'.thread c).sleep_until = s.g_total_quantums + n ∧
      s'.g_current = some sel ∧
      (s'.thread sel).state = THREAD_RUNNING ∧
      queue_list N s' = post ++ pre ∧
      (s'.thread sel).env = ((wake_sweep N (sleep_mark s c n)).thread sel).env := by
  have hmc : (sleep_mark s c n).g_current = some c := hc
  have hmw : queue_wf N (sleep_mark s c n) := hw
  have hml : (sleep_mark s c n).g_thread.length = N := by
    simp [sleep_mark, State.set_state, State.set_thread, hlen]
  obtain ⟨s1, r1, r2, r3, r4⟩ :=
    schedule_next_selects N Context.in_sleep (sleep_mark s c n) c pre post sel hmw hmc hql hpre hsel
  have hmt : (sleep_mark s c n).thread c
      = { s.thread c with sleep_until := s.g_total_quantums + n, state := THREAD_BLOCKED } := by
    rw [sleep_mark_thread s c n c (by omega)]; simp
  have hnd : ¬ is_due (sleep_mark s c n) c := by
    unfold is_due
    rw [hmt]
    rintro ⟨_, _, h3⟩
    have : (sleep_mark s c n).g_total_quantums = s.g_total_quantums := rfl
    simp only [this] at h3
    omega
  have hwc : (wake_sweep N (sleep_mark s c n)).thread c = (sleep_mark s c n).thread c := by
    rw [wake_sweep_thread]; simp [hnd]
  have h1c : s1.thread c
      = { s.thread c with sleep_until := s.g_total_quantums + n, state := THREAD_BLOCKED } := by
    rw [same_table_thread r2, hwc, hmt]
  have h1sel : (s1.thread sel).state = THREAD_READY := by
    rw [same_table_thread r2]; exact hsel
  have hl1 : s1.g_thread.length = N := by
    rw [r2.1, (wake_sweep_frame N _).2.2.2.2, hml]
  have hselc : sel ≠ c := by
    intro e; subst e; rw [h1c] at h1sel; simp at h1sel
  have hsell : sel < s1.g_thread.length :=
    lt_of_state_ne_unused s1 sel (by rw [h1sel]; decide)
  refine ⟨switch_to N Context.in_sleep c s1 sel, ?_, r1, ?_, ?_, ?_, ?_, ?_, ?_⟩
  · have hne : ¬ (s.thread c).tid = 0 := by rw [htid]; exact hc0
    simp only [uthread_sleep, hc, hne, if_false, r1]
  · rw [switch_to_thread N _ c s1 sel c hsell (by omega)]
    simp [h1c, Ne.symm hselc]
  · rw [switch_to_thread N _ c s1 sel c hsell (by omega)]
    simp [h1c]
  · exact (switch_to_frame N _ c s1 sel).1
  · rw [switch_to_thread N _ c s1 sel sel hsell (by omega)]
    simp [hselc]
  · obtain ⟨q1, q2, q3⟩ := switch_to_queue N Context.in_sleep c s1 sel (by omega)
    have hno : ¬ (c = sel ∨ (s1.thread c).state = THREAD_RUNNING) := by
      rw [h1c]; simp [Ne.symm hselc]
    rw [if_neg hno] at q1 q2
    rw [queue_list_congr N s1 _ q1 q3 q2, r4]
  · rw [switch_to_thread N _ c s1 sel sel hsell (by omega)]
    simp only [hselc, if_false, if_true]
    rw [same_table_thread r2]

/-- C6 (amended): let the current thread `t != 0` be `RUNNING` and call
`uthread_sleep n` with `n >= 1` and `total_quantums + n <= INT_MAX` (the `int`
addition does not overflow) in a state in which no `BLOCKED` slot in
`1 .. N-1` has a nonzero `sleep_until <= total_quantums`, and let the ready
queue be `pre ++ sel :: post` where `sel` is its first entry whose thread is
`READY`, the context saved for `sel` not being one inside `uthread_terminate`.
Then the call ends in a context switch, and in the state in which `sel` is
back in user code slot `t` is `BLOCKED` with `sleep_until` equal to the
`total_quantums` at the call plus `n`, `current` is `sel`, which is `RUNNING`,
and the queue is `post ++ pre`, so `t` has not been added to it. -/
theorem uthread_sleep_switches (N : Nat) (s : State) (n : Int) (c : Nat)
    (pre post : List Nat) (sel : Nat)
    (hw : queue_wf N s) (hlen : s.g_thread.length = N)
    (hc : s.g_current = some c) (hcN : c < N) (htid : (s.thread c).tid = c)
    (hc0 : c ≠ 0) (hrun : (s.thread c).state = THREAD_RUNNING) (hn : 1 ≤ n)
    (hb : s.g_total_quantums + n ≤ INT_MAX)
    (hnodue : ∀ i, 1 ≤ i → i < N → ¬ is_due s i)
    (hql : queue_list N s = pre ++ sel :: post)
    (hpre : ∀ x ∈ pre, (s.thread x).state ≠ THREAD_READY)
    (hsel : (s.thread sel).state = THREAD_READY)
    (hsenv : ∀ x, (s.thread sel).env ≠ Context.in_terminate x) :
    ∃ s1, uthread_sleep N s n = some (s1, Outcome.switched) ∧
      (s1.thread c).state = THREAD_BLOCKED ∧
      (s1.thread c).sleep_until = s.g_total_quantums + n ∧
      (s1.thread c).sleep_until ≤ INT_MAX ∧
      s1.g_current = some sel ∧
      (s1.thread sel).state = THREAD_RUNNING ∧
      queue_list N s1 = post ++ pre := by
  have hcl : c < s.g_thread.length := by omega
  have hmt : ∀ j, (sleep_mark s c n).thread j
      = if j = c then
          { s.thread c with sleep_until := s.g_total_quantums + n, state := THREAD_BLOCKED }
        else s.thread j := fun j => sleep_mark_thread s c n j hcl
  have hid : wake_sweep N (sleep_mark s c n) = sleep_mark s c n := by
    apply wake_sweep_id
    intro i h1 h2
    by_cases hic : i = c
    · subst hic
      unfold is_due
      rw [hmt i]
      simp only [if_true]
      rintro ⟨_, _, h3⟩
      have : (sleep_mark s i n).g_total_quantums = s.g_total_quantums := rfl
      rw [this] at h3
      omega
    · have hth : (sleep_mark s c n).thread i = s.thread i := by rw [hmt i]; simp [hic]
      rw [is_due_congr _ _ i hth rfl]
      exact hnodue i h1 h2
  have hselc : sel ≠ c := by
    intro e; subst e; rw [hrun] at hsel; exact absurd hsel (by decide)
  have hselth : (sleep_mark s c n).thread sel = s.thread sel := by
    rw [hmt sel]; simp only [hselc, if_false]
  obtain ⟨s', a1, _, a3, a4, a5, a6, a7, a8⟩ :=
    uthread_sleep_switches_after_sweep N s n c pre post sel hw hlen hc hcN htid hc0 hn
      (by rw [hid, queue_list_congr N s (sleep_mark s c n) rfl rfl rfl]; exact hql)
      (fun x hx => by
        rw [hid, hmt x]
        by_cases hxc : x = c
        · simp [hxc]
        · simp only [hxc, if_false]; exact hpre x hx)
      (by rw [hid, hselth]; exact hsel)
  have hres : resume_context s' = s' := by
    apply resume_context_id s' sel a5
    intro x
    rw [a8, hid, hselth]
    exact hsenv x
  rw [hres] at a1
  exact ⟨s', a1, a3, a4, by rw [a4]; exact hb, a5, a6, a7⟩

/-! ## The structural invariant is preserved -/

theorem Inv_set_thread (N : Nat) (s : State) (i : Nat) (t : thread_t) (h : Inv N s)
    (hi : i < N) (h4 : t.tid = i) (h5 : ∀ x, t.env = Context.in_terminate x → x = i) :
    Inv N (s.set_thread i t) := by
  have hl : i < s.g_thread.length := by rw [h.table_len]; exact hi
  refine ⟨h.queue, by simp [State.set_thread, h.table_len], ?_, ?_, ?_⟩
  · obtain ⟨c, c1, c2, c3⟩ := h.current
    refine ⟨c, c1, c2, ?_⟩
    rw [thread_set_thread]
    by_cases hc : c = i
    · simp [hc, hl, h4]
    · simp [hc, c3]
  · intro j hj hs
    rw [thread_set_thread] at hs ⊢
    by_cases hc : j = i
    · simp [hc, hl, h4]
    · simp only [hc, false_and, if_false] at hs ⊢
      exact h.tid_ok j hj hs
  · intro j x hj hs
    rw [thread_set_thread] at hs
    by_cases hc : j = i
    · simp only [hc, hl, and_self, if_true] at hs
      rw [hc]; exact h5 x hs
    · simp only [hc, false_and, if_false] at hs
      exact h.env_ok j x hj hs

theorem Inv_set_state (N : Nat) (s : State) (i : Nat) (st : ThreadState) (h : Inv N s)
    (hi : i < N) (h4 : (s.thread i).tid = i) : Inv N (s.set_state i st) :=
  Inv_set_thread N s i _ h hi h4 (fun x hx => h.env_ok i x hi hx)

theorem tid_set_state (s : State) (i j : Nat) (st : ThreadState) :
    ((s.set_state i st).thread j).tid = (s.thread j).tid := by
  rw [thread_set_state]
  split
  · next h => rw [h.1]
  · rfl

theorem Inv_of_same_table (N : Nat) (s s' : State) (h : Inv N s) (hst : same_table s s')
    (hq : queue_wf N s') : Inv N s' := by
  have ht : ∀ i, s'.thread i = s.thread i := same_table_thread hst
  refine ⟨hq, by rw [hst.1]; exact h.table_len, ?_, ?_, ?_⟩
  · obtain ⟨c, c1, c2, c3⟩ := h.current
    exact ⟨c, by rw [hst.2.1]; exact c1, c2, by rw [ht]; exact c3⟩
  · intro i hi hs; rw [ht] at hs ⊢; exact h.tid_ok i hi hs
  · intro i x hi hs; rw [ht] at hs; exact h.env_ok i x hi hs

theorem Inv_enqueue (N : Nat) (s : State) (x : Nat) (h : Inv N s) (hx : x < N) :
    Inv N (enqueue N s x) :=
  Inv_of_same_table N s _ h (same_table_enqueue N s x) (queue_wf_enqueue N s x h.queue hx)

theorem Inv_set_current (N : Nat) (s : State) (t : Nat) (h : Inv N s) (ht : t < N)
    (htid : (s.thread t).tid = t) : Inv N { s with g_current := some t } :=
  ⟨h.queue, h.table_len, ⟨t, rfl, ht, htid⟩, h.tid_ok, h.env_ok⟩

theorem Inv_set_total (N : Nat) (s : State) (v : Int) (h : Inv N s) :
    Inv N { s with g_total_quantums := v } :=
  ⟨h.queue, h.table_len, h.current, h.tid_ok, h.env_ok⟩

theorem Inv_wake_step (N : Nat) (s : State) (i : Nat) (hi : i < N) (h : Inv N s) :
    Inv N (wake_step N s i) := by
  unfold wake_step
  split
  · next hd =>
    apply Inv_enqueue N _ i _ hi
    apply Inv_set_thread N s i _ h hi
    · exact h.tid_ok i hi (by rw [hd.1]; decide)
    · intro x hx; exact h.env_ok i x hi hx
  · exact h

theorem Inv_sweep_fold (N : Nat) (l : List Nat) :
    ∀ s : State, (∀ i ∈ l, i < N) → Inv N s → Inv N (l.foldl (wake_step N) s) := by
  induction l with
  | nil => intro s _ h; exact h
  | cons i l ih =>
    intro s hl h
    rw [List.foldl_cons]
    apply ih
    · intro j hj; exact hl j (List.mem_cons_of_mem _ hj)
    · exact Inv_wake_step N s i (hl i (List.mem_cons_self _ _)) h

theorem Inv_wake_sweep (N : Nat) (s : State) (h : Inv N s) : Inv N (wake_sweep N s) := by
  unfold wake_sweep
  apply Inv_sweep_fold N _ s _ h
  intro i hi
  rw [List.mem_range'] at hi
  obtain ⟨k, hk, rfl⟩ := hi
  omega

theorem Inv_switch_to (N : Nat) (k : Context) (c : Nat) (s : State) (tid : Nat)
    (h : Inv N s) (hc : s.g_current = some c)
    (hsel : (s.thread tid).state = THREAD_READY)
    (hk : ∀ x, k = Context.in_terminate x → x = c) :
    Inv N (switch_to N k c s tid) := by
  obtain ⟨c', c1, c2, c3⟩ := h.current
  have hcc : c' = c := by rw [hc] at c1; exact (Option.some.inj c1).symm
  subst hcc
  have htl : tid < s.g_thread.length := lt_of_state_ne_unused s tid (by rw [hsel]; decide)
  have htN : tid < N := by rw [← h.table_len]; exact htl
  have htt : (s.thread tid).tid = tid := h.tid_ok tid htN (by rw [hsel]; decide)
  have h1 : Inv N (s.set_state tid THREAD_RUNNING) := Inv_set_state N s tid _ h htN htt
  have h1c : ((s.set_state tid THREAD_RUNNING).thread c').tid = c' := by
    rw [tid_set_state]; exact c3
  have h1t : ((s.set_state tid THREAD_RUNNING).thread tid).tid = tid := by
    rw [tid_set_state]; exact htt
  unfold switch_to context_switch
  simp only
  split
  · have h2 : Inv N ((s.set_state tid THREAD_RUNNING).set_state c' THREAD_READY) :=
      Inv_set_state N _ c' _ h1 c2 h1c
    have h3 := Inv_enqueue N _ ((s.set_state tid THREAD_RUNNING).thread c').tid h2
      (by rw [h1c]; exact c2)
    have h3t : ((enqueue N ((s.set_state tid THREAD_RUNNING).set_state c' THREAD_READY)
        ((s.set_state tid THREAD_RUNNING).thread c').tid).thread tid).tid = tid := by
      rw [thread_enqueue, tid_set_state]; exact h1t
    have h3c : ((enqueue N ((s.set_state tid THREAD_RUNNING).set_state c' THREAD_READY)
        ((s.set_state tid THREAD_RUNNING).thread c').tid).thread c').tid = c' := by
      rw [thread_enqueue, tid_set_state]; exact h1c
    have h4 := Inv_set_current N _ tid h3 htN h3t
    apply Inv_set_thread N _ c' _ h4 c2
    · exact h3c
    · intro x hx; exact hk x hx
  · have h4 := Inv_set_current N _ tid h1 htN h1t
    apply Inv_set_thread N _ c' _ h4 c2
    · exact h1c
    · intro x hx; exact hk x hx

theorem Inv_schedule_next (N : Nat) (k : Context) (s s' : State) (sw : Bool) (c : Nat)
    (h : Inv N s) (hc : s.g_current = some c)
    (hk : ∀ x, k = Context.in_terminate x → x = c)
    (hr : schedule_next N k s = some (s', sw)) : Inv N s' := by
  rw [schedule_next_eq N k s c hc] at hr
  have hw := Inv_wake_sweep N s h
  have hwc : (wake_sweep N s).g_current = some c := by
    rw [(wake_sweep_frame N s).1]; exact hc
  rcases select_loop_cases N k s.q_head c N (wake_sweep N s) (s', sw) hr with
    ⟨_, a2, a3⟩ | ⟨s1, tid, b1, b2, b3, b4⟩
  · exact Inv_of_same_table N _ _ hw a2 (a3 hw.queue)
  · simp only [Prod.mk.injEq] at b1
    obtain ⟨rfl, rfl⟩ := b1
    have h1 := Inv_of_same_table N _ _ hw b2 (b3 hw.queue).1
    exact Inv_switch_to N k c s1 tid h1 (by rw [b2.2.1]; exact hwc) b4 hk

theorem Inv_resume_context (N : Nat) (s : State) (h : Inv N s) : Inv N (resume_context s) := by
  obtain ⟨c, c1, c2, c3⟩ := h.current
  unfold resume_context
  rw [c1]
  simp only
  split
  · next x hx =>
    have : x = c := h.env_ok c x c2 hx
    subst this
    exact Inv_set_state N s x _ h c2 c3
  · exact h

theorem Inv_init (N : Nat) (s : State) (q : Int) (hN : 0 < N) (hq : queue_wf N s)
    (h0 : 0 < q) : Inv N (uthread_init N s q).1 := by
  have hq' : ¬ q ≤ 0 := by omega
  have hth : ∀ i, ((uthread_init N s q).1.thread i)
      = if i = 0 then { thread_t.zero with
            tid := 0, state := THREAD_RUNNING, quantums := 1, sleep_until := 0,
            env := Context.in_init } else thread_t.zero := by
    intro i
    by_cases hi : i = 0
    · subst hi
      simp [uthread_init, hq', State.thread, List.getD_eq_getElem?_getD, List.getElem?_set, hN]
    · have hne : ¬ 0 = i := fun e => hi e.symm
      simp only [uthread_init, hq', if_false, State.thread, List.getD_eq_getElem?_getD,
        List.getElem?_set, hne, hi, List.getElem?_replicate]
      split <;> rfl
  refine ⟨?_, ?_, ⟨0, ?_, hN, ?_⟩, ?_, ?_⟩
  · simpa [uthread_init, hq', queue_wf] using hq
  · simp [uthread_init, hq']
  · simp [uthread_init, hq']
  · rw [hth]; rfl
  · intro i _ hs
    rw [hth] at hs ⊢
    by_cases hi : i = 0
    · simp [hi]
    · simp [hi, thread_t.zero] at hs
  · intro i x _ hs
    rw [hth] at hs
    by_cases hi : i = 0
    · simp [hi] at hs
    · simp [hi, thread_t.zero] at hs

theorem queue_wf_static_init (N : Nat) (hN : 0 < N) : queue_wf N (State.static_init N) := by
  refine ⟨by simp [State.static_init], hN, hN, ?_⟩
  intro e he
  simp only [State.static_init, List.mem_replicate] at he
  omega

theorem Inv_set_state_unused (N : Nat) (s : State) (i : Nat) (h : Inv N s) :
    Inv N (s.set_state i THREAD_UNUSED) := by
  refine ⟨h.queue, by simp [State.set_state, State.set_thread, h.table_len], ?_, ?_, ?_⟩
  · obtain ⟨c, c1, c2, c3⟩ := h.current
    exact ⟨c, c1, c2, by rw [tid_set_state]; exact c3⟩
  · intro j hj hs
    rw [tid_set_state]
    rw [thread_set_state] at hs
    split at hs
    · simp at hs
    · exact h.tid_ok j hj hs
  · intro j x hj hs
    rw [thread_set_state] at hs
    split at hs
    · next hji => rw [hji.1]; exact h.env_ok i x (by rw [← hji.1]; exact hj) hs
    · exact h.env_ok j x hj hs

theorem valid_tid_slot (N : Nat) (s : State) (tid : Int) (h : Inv N s)
    (hv : ¬ (tid < 0 ∨ tid ≥ (N : Int) ∨ (s.thread tid.toNat).state = THREAD_UNUSED)) :
    tid.toNat < N ∧ (s.thread tid.toNat).tid = tid.toNat ∧ (tid.toNat : Int) = tid := by
  simp only [not_or, not_lt, ge_iff_le, not_le] at hv
  obtain ⟨h1, h2, h3⟩ := hv
  have hlt : tid.toNat < N := by omega
  exact ⟨hlt, h.tid_ok _ hlt h3, by omega⟩

theorem Inv_spawn (N : Nat) (s : State) (e : Nat) (h : Inv N s) :
    Inv N (uthread_spawn N s e).1 := by
  unfold uthread_spawn
  split
  · exact h
  · split
    · exact h
    · next t hf =>
      have ht := (find_unused_eq_some N s t).mp hf
      simp only
      apply Inv_enqueue N _ t _ ht.2.1
      apply Inv_set_thread N s t _ h ht.2.1 rfl
      intro x hx
      simp at hx

theorem Inv_resume (N : Nat) (s : State) (tid : Int) (h : Inv N s) :
    Inv N (uthread_resume N s tid).1 := by
  unfold uthread_resume
  split
  · exact h
  · next hv =>
    obtain ⟨v1, v2, _⟩ := valid_tid_slot N s tid h hv
    split
    · exact Inv_enqueue N _ _ (Inv_set_state N s _ _ h v1 v2) v1
    · exact h

theorem Inv_uthread_init (N : Nat) (s : State) (q : Int) (h : Inv N s) :
    Inv N (uthread_init N s q).1 := by
  by_cases hq : q ≤ 0
  · simp only [uthread_init, hq, if_true]; exact h
  · have hN : 0 < N := by have := h.queue.2.1; omega
    exact Inv_init N s q hN h.queue (by omega)

theorem Inv_terminate (N : Nat) (s s1 : State) (tid : Int) (o : Outcome) (h : Inv N s)
    (hr : uthread_terminate N s tid = some (s1, o)) : Inv N s1 := by
  unfold uthread_terminate at hr
  split at hr
  · simp only [Option.some.injEq, Prod.mk.injEq] at hr; rw [← hr.1]; exact h
  · next hv =>
    obtain ⟨v1, v2, _⟩ := valid_tid_slot N s tid h hv
    split at hr
    · simp only [Option.some.injEq, Prod.mk.injEq] at hr; rw [← hr.1]; exact h
    · split at hr
      · obtain ⟨c, c1, c2, c3⟩ := h.current
        rw [c1] at hr
        simp only at hr
        split at hr
        · next heq =>
          have htc : tid.toNat = c := by rw [v2, c3] at heq; exact heq
          have h1 : Inv N (s.set_state tid.toNat THREAD_TERMINATED) :=
            Inv_set_state N s _ _ h v1 v2
          split at hr
          · simp at hr
          · next s2 hs =>
            simp only [Option.some.injEq, Prod.mk.injEq] at hr
            rw [← hr.1]
            apply Inv_resume_context
            exact Inv_schedule_next N _ _ s2 true c h1 c1
              (fun x hx => by rw [← htc]; exact (Context.in_terminate.inj hx).symm) hs
          · next s2 hs =>
            simp only [Option.some.injEq, Prod.mk.injEq] at hr
            rw [← hr.1]
            apply Inv_set_state_unused
            exact Inv_schedule_next N _ _ s2 false c h1 c1
              (fun x hx => by rw [← htc]; exact (Context.in_terminate.inj hx).symm) hs
        · simp only [Option.some.injEq, Prod.mk.injEq] at hr
          rw [← hr.1]; exact Inv_set_state_unused N s _ h
      · simp only [Option.some.injEq, Prod.mk.injEq] at hr
        rw [← hr.1]; exact Inv_set_state_unused N s _ h

theorem Inv_block (N : Nat) (s s1 : State) (tid : Int) (o : Outcome) (h : Inv N s)
    (hr : uthread_block N s tid = some (s1, o)) : Inv N s1 := by
  unfold uthread_block at hr
  split at hr
  · simp only [Option.some.injEq, Prod.mk.injEq] at hr; rw [← hr.1]; exact h
  · next hv =>
    have hv' : ¬ (tid < 0 ∨ tid ≥ (N : Int) ∨ (s.thread tid.toNat).state = THREAD_UNUSED) :=
      fun e => hv (Or.inr e)
    obtain ⟨v1, v2, _⟩ := valid_tid_slot N s tid h hv'
    split at hr
    · simp only [Option.some.injEq, Prod.mk.injEq] at hr; rw [← hr.1]; exact h
    · obtain ⟨c, c1, c2, c3⟩ := h.current
      rw [c1] at hr
      simp only at hr
      have h1 : Inv N (s.set_state tid.toNat THREAD_BLOCKED) :=
        Inv_set_state N s _ _ h v1 v2
      split at hr
      · split at hr
        · simp at hr
        · next s2 hs =>
          simp only [Option.some.injEq, Prod.mk.injEq] at hr
          rw [← hr.1]
          apply Inv_resume_context
          exact Inv_schedule_next N Context.in_block _ s2 true c h1 c1 (fun x hx => by cases hx) hs
        · next s2 hs =>
          simp only [Option.some.injEq, Prod.mk.injEq] at hr
          rw [← hr.1]
          exact Inv_schedule_next N Context.in_block _ s2 false c h1 c1 (fun x hx => by cases hx) hs
      · simp only [Option.some.injEq, Prod.mk.injEq] at hr
        rw [← hr.1]; exact h1

theorem Inv_sleep_mark (N : Nat) (s : State) (c : Nat) (n : Int) (h : Inv N s)
    (hc : c < N) (htid : (s.thread c).tid = c) : Inv N (sleep_mark s c n) := by
  unfold sleep_mark
  have h1 : Inv N (s.set_thread c
      { s.thread c with sleep_until := s.g_total_quantums + n }) :=
    Inv_set_thread N s c _ h hc htid (fun x hx => h.env_ok c x hc hx)
  apply Inv_set_state N _ c _ h1 hc
  rw [thread_set_thread_self _ _ _ (by rw [h.table_len]; exact hc)]
  exact htid

theorem Inv_sleep (N : Nat) (s s1 : State) (n : Int) (o : Outcome) (h : Inv N s)
    (hr : uthread_sleep N s n = some (s1, o)) : Inv N s1 := by
  obtain ⟨c, c1, c2, c3⟩ := h.current
  unfold uthread_sleep at hr
  rw [c1] at hr
  simp only at hr
  split at hr
  · simp only [Option.some.injEq, Prod.mk.injEq] at hr; rw [← hr.1]; exact h
  · have h1 := Inv_sleep_mark N s c n h c2 c3
    split at hr
    · simp at hr
    · next s2 hs =>
      simp only [Option.some.injEq, Prod.mk.injEq] at hr
      rw [← hr.1]
      apply Inv_resume_context
      exact Inv_schedule_next N Context.in_sleep _ s2 true c h1 c1 (fun x hx => by cases hx) hs
    · next s2 hs =>
      simp only [Option.some.injEq, Prod.mk.injEq] at hr
      rw [← hr.1]
      exact Inv_schedule_next N Context.in_sleep _ s2 false c h1 c1 (fun x hx => by cases hx) hs

theorem Inv_tick (N : Nat) (s s1 : State) (h : Inv N s)
    (hr : timer_handler N s = some s1) : Inv N s1 := by
  obtain ⟨c, c1, c2, c3⟩ := h.current
  unfold timer_handler at hr
  rw [c1] at hr
  simp only at hr
  have h1 : Inv N (tick_count s c) :=
    Inv_set_thread N _ c _ (Inv_set_total N s _ h) c2 c3 (fun x hx => h.env_ok c x c2 hx)
  split at hr
  · simp at hr
  · next s2 hs =>
    simp only [Option.some.injEq] at hr
    rw [← hr]
    apply Inv_resume_context
    exact Inv_schedule_next N Context.in_timer _ s2 true c h1 c1 (fun x hx => by cases hx) hs
  · next s2 hs =>
    simp only [Option.some.injEq] at hr
    rw [← hr]
    exact Inv_schedule_next N Context.in_timer _ s2 false c h1 c1 (fun x hx => by cases hx) hs

theorem Inv_step (N : Nat) (s s1 : State) (h : Inv N s) (hs : Step N s s1) : Inv N s1 := by
  cases hs with
  | init q => exact Inv_uthread_init N _ q h
  | spawn e => exact Inv_spawn N _ e h
  | terminate _ tid o hr _ => exact Inv_terminate N _ _ tid o h hr
  | block _ tid o hr => exact Inv_block N _ _ tid o h hr
  | resume tid => exact Inv_resume N _ tid h
  | sleep _ n o hr => exact Inv_sleep N _ _ n o h hr
  | tick _ hr => exact Inv_tick N _ _ h hr

/-- Every reachable state satisfies the structural invariant. -/
theorem Inv_of_Reachable (N : Nat) (s : State) (hN : 0 < N) (h : Reachable N s) :
    Inv N s := by
  induction h with
  | init q hq => exact Inv_init N _ q hN (queue_wf_static_init N hN) hq
  | step s s1 _ hs ih => exact Inv_step N s s1 ih hs

/-! ## `uthread_block` twice -/

theorem uthread_block_on_blocked (N : Nat) (s : State) (tid : Int)
    (h0 : tid ≠ 0) (h1 : 0 ≤ tid) (h2 : tid < (N : Int))
    (hb : (s.thread tid.toNat).state = THREAD_BLOCKED) :
    uthread_block N s tid = some (s, Outcome.ret 0) := by
  have hv : ¬ (tid = 0 ∨ tid < 0 ∨ tid ≥ (N : Int)
      ∨ (s.thread tid.toNat).state = THREAD_UNUSED) := by
    rw [hb]; simp; omega
  unfold uthread_block
  rw [if_neg hv, if_pos hb]

theorem resume_context_thread_other (N : Nat) (s : State) (c j : Nat) (h : Inv N s)
    (hc : s.g_current = some c) (hj : j ≠ c) :
    (resume_context s).thread j = s.thread j := by
  obtain ⟨c', c1, c2, _⟩ := h.current
  have hcc : c' = c := by rw [hc] at c1; exact (Option.some.inj c1).symm
  subst hcc
  unfold resume_context
  rw [hc]
  simp only
  split
  · next x hx =>
    have : x = c' := h.env_ok c' x c2 hx
    subst this
    rw [thread_set_state]; simp [hj]
  · rfl

/-- Blocking twice is blocking once, in every state that satisfies the
structural invariant, unless the thread blocks itself while it carries a
wake-up time that is already due. -/
theorem uthread_block_twice_inv (N : Nat) (s : State) (tid : Int) (h : Inv N s)
    (hnd : ∀ c, s.g_current = some c → tid = (c : Int) →
      ((s.thread c).sleep_until = 0 ∨ s.g_total_quantums < (s.thread c).sleep_until)) :
    ∃ s1 o1, uthread_block N s tid = some (s1, o1) ∧
      ((o1 = Outcome.ret (-1) ∧ uthread_block N s1 tid = some (s1, Outcome.ret (-1))) ∨
       ((o1 = Outcome.ret 0 ∨ o1 = Outcome.switched)
          ∧ uthread_block N s1 tid = some (s1, Outcome.ret 0))) := by
  by_cases hv : tid = 0 ∨ tid < 0 ∨ tid ≥ (N : Int)
      ∨ (s.thread tid.toNat).state = THREAD_UNUSED
  · have e : uthread_block N s tid = some (s, Outcome.ret (-1)) := by
      unfold uthread_block; rw [if_pos hv]
    exact ⟨s, _, e, Or.inl ⟨rfl, e⟩⟩
  · have hv' : ¬ (tid < 0 ∨ tid ≥ (N : Int) ∨ (s.thread tid.toNat).state = THREAD_UNUSED) :=
      fun e => hv (Or.inr e)
    obtain ⟨v1, v2, v3⟩ := valid_tid_slot N s tid h hv'
    have h0 : tid ≠ 0 := fun e => hv (Or.inl e)
    have h1 : 0 ≤ tid := by omega
    have h2 : tid < (N : Int) := by omega
    have hl : tid.toNat < s.g_thread.length := by rw [h.table_len]; exact v1
    by_cases hb : (s.thread tid.toNat).state = THREAD_BLOCKED
    · have e := uthread_block_on_blocked N s tid h0 h1 h2 hb
      exact ⟨s, _, e, Or.inr ⟨Or.inl rfl, e⟩⟩
    · obtain ⟨c, c1, c2, c3⟩ := h.current
      by_cases hcur : tid = ((s.thread c).tid : Int)
      · have htc : tid.toNat = c := by rw [c3] at hcur; omega
        have hB : Inv N (s.set_state tid.toNat THREAD_BLOCKED) := Inv_set_state N s _ _ h v1 v2
        have hBc : (s.set_state tid.toNat THREAD_BLOCKED).g_current = some c := c1
        have hBt : (s.set_state tid.toNat THREAD_BLOCKED).thread c
            = { s.thread c with state := THREAD_BLOCKED } := by
          rw [thread_set_state, htc]; simp [← htc, hl]
        obtain ⟨s2, sw, r1, r2⟩ := schedule_next_blocked_slots N Context.in_block
          (s.set_state tid.toNat THREAD_BLOCKED) c hB.queue.2.1 hB.table_len hBc c2
        have hI2 : Inv N s2 :=
          Inv_schedule_next N Context.in_block _ s2 sw c hB hBc (fun x hx => by cases hx) r1
        have hnd' := hnd c c1 (by omega)
        obtain ⟨q1, _, q3⟩ := (r2 c (by rw [hBt])).1 (by rw [hBt]; exact hnd')
        have heq : uthread_block N s tid
            = match schedule_next N Context.in_block (s.set_state tid.toNat THREAD_BLOCKED) with
              | none => none
              | some (s2, true) => some (resume_context s2, Outcome.switched)
              | some (s2, false) => some (s2, Outcome.ret 0) := by
          unfold uthread_block
          rw [if_neg hv, if_neg hb, c1]
          simp only [hcur, if_true]
        rw [r1] at heq
        cases sw with
        | true =>
          simp only at heq
          obtain ⟨c', d1, d2, _⟩ := hI2.current
          have hne : c ≠ c' := by
            intro e
            have := (q3 (by rw [d1, e])).2
            cases this
          have hbl : ((resume_context s2).thread tid.toNat).state = THREAD_BLOCKED := by
            rw [htc, resume_context_thread_other N s2 c' c hI2 d1 hne]; exact q1
          exact ⟨_, _, heq, Or.inr ⟨Or.inr rfl,
            uthread_block_on_blocked N _ tid h0 h1 h2 hbl⟩⟩
        | false =>
          simp only at heq
          have hbl : (s2.thread tid.toNat).state = THREAD_BLOCKED := by rw [htc]; exact q1
          exact ⟨_, _, heq, Or.inr ⟨Or.inl rfl,
            uthread_block_on_blocked N _ tid h0 h1 h2 hbl⟩⟩
      · have heq : uthread_block N s tid
            = some (s.set_state tid.toNat THREAD_BLOCKED, Outcome.ret 0) := by
          unfold uthread_block
          rw [if_neg hv, if_neg hb, c1]
          simp only [hcur, if_false]
        have hbl : ((s.set_state tid.toNat THREAD_BLOCKED).thread tid.toNat).state
            = THREAD_BLOCKED := by
          rw [thread_set_state]; simp [hl]
        exact ⟨_, _, heq, Or.inr ⟨Or.inl rfl,
          uthread_block_on_blocked N _ tid h0 h1 h2 hbl⟩⟩

/-- Where blocking twice is blocking once: in every state reachable from
`uthread_init` by public calls and timer ticks, and for every `tid` other than
a current thread whose `sleep_until` is nonzero and not above
`total_quantums`, `uthread_block tid` returns, and a second `uthread_block tid`
leaves the state reached by the first unchanged and returns what the first
returns: -1 after an error, 0 otherwise (the first call returns its 0 at once
or, when it switched to another thread, once its context is restored). -/
theorem uthread_block_twice (N : Nat) (s : State) (tid : Int) (hN : 0 < N)
    (hr : Reachable N s)
    (hnd : ∀ c, s.g_current = some c → tid = (c : Int) →
      ((s.thread c).sleep_until = 0 ∨ s.g_total_quantums < (s.thread c).sleep_until)) :
    ∃ s1 o1, uthread_block N s tid = some (s1, o1) ∧
      ((o1 = Outcome.ret (-1) ∧ uthread_block N s1 tid = some (s1, Outcome.ret (-1))) ∨
       ((o1 = Outcome.ret 0 ∨ o1 = Outcome.switched)
          ∧ uthread_block N s1 tid = some (s1, Outcome.ret 0))) :=
  uthread_block_twice_inv N s tid (Inv_of_Reachable N s hN hr) hnd

/-! ## The example states are reachable -/

theorem ex3_init_reachable : Reachable 3 ex3_init :=
  Reachable.init 100000 (by decide)

theorem ex3_spawn_reachable : Reachable 3 ex3_spawn :=
  Reachable.step _ _ ex3_init_reachable (Step.spawn ex3_init 7)

theorem ex3_run1_reachable : Reachable 3 ex3_run1 :=
  Reachable.step _ _ ex3_spawn_reachable (Step.tick ex3_spawn ex3_run1 (by decide))

theorem ex3_sleeper_reachable : Reachable 3 ex3_sleeper :=
  Reachable.step _ _ ex3_run1_reachable
    (Step.sleep ex3_run1 ex3_sleeper 1 Outcome.switched (by decide))

theorem ex3_resumed_reachable : Reachable 3 ex3_resumed :=
  Reachable.step _ _ ex3_sleeper_reachable
    ((by decide : (uthread_resume 3 ex3_sleeper 1).1 = ex3_resumed) ▸ Step.resume ex3_sleeper 1)

theorem ex3_stale_reachable : Reachable 3 ex3_stale :=
  Reachable.step _ _ ex3_resumed_reachable (Step.tick ex3_resumed ex3_stale (by decide))

theorem ex3_blocked_reachable : Reachable 3 ex3_blocked :=
  Reachable.step _ _ ex3_spawn_reachable
    (Step.block ex3_spawn ex3_blocked 1 (Outcome.ret 0) (by decide))

theorem ex3_full_reachable : Reachable 3 ex3_full :=
  Reachable.step _ _ ex3_blocked_reachable
    ((by decide : (uthread_resume 3 ex3_blocked 1).1 = ex3_full) ▸ Step.resume ex3_blocked 1)

theorem ex3_full_blocked_reachable : Reachable 3 ex3_full_blocked :=
  Reachable.step _ _ ex3_full_reachable
    (Step.block ex3_full ex3_full_blocked 1 (Outcome.ret 0) (by decide))

theorem ex3_two_run1_reachable : Reachable 3 ex3_two_run1 :=
  Reachable.step _ _ (Reachable.step _ _ ex3_spawn_reachable (Step.spawn ex3_spawn 8))
    (Step.tick ex3_two ex3_two_run1 (by decide))

theorem ex3_lost_reachable : Reachable 3 ex3_lost :=
  Reachable.step _ _
    (Reachable.step _ _ ex3_two_run1_reachable
      (Step.block ex3_two_run1 ex3_two_blocked 2 (Outcome.ret 0) (by decide)))
    ((by decide : (uthread_resume 3 ex3_two_blocked 2).1 = ex3_lost)
      ▸ Step.resume ex3_two_blocked 2)

theorem ex4_run2_reachable : Reachable 4 ex4_run2 :=
  Reachable.step _ _
    (Reachable.step _ _
      (Reachable.step _ _
        (Reachable.step _ _ (Reachable.init 100000 (by decide)) (Step.spawn _ 7))
        (Step.spawn _ 8))
      (Step.tick ex4_two ((timer_handler 4 ex4_two).getD ex4_two) (by decide)))
    (Step.tick _ ex4_run2 (by decide))

theorem ex4_stale_reachable : Reachable 4 ex4_stale :=
  Reachable.step _ _
    (Reachable.step _ _
      (Reachable.step _ _
        (Reachable.step _ _ ex4_run2_reachable
          (Step.sleep ex4_run2 ((uthread_sleep 4 ex4_run2 1).getD (ex4_run2, Outcome.switched)).1
            1 Outcome.switched (by decide)))
        ((by decide : (uthread_resume 4
            ((uthread_sleep 4 ex4_run2 1).getD (ex4_run2, Outcome.switched)).1 2).1 = ex4_resumed)
          ▸ Step.resume _ 2))
      (Step.tick ex4_resumed ((timer_handler 4 ex4_resumed).getD ex4_resumed) (by decide)))
    (Step.block _ ex4_stale 2 (Outcome.ret 0) (by decide))

/-! ## Witnesses and counterexamples -/

/-- Witness for C2: the first `uthread_spawn` after `uthread_init`, `N = 3`. -/
theorem uthread_spawn_spec_witness :
    (uthread_spawn 3 ex3_init 7).2 = 1 ∧
    ((uthread_spawn 3 ex3_init 7).1.thread 1).state = THREAD_READY ∧
    queue_list 3 (uthread_spawn 3 ex3_init 7).1 = queue_list 3 ex3_init ++ [(1 : Nat)] :=
  have h := (uthread_spawn_spec 3 ex3_init 7 (by decide) (by decide) (by decide)
    (by decide) (by decide)).1 1 (by decide) (by decide) (by decide)
    (fun j h1 h2 => absurd h2 (by omega))
  ⟨h.1, h.2.1, h.2.2.2.2.2.2.2.2.2.2 (by decide)⟩

/-- C2 fails on a full queue.  In the reachable state `ex3_full` slot 2 is the
smallest `UNUSED` slot in `[1, 3)` and `uthread_spawn` returns 2, but the ready
queue, which held `[1, 1]`, is empty afterwards (`dequeue` returns -1): storing
the third entry wrapped `q_tail` onto `q_head`. -/
theorem uthread_spawn_full_queue :
    Reachable 3 ex3_full ∧
    (ex3_full.thread 1).state ≠ THREAD_UNUSED ∧
    (ex3_full.thread 2).state = THREAD_UNUSED ∧
    (uthread_spawn 3 ex3_full 9).2 = 2 ∧
    queue_list 3 ex3_full = [1, 1] ∧
    queue_list 3 (uthread_spawn 3 ex3_full 9).1 = [] ∧
    (dequeue 3 (uthread_spawn 3 ex3_full 9).1).1 = none ∧
    queue_list 3 (uthread_spawn 3 ex3_full 9).1 ≠ queue_list 3 ex3_full ++ [2] :=
  ⟨ex3_full_reachable, by decide, by decide, by decide, by decide, by decide, by decide,
    by decide⟩

/-- C3, the code at the failing input.  Thread 1 runs with threads 2 and 0
`READY` in the queue and calls `uthread_terminate(1)`: the scheduler switches
to thread 2 and does not enqueue thread 1, but slot 1 is left `TERMINATED`,
and the next `uthread_spawn` finds no `UNUSED` slot and returns -1. -/
theorem self_terminate_leaves_terminated :
    Reachable 3 ex3_two_run1 ∧
    uthread_get_tid ex3_two_run1 = 1 ∧
    queue_list 3 ex3_two_run1 = [2, 0] ∧
    (ex3_two_run1.thread 2).state = THREAD_READY ∧
    uthread_terminate 3 ex3_two_run1 1 = some (ex3_terminated, Outcome.switched) ∧
    uthread_get_tid ex3_terminated = 2 ∧
    queue_list 3 ex3_terminated = [0] ∧
    (ex3_terminated.thread 1).state = THREAD_TERMINATED ∧
    uthread_spawn 3 ex3_terminated 9 = (ex3_terminated, -1) :=
  ⟨ex3_two_run1_reachable, by decide, by decide, by decide, by decide, by decide, by decide,
    by decide, by decide⟩

/-- Witness for C4: `uthread_resume(1)` in `ex3_sleeper`. -/
theorem uthread_resume_sleeper_witness :
    (ex3_sleeper.thread 1).state = THREAD_BLOCKED ∧
    (ex3_sleeper.thread 1).sleep_until ≠ 0 ∧
    ((uthread_resume 3 ex3_sleeper 1).1.thread (1 : Int).toNat).state = THREAD_READY ∧
    queue_list 3 (uthread_resume 3 ex3_sleeper 1).1
      = queue_list 3 ex3_sleeper ++ [(1 : Int).toNat] ∧
    (uthread_resume 3 ex3_sleeper 1).1 ≠ ex3_sleeper :=
  have h := uthread_resume_sleeper 3 ex3_sleeper 1 (by decide) (by decide) (by decide)
    (by decide) (by decide) (by decide) (by decide) (by decide)
  ⟨by decide, by decide, h.2.1, h.2.2.2.2.2.2.2.2.1 (by decide), h.2.2.2.2.2.2.2.2.2⟩

/-- C4 fails.  In the reachable state `ex3_sleeper` slot 1 is `BLOCKED` with
`sleep_until = 3`; `uthread_resume(1)` returns 0 and leaves thread 1 `READY`
and in the queue. -/
theorem uthread_resume_wakes_sleeper :
    Reachable 3 ex3_sleeper ∧
    (ex3_sleeper.thread 1).state = THREAD_BLOCKED ∧
    (ex3_sleeper.thread 1).sleep_until = 3 ∧
    uthread_resume 3 ex3_sleeper 1 = (ex3_resumed, 0) ∧
    ex3_resumed ≠ ex3_sleeper ∧
    (ex3_resumed.thread 1).state = THREAD_READY ∧
    queue_list 3 ex3_sleeper = [] ∧
    queue_list 3 ex3_resumed = [1] :=
  ⟨ex3_sleeper_reachable, by decide, by decide, by decide, by decide, by decide, by decide,
    by decide⟩

/-- Witness for C5: thread 0 calls `uthread_sleep(5)` in `ex3_init`, thread 1
calls `uthread_sleep(-1)` in `ex3_run1`. -/
theorem uthread_sleep_rejects_main_only_witness :
    ex3_init.g_current = some 0 ∧
    uthread_sleep 3 ex3_init 5 = some (ex3_init, Outcome.ret (-1)) ∧
    ex3_run1.g_current = some 1 ∧
    uthread_sleep 3 ex3_run1 (-1) ≠ some (ex3_run1, Outcome.ret (-1)) :=
  ⟨by decide,
   (uthread_sleep_rejects_main_only 3 ex3_init 5 0 (by decide)).1 (by decide),
   by decide,
   (uthread_sleep_rejects_main_only 3 ex3_run1 (-1) 1 (by decide)).2 (by decide) ex3_run1⟩

/-- C5 fails for a negative argument.  In the reachable state `ex3_run1` the
caller is thread 1; `uthread_sleep(-1)` does not return -1: it enters the
scheduler, which switches to thread 0. -/
theorem uthread_sleep_negative_accepted :
    Reachable 3 ex3_run1 ∧
    uthread_get_tid ex3_run1 = 1 ∧
    uthread_sleep 3 ex3_run1 (-1) ≠ some (ex3_run1, Outcome.ret (-1)) ∧
    (uthread_sleep 3 ex3_run1 (-1)).map (fun r => (uthread_get_tid r.1, r.2))
      = some (0, Outcome.switched) :=
  ⟨ex3_run1_reachable, by decide, by decide, by decide⟩

/-- Witness for C6: thread 1 calls `uthread_sleep(2)` in `ex3_run1`, where the
queue is `[0]` and thread 0 is `READY`. -/
theorem uthread_sleep_switches_witness :
    ex3_run1.g_current = some 1 ∧
    queue_list 3 ex3_run1 = [] ++ 0 :: [] ∧
    ∃ s1, uthread_sleep 3 ex3_run1 2 = some (s1, Outcome.switched) ∧
      (s1.thread 1).state = THREAD_BLOCKED ∧
      (s1.thread 1).sleep_until = ex3_run1.g_total_quantums + 2 ∧
      (s1.thread 1).sleep_until ≤ INT_MAX ∧
      s1.g_current = some 0 ∧
      (s1.thread 0).state = THREAD_RUNNING ∧
      queue_list 3 s1 = [] ++ [] :=
  ⟨by decide, by decide,
   uthread_sleep_switches 3 ex3_run1 2 1 [] [] 0 (by decide) (by decide) (by decide)
     (by decide) (by decide) (by decide) (by decide) (by decide) (by decide)
     (fun i h1 h2 => by
       have hi : i = 1 ∨ i = 2 := by omega
       rcases hi with hi | hi <;> subst hi <;> decide)
     (by decide) (fun x hx => absurd hx (List.not_mem_nil x)) (by decide)
     (fun x hx => by
       have h0 : (ex3_run1.thread 0).env = Context.in_timer := by decide
       rw [h0] at hx
       cases hx)⟩

/-- C6 fails when the sweep wakes a thread whose stale entry stands in front.
In the reachable state `ex4_stale` thread 1 is current and `RUNNING`, the queue
is `[2, 0]`, thread 2 is `BLOCKED` with `sleep_until = 4` in quantum 4 and
thread 0 is the first `READY` thread of the queue; after `uthread_sleep(1)` the
current thread is 2, not 0. -/
theorem uthread_sleep_selects_woken :
    Reachable 4 ex4_stale ∧
    uthread_get_tid ex4_stale = 1 ∧
    queue_list 4 ex4_stale = [2, 0] ∧
    (ex4_stale.thread 2).state = THREAD_BLOCKED ∧
    (ex4_stale.thread 0).state = THREAD_READY ∧
    (uthread_sleep 4 ex4_stale 1).map (fun r => (uthread_get_tid r.1, r.2))
      = some (2, Outcome.switched) :=
  ⟨ex4_stale_reachable, by decide, by decide, by decide, by decide, by decide⟩

/-- Witness for C7: the scheduler entered in `ex3_sleeper`. -/
theorem schedule_next_sleepers_witness :
    ∃ s' sw, schedule_next 3 Context.in_timer ex3_sleeper = some (s', sw) ∧
      ∀ i, (ex3_sleeper.thread i).state = THREAD_BLOCKED →
        (((ex3_sleeper.thread i).sleep_until = 0
            ∨ ex3_sleeper.g_total_quantums < (ex3_sleeper.thread i).sleep_until) →
          (s'.thread i).state = THREAD_BLOCKED ∧
          (s'.thread i).sleep_until = (ex3_sleeper.thread i).sleep_until ∧
          (s'.g_current = some i → ex3_sleeper.g_current = some i ∧ sw = false)) ∧
        (((ex3_sleeper.thread i).sleep_until ≠ 0
            ∧ (ex3_sleeper.thread i).sleep_until ≤ ex3_sleeper.g_total_quantums) →
          1 ≤ i →
          (s'.thread i).sleep_until = 0 ∧
          ((s'.thread i).state = THREAD_READY ∨ (s'.thread i).state = THREAD_RUNNING)) :=
  schedule_next_sleepers 3 Context.in_timer ex3_sleeper 0 (by decide) (by decide)
    (by decide) (by decide)

/-- C7 fails in two places.  In the reachable state `ex3_lost` the queue reads
as empty; when thread 1 blocks itself there, `schedule_next` is entered with
slot 1 `BLOCKED` and `sleep_until = 0`, finds nothing to run and returns with
thread 1 still current.  In `ex3_main_asleep` slot 0 is `BLOCKED` with a
`sleep_until` that is due, and `schedule_next` leaves it `BLOCKED`: its sweep
starts at slot 1. -/
theorem schedule_next_keeps_blocked_current :
    (Reachable 3 ex3_lost ∧
      ex3_lost.set_state 1 THREAD_BLOCKED = ex3_lost_marked ∧
      uthread_block 3 ex3_lost 1 = some (ex3_lost_marked, Outcome.ret 0) ∧
      (ex3_lost_marked.thread 1).state = THREAD_BLOCKED ∧
      (ex3_lost_marked.thread 1).sleep_until = 0 ∧
      schedule_next 3 Context.in_block ex3_lost_marked = some (ex3_lost_marked, false) ∧
      ex3_lost_marked.g_current = some 1) ∧
    ((ex3_main_asleep.thread 0).state = THREAD_BLOCKED ∧
      (ex3_main_asleep.thread 0).sleep_until = 1 ∧
      ex3_main_asleep.g_total_quantums = 2 ∧
      schedule_next 3 Context.in_timer ex3_main_asleep = some (ex3_main_asleep, false)) :=
  ⟨⟨ex3_lost_reachable, by decide, by decide, by decide, by decide, by decide, by decide⟩,
   ⟨by decide, by decide, by decide, by decide⟩⟩

/-- Witness for C8: TID 2 names an `UNUSED` slot in `ex3_spawn`. -/
theorem invalid_tid_rejected_witness :
    (ex3_spawn.thread (2 : Int).toNat).state = THREAD_UNUSED ∧
    uthread_terminate 3 ex3_spawn 2 = some (ex3_spawn, Outcome.ret (-1)) ∧
    uthread_block 3 ex3_spawn 2 = some (ex3_spawn, Outcome.ret (-1)) ∧
    uthread_resume 3 ex3_spawn 2 = (ex3_spawn, -1) ∧
    uthread_get_quantums 3 ex3_spawn 2 = -1 ∧
    uthread_block 3 ex3_spawn 0 = some (ex3_spawn, Outcome.ret (-1)) :=
  ⟨by decide, invalid_tid_rejected 3 ex3_spawn 2 (Or.inr (Or.inr (by decide)))⟩

/-- Witness for C9: `uthread_resume(1)` on the `BLOCKED` thread 1 of
`ex3_blocked` and on the `READY` thread 1 of `ex3_spawn`. -/
theorem uthread_resume_spec_witness :
    (ex3_blocked.thread (1 : Int).toNat).state = THREAD_BLOCKED ∧
    (ex3_blocked.thread (1 : Int).toNat).sleep_until = 0 ∧
    (uthread_resume 3 ex3_blocked 1).2 = 0 ∧
    queue_list 3 (uthread_resume 3 ex3_blocked 1).1
      = queue_list 3 ex3_blocked ++ [(1 : Int).toNat] ∧
    uthread_resume 3 ex3_spawn 1 = (ex3_spawn, 0) :=
  have h := (uthread_resume_spec 3 ex3_blocked 1 (by decide) (by decide) (by decide)
    (by decide) (by decide) (by decide)).1 (by decide) (by decide)
  ⟨by decide, by decide, h.1, h.2.2.2.2.2.2.2.2.2 (by decide),
   (uthread_resume_spec 3 ex3_spawn 1 (by decide) (by decide) (by decide)
    (by decide) (by decide) (by decide)).2 (Or.inl (by decide))⟩

/-- C9 fails on a full queue.  In the reachable state `ex3_full_blocked` slot 1
is `BLOCKED` with `sleep_until = 0`; `uthread_resume(1)` returns 0, but the
ready queue, which held `[1, 1]`, is empty afterwards (`dequeue` returns -1). -/
theorem uthread_resume_full_queue :
    Reachable 3 ex3_full_blocked ∧
    (ex3_full_blocked.thread 1).state = THREAD_BLOCKED ∧
    (ex3_full_blocked.thread 1).sleep_until = 0 ∧
    (uthread_resume 3 ex3_full_blocked 1).2 = 0 ∧
    queue_list 3 ex3_full_blocked = [1, 1] ∧
    queue_list 3 (uthread_resume 3 ex3_full_blocked 1).1 = [] ∧
    (dequeue 3 (uthread_resume 3 ex3_full_blocked 1).1).1 = none ∧
    queue_list 3 (uthread_resume 3 ex3_full_blocked 1).1
      ≠ queue_list 3 ex3_full_blocked ++ [1] :=
  ⟨ex3_full_blocked_reachable, by decide, by decide, by decide, by decide, by decide,
    by decide, by decide⟩

/-- An instance of `uthread_block_twice`: thread 1 blocks itself twice in
`ex3_two_run1`. -/
theorem uthread_block_twice_witness :
    ∃ s1 o1, uthread_block 3 ex3_two_run1 1 = some (s1, o1) ∧
      ((o1 = Outcome.ret (-1) ∧ uthread_block 3 s1 1 = some (s1, Outcome.ret (-1))) ∨
       ((o1 = Outcome.ret 0 ∨ o1 = Outcome.switched)
          ∧ uthread_block 3 s1 1 = some (s1, Outcome.ret 0))) :=
  uthread_block_twice 3 ex3_two_run1 1 (by decide) ex3_two_run1_reachable
    (fun c _ heq => by
      have hc : c = 1 := by omega
      subst hc
      exact Or.inl (by decide))

/-- C10, the code at the failing input.  In the reachable state `ex3_stale`
thread 1 runs in quantum 3 and still has `sleep_until = 3`, left there by the
`uthread_resume` that ended its sleep.  Its first `uthread_block(1)` enters the
scheduler, whose sweep takes it for a due sleeper and wakes it: thread 1 ends
`READY` and queued.  A second `uthread_block(1)` then makes it `BLOCKED`, so
two calls do not leave the state that one call leaves. -/
theorem uthread_block_twice_differs :
    Reachable 3 ex3_stale ∧
    uthread_get_tid ex3_stale = 1 ∧
    (ex3_stale.thread 1).sleep_until = 3 ∧
    ex3_stale.g_total_quantums = 3 ∧
    uthread_block 3 ex3_stale 1 = some (ex3_stale_once, Outcome.switched) ∧
    uthread_block 3 ex3_stale_once 1 = some (ex3_stale_twice, Outcome.ret 0) ∧
    (ex3_stale_once.thread 1).state = THREAD_READY ∧
    (ex3_stale_twice.thread 1).state = THREAD_BLOCKED ∧
    ex3_stale_twice ≠ ex3_stale_once :=
  ⟨ex3_stale_reachable, by decide, by decide, by decide, by decide, by decide, by decide,
    by decide, by decide⟩

/-! ## More on the selection loop -/

theorem select_loop_fuel_succ (N : Nat) (k : Context) (start prev : Nat) :
    ∀ (fuel : Nat) (s : State) (r : State × Bool),
      select_loop N k start prev fuel s = some r →
        select_loop N k start prev (fuel + 1) s = some r := by
  intro fuel
  induction fuel with
  | zero => intro s r h; simp [select_loop] at h
  | succ f ih =>
    intro s r h
    unfold select_loop at h ⊢
    by_cases he : s.q_head = s.q_tail
    · rw [dequeue_empty N s he] at h ⊢
      exact h
    · rw [dequeue_nonempty N s he] at h ⊢
      simp only at h ⊢
      split_ifs at h ⊢ with h1 h2
      · exact h
      · exact h
      · exact ih _ r h

theorem select_loop_fuel_mono (N : Nat) (k : Context) (start prev : Nat)
    (fuel : Nat) (s : State) (r : State × Bool)
    (h : select_loop N k start prev fuel s = some r) :
    ∀ more, select_loop N k start prev (fuel + more) s = some r := by
  intro more
  induction more with
  | zero => exact h
  | succ m ih => exact select_loop_fuel_succ N k start prev (fuel + m) s r ih

theorem queue_list_length (N : Nat) (s : State) :
    (queue_list N s).length = queue_len N s := by
  unfold queue_list
  simp

/-- The queue after the selection branch: the previous thread is appended when
it is demoted, nothing else changes. -/
theorem switch_to_queue_list (N : Nat) (k : Context) (prev : Nat) (s : State) (tid : Nat)
    (hw : queue_wf N s) (hp : prev < s.g_thread.length) (hroom : queue_len N s + 1 < N) :
    queue_list N (switch_to N k prev s tid)
      = queue_list N s
          ++ (if prev = tid ∨ (s.thread prev).state = THREAD_RUNNING then [(s.thread prev).tid]
              else []) := by
  obtain ⟨q1, q2, q3⟩ := switch_to_queue N k prev s tid hp
  by_cases hd : prev = tid ∨ (s.thread prev).state = THREAD_RUNNING
  · rw [if_pos hd] at q1 q2 ⊢
    rw [queue_list_congr N (enqueue N s (s.thread prev).tid) _ q1 q3 q2]
    exact queue_list_enqueue N s _ hw.1 hw.2.1 hw.2.2.1 hroom
  · rw [if_neg hd] at q1 q2 ⊢
    rw [queue_list_congr N s _ q1 q3 q2]
    simp

/-- Full description of a scheduler pass that finds a `READY` entry.  The queue
left by the sweep is `pre ++ sel :: post` with `sel` its first `READY` entry;
the pass ends in `switch_to` on a state `s1` that differs from the swept state
only in the queue, which is `post ++ pre`. -/
theorem schedule_next_switch (N : Nat) (k : Context) (s : State) (c : Nat)
    (pre post : List Nat) (sel : Nat)
    (hw : queue_wf N s) (hlen : s.g_thread.length = N) (hc : s.g_current = some c)
    (hcN : c < N)
    (hql : queue_list N (wake_sweep N s) = pre ++ sel :: post)
    (hpre : ∀ x ∈ pre, ((wake_sweep N s).thread x).state ≠ THREAD_READY)
    (hsel : ((wake_sweep N s).thread sel).state = THREAD_READY) :
    ∃ s1, schedule_next N k s = some (switch_to N k c s1 sel, true)
      ∧ same_table (wake_sweep N s) s1
      ∧ queue_wf N s1
      ∧ queue_list N s1 = post ++ pre
      ∧ sel < s1.g_thread.length ∧ c < s1.g_thread.length
      ∧ (switch_to N k c s1 sel).g_current = some sel
      ∧ queue_list N (switch_to N k c s1 sel)
          = post ++ pre
            ++ (if c = sel ∨ ((wake_sweep N s).thread c).state = THREAD_RUNNING then
                  [((wake_sweep N s).thread c).tid] else []) := by
  obtain ⟨s1, r1, r2, r3, r4⟩ := schedule_next_selects N k s c pre post sel hw hc hql hpre hsel
  have hN : 0 < N := by have := hw.2.1; omega
  have hl1 : s1.g_thread.length = N := by
    rw [r2.1, (wake_sweep_frame N s).2.2.2.2, hlen]
  have h1sel : (s1.thread sel).state = THREAD_READY := by
    rw [same_table_thread r2]; exact hsel
  have hsell : sel < s1.g_thread.length :=
    lt_of_state_ne_unused s1 sel (by rw [h1sel]; decide)
  have hlenw : (queue_list N (wake_sweep N s)).length < N := by
    rw [queue_list_length]; exact queue_len_lt N _ hN
  have hroom : queue_len N s1 + 1 < N := by
    rw [← queue_list_length, r4]
    rw [hql] at hlenw
    simp only [List.length_append, List.length_cons] at hlenw ⊢
    omega
  refine ⟨s1, r1, r2, r3, r4, hsell, by omega, (switch_to_frame N k c s1 sel).1, ?_⟩
  rw [switch_to_queue_list N k c s1 sel r3 (by omega) hroom, r4, same_table_thread r2]

/-- C20: `schedule_next` always terminates.  For every state with `q_head` in
`[0, N)`, whatever the queue and the TCBs hold, the selection loop finishes
within `N` iterations, each of which performs one `dequeue` (more fuel gives
the same result); it ends either in the selection of a `READY` thread, which
becomes current, or with `g_current` unchanged. -/
theorem schedule_next_terminates (N : Nat) (k : Context) (s : State) (c : Nat)
    (hh : s.q_head < N) (hc : s.g_current = some c) :
    ∃ s' sw, schedule_next N k s = some (s', sw) ∧
      select_loop N k s.q_head c N (wake_sweep N s) = some (s', sw) ∧
      (∀ more, select_loop N k s.q_head c (N + more) (wake_sweep N s) = some (s', sw)) ∧
      (sw = false → s'.g_current = s.g_current) ∧
      (sw = true → ∃ tid, s'.g_current = some tid
        ∧ ((wake_sweep N s).thread tid).state = THREAD_READY) := by
  obtain ⟨⟨s', sw⟩, hr⟩ := schedule_next_some N k s c hh hc
  have hr' := hr
  rw [schedule_next_eq N k s c hc] at hr'
  refine ⟨s', sw, hr, hr', select_loop_fuel_mono N k s.q_head c N _ _ hr', ?_, ?_⟩
  · intro hsw
    rcases select_loop_cases N k s.q_head c N (wake_sweep N s) (s', sw) hr' with
      ⟨_, a2, _⟩ | ⟨s1, tid, b1, _, _, _⟩
    · simp only at a2
      rw [a2.2.1, (wake_sweep_frame N s).1]
    · simp only [Prod.mk.injEq] at b1
      rw [hsw] at b1
      exact absurd b1.2 (by decide)
  · intro hsw
    rcases select_loop_cases N k s.q_head c N (wake_sweep N s) (s', sw) hr' with
      ⟨a1, _, _⟩ | ⟨s1, tid, b1, b2, _, b4⟩
    · simp only at a1
      rw [hsw] at a1
      exact absurd a1 (by decide)
    · simp only [Prod.mk.injEq] at b1
      refine ⟨tid, ?_, ?_⟩
      · rw [b1.1]; exact (switch_to_frame N k c s1 tid).1
      · rw [← same_table_thread b2]; exact b4

/-- A pass of the selection loop over a non-empty queue that holds no `READY`
entry: every iteration moves the head entry to the tail, and the loop stops
when `q_head` is back at `start`, after the `m` iterations that were left. -/
theorem select_loop_rotates (N : Nat) (k : Context) (start prev : Nat) :
    ∀ (m : Nat) (s : State) (j : Nat), queue_wf N s → start < N →
      (∀ x ∈ queue_list N s, (s.thread x).state ≠ THREAD_READY) →
      queue_list N s ≠ [] →
      s.q_head = (start + j) % N → j + m = N → 0 < m →
      ∃ s', select_loop N k start prev m s = some (s', false) ∧ same_table s s'
        ∧ queue_wf N s' ∧ queue_list N s' = (queue_list N s).rotate m := by
  intro m
  induction m with
  | zero => intro s j _ _ _ _ _ _ h; omega
  | succ f ih =>
    intro s j hw hstart hq hne0 hhead hjm _
    have hne : s.q_head ≠ s.q_tail := by
      intro he
      exact hne0 ((queue_list_eq_nil N s hw.2.1 hw.2.2.1).mpr he)
    have hql := queue_list_advance N s hw.2.1 hw.2.2.1 hne
    have hst : same_table s { s with q_head := (s.q_head + 1) % N } := ⟨rfl, rfl, rfl, rfl⟩
    have hw1 := queue_wf_advance N s hw
    have hyN : s.ready_queue.getD s.q_head 0 < N := queue_head_entry_lt N s hw
    have hw2 := queue_wf_enqueue N _ (s.ready_queue.getD s.q_head 0) hw1 hyN
    have hst2 := same_table_trans hst
      (same_table_enqueue N { s with q_head := (s.q_head + 1) % N }
        (s.ready_queue.getD s.q_head 0))
    have hlen : queue_len N s = queue_len N { s with q_head := (s.q_head + 1) % N } + 1 :=
      queue_len_advance N s hw.2.1 hw.2.2.1 hne
    have hN : 0 < N := by have := hw.2.1; omega
    have hlt := queue_len_lt N s hN
    have hql2 : queue_list N (enqueue N { s with q_head := (s.q_head + 1) % N }
          (s.ready_queue.getD s.q_head 0))
        = (queue_list N s).rotate 1 := by
      rw [queue_list_enqueue N _ _ hw1.1 hw1.2.1 hw1.2.2.1 (by omega), hql]
      simp [List.rotate_cons_succ]
    have hhead2 : (enqueue N { s with q_head := (s.q_head + 1) % N }
          (s.ready_queue.getD s.q_head 0)).q_head = (start + (j + 1)) % N := by
      simp only [enqueue]
      rw [hhead, Nat.mod_add_mod]
      congr 1
    have hy : ¬ (({ s with q_head := (s.q_head + 1) % N } : State).thread
        (s.ready_queue.getD s.q_head 0)).state = THREAD_READY := by
      rw [same_table_thread hst]
      apply hq
      rw [hql]; exact List.mem_cons_self _ _
    unfold select_loop
    rw [dequeue_nonempty N s hne]
    simp only
    rw [if_neg hy]
    by_cases hf : f = 0
    · subst hf
      have hback : (enqueue N { s with q_head := (s.q_head + 1) % N }
          (s.ready_queue.getD s.q_head 0)).q_head = start := by
        rw [hhead2]
        have : start + (j + 1) = start + N := by omega
        rw [this, Nat.add_mod_right, Nat.mod_eq_of_lt hstart]
      rw [if_pos hback]
      exact ⟨_, rfl, hst2, hw2, hql2⟩
    · have hns : ¬ (enqueue N { s with q_head := (s.q_head + 1) % N }
          (s.ready_queue.getD s.q_head 0)).q_head = start := by
        rw [hhead2]
        exact add_mod_ne_self N start (j + 1) hstart (by omega) (by omega)
      rw [if_neg hns]
      obtain ⟨s', r1, r2, r3, r4⟩ := ih _ (j + 1) hw2 hstart
        (fun x hx => by
          rw [same_table_thread hst2]
          apply hq
          rw [hql2] at hx
          exact List.mem_rotate.mp hx)
        (by
          rw [hql2]
          intro e
          exact hne0 (List.rotate_eq_nil_iff.mp e))
        hhead2 (by omega) (by omega)
      refine ⟨s', r1, same_table_trans hst2 r2, r3, ?_⟩
      rw [r4, hql2, List.rotate_rotate, Nat.add_comm]

/-- A scheduler pass that finds no `READY` entry in the queue the sweep left:
it returns without a switch, the table and `g_current` are the ones after the
sweep, and the queue holds the same entries, rotated by the `N` iterations of
the loop (an empty queue stays empty). -/
theorem schedule_next_rotates (N : Nat) (k : Context) (s : State) (c : Nat)
    (hw : queue_wf N s) (hc : s.g_current = some c)
    (hq : ∀ x ∈ queue_list N (wake_sweep N s),
      ((wake_sweep N s).thread x).state ≠ THREAD_READY) :
    ∃ s', schedule_next N k s = some (s', false) ∧ same_table (wake_sweep N s) s'
      ∧ queue_wf N s'
      ∧ queue_list N s' = (queue_list N (wake_sweep N s)).rotate N := by
  have hW := wake_sweep_queue_wf N s hw
  have hN : 0 < N := by have := hw.2.1; omega
  rw [schedule_next_eq N k s c hc]
  have hh : (wake_sweep N s).q_head = s.q_head := (wake_sweep_frame N s).2.2.2.1
  by_cases he : queue_list N (wake_sweep N s) = []
  · have hht := (queue_list_eq_nil N _ hW.2.1 hW.2.2.1).mp he
    obtain ⟨n, hn⟩ : ∃ n, N = n + 1 := ⟨N - 1, by omega⟩
    refine ⟨wake_sweep N s, ?_, same_table_refl _, hW, by rw [he]; simp⟩
    have h1 : select_loop N k s.q_head c (n + 1) (wake_sweep N s)
        = some (wake_sweep N s, false) := by
      simp [select_loop, dequeue_empty N _ hht]
    rw [← hn] at h1
    exact h1
  · exact select_loop_rotates N k s.q_head c N (wake_sweep N s) 0 hW hw.2.1 hq he
      (by rw [hh, Nat.add_zero, Nat.mod_eq_of_lt hw.2.1]) (by omega) hN

/-- A list either has a first element with the property `p`, all elements
before it lacking `p`, or no element with `p` at all. -/
theorem first_split (p : Nat → Prop) (l : List Nat) :
    (∃ pre sel post, l = pre ++ sel :: post ∧ (∀ x ∈ pre, ¬ p x) ∧ p sel) ∨
    (∀ x ∈ l, ¬ p x) := by
  induction l with
  | nil => exact Or.inr (fun x hx => absurd hx (List.not_mem_nil x))
  | cons a l ih =>
    by_cases ha : p a
    · exact Or.inl ⟨[], a, l, rfl, fun x hx => absurd hx (List.not_mem_nil x), ha⟩
    · rcases ih with ⟨pre, sel, post, h1, h2, h3⟩ | h
      · refine Or.inl ⟨a :: pre, sel, post, by rw [h1]; rfl, ?_, h3⟩
        intro x hx
        rcases List.mem_cons.mp hx with e | e
        · rw [e]; exact ha
        · exact h2 x e
      · refine Or.inr ?_
        intro x hx
        rcases List.mem_cons.mp hx with e | e
        · rw [e]; exact ha
        · exact h x e

/-- C19 (amended): stale entries are moved to the tail, not dropped.  When the
queue left by the sleep-wake sweep is `pre ++ sel :: post`, with `sel` its
first entry whose thread is `READY`, `schedule_next` switches to `sel` and the
queue afterwards consists of the entries `post` that stood behind the selectee,
followed by the entries `pre` that were popped and found not `READY`, in their
order, followed by the previous thread if it was demoted.  When that queue
holds no `READY` entry, `schedule_next` returns without a switch, `g_current`
is unchanged and the queue holds the same entries as before, each put back at
the tail after it was popped: it is the queue after the sweep rotated by the
`N` iterations of the loop.  Every pass is of one of the two kinds. -/
theorem schedule_next_queue (N : Nat) (k : Context) (s : State) (c : Nat)
    (hw : queue_wf N s) (hlen : s.g_thread.length = N) (hc : s.g_current = some c)
    (hcN : c < N) :
    (∀ (pre post : List Nat) (sel : Nat),
      queue_list N (wake_sweep N s) = pre ++ sel :: post →
      (∀ x ∈ pre, ((wake_sweep N s).thread x).state ≠ THREAD_READY) →
      ((wake_sweep N s).thread sel).state = THREAD_READY →
      ∃ s', schedule_next N k s = some (s', true) ∧
        s'.g_current = some sel ∧
        queue_list N s'
          = post ++ pre
            ++ (if c = sel ∨ ((wake_sweep N s).thread c).state = THREAD_RUNNING then
                  [((wake_sweep N s).thread c).tid] else [])) ∧
    ((∀ x ∈ queue_list N (wake_sweep N s),
        ((wake_sweep N s).thread x).state ≠ THREAD_READY) →
      ∃ s', schedule_next N k s = some (s', false) ∧
        s'.g_current = some c ∧
        queue_list N s' = (queue_list N (wake_sweep N s)).rotate N ∧
        (queue_list N s').Perm (queue_list N (wake_sweep N s)) ∧
        (queue_list N s').length = (queue_list N (wake_sweep N s)).length) ∧
    ((∃ pre sel post, queue_list N (wake_sweep N s) = pre ++ sel :: post ∧
        (∀ x ∈ pre, ((wake_sweep N s).thread x).state ≠ THREAD_READY) ∧
        ((wake_sweep N s).thread sel).state = THREAD_READY) ∨
      (∀ x ∈ queue_list N (wake_sweep N s),
        ((wake_sweep N s).thread x).state ≠ THREAD_READY)) := by
  refine ⟨?_, ?_, first_split (fun x => ((wake_sweep N s).thread x).state = THREAD_READY) _⟩
  · intro pre post sel hql hpre hsel
    obtain ⟨s1, r1, _, _, _, _, _, r7, r8⟩ :=
      schedule_next_switch N k s c pre post sel hw hlen hc hcN hql hpre hsel
    exact ⟨_, r1, r7, r8⟩
  · intro hq
    obtain ⟨s', r1, r2, _, r4⟩ := schedule_next_rotates N k s c hw hc hq
    refine ⟨s', r1, ?_, r4, ?_, ?_⟩
    · rw [r2.2.1, (wake_sweep_frame N s).1]; exact hc
    · rw [r4]; exact List.rotate_perm _ _
    · rw [r4, List.length_rotate]

theorem wake_sweep_thread_not_due (N : Nat) (s : State) (j : Nat)
    (h : ¬ (1 ≤ j ∧ is_due s j)) : (wake_sweep N s).thread j = s.thread j := by
  rw [wake_sweep_thread]
  have : ¬ ((1 ≤ j ∧ j < N) ∧ is_due s j) := fun hh => h ⟨hh.1.1, hh.2⟩
  simp only [this, if_false]

/-- What a scheduler pass that finds a `READY` entry does to the selectee:
it ends `RUNNING`, except when it is the previous thread itself, which the
demotion that follows turns back to `READY`. -/
theorem schedule_next_selectee (N : Nat) (k : Context) (s : State) (c : Nat)
    (pre post : List Nat) (sel : Nat)
    (hw : queue_wf N s) (hlen : s.g_thread.length = N) (hc : s.g_current = some c)
    (hcN : c < N)
    (hql : queue_list N (wake_sweep N s) = pre ++ sel :: post)
    (hpre : ∀ x ∈ pre, ((wake_sweep N s).thread x).state ≠ THREAD_READY)
    (hsel : ((wake_sweep N s).thread sel).state = THREAD_READY) :
    ∃ s', schedule_next N k s = some (s', true) ∧
      s'.g_current = some sel ∧
      (sel ≠ c → (s'.thread sel).state = THREAD_RUNNING) ∧
      (sel = c → (s'.thread sel).state = THREAD_READY) := by
  obtain ⟨s1, r1, _, _, _, r5, r6, r7, _⟩ :=
    schedule_next_switch N k s c pre post sel hw hlen hc hcN hql hpre hsel
  refine ⟨_, r1, r7, ?_, ?_⟩
  · intro hne
    rw [switch_to_thread N k c s1 sel sel r5 r6]
    simp [hne]
  · intro he
    rw [switch_to_thread N k c s1 sel sel r5 r6]
    simp [he]

/-- C18: the re-enqueue policy of `schedule_next` when a selectee `sel` other
than the previous thread `c` is found (the queue left by the sweep being
`pre ++ sel :: post`, `sel` its first `READY` entry).  If the state of `c` is
`RUNNING` on entry, `c` ends `READY` and is the last element of the ready
queue; if it is `BLOCKED` and the sweep does not wake it, or `TERMINATED`, or
`UNUSED`, its state is left unchanged and it is not enqueued: the queue is
`post ++ pre`. -/
theorem schedule_next_previous (N : Nat) (k : Context) (s : State) (c : Nat)
    (pre post : List Nat) (sel : Nat)
    (hw : queue_wf N s) (hlen : s.g_thread.length = N) (hc : s.g_current = some c)
    (hcN : c < N) (htid : (s.thread c).tid = c)
    (hql : queue_list N (wake_sweep N s) = pre ++ sel :: post)
    (hpre : ∀ x ∈ pre, ((wake_sweep N s).thread x).state ≠ THREAD_READY)
    (hsel : ((wake_sweep N s).thread sel).state = THREAD_READY)
    (hne : sel ≠ c) :
    ∃ s', schedule_next N k s = some (s', true) ∧
      s'.g_current = some sel ∧
      ((s.thread c).state = THREAD_RUNNING →
        (s'.thread c).state = THREAD_READY ∧
        queue_list N s' = post ++ pre ++ [c] ∧
        (queue_list N s').getLast? = some c) ∧
      (((s.thread c).state = THREAD_BLOCKED ∧ ¬ (1 ≤ c ∧ is_due s c))
          ∨ (s.thread c).state = THREAD_TERMINATED
          ∨ (s.thread c).state = THREAD_UNUSED →
        (s'.thread c).state = (s.thread c).state ∧
        queue_list N s' = post ++ pre) := by
  obtain ⟨s1, r1, r2, _, _, r5, r6, r7, r8⟩ :=
    schedule_next_switch N k s c pre post sel hw hlen hc hcN hql hpre hsel
  have hcs : c ≠ sel := fun e => hne e.symm
  refine ⟨_, r1, r7, ?_, ?_⟩
  · intro hrun
    have hnd : ¬ (1 ≤ c ∧ is_due s c) := by
      rintro ⟨_, hd⟩
      rw [hd.1] at hrun
      exact absurd hrun (by decide)
    have hwc : (wake_sweep N s).thread c = s.thread c := wake_sweep_thread_not_due N s c hnd
    have h1c : s1.thread c = s.thread c := by rw [same_table_thread r2, hwc]
    have hq : queue_list N (switch_to N k c s1 sel) = post ++ pre ++ [c] := by
      rw [r8, hwc, hrun, htid]; simp
    refine ⟨?_, hq, ?_⟩
    · rw [switch_to_thread N k c s1 sel c r5 r6]
      simp [h1c, hrun]
    · rw [hq]; simp
  · intro hst
    have hnd : ¬ (1 ≤ c ∧ is_due s c) := by
      rcases hst with h | h | h
      · exact h.2
      · rintro ⟨_, hd⟩; rw [hd.1] at h; exact absurd h (by decide)
      · rintro ⟨_, hd⟩; rw [hd.1] at h; exact absurd h (by decide)
    have hnr : (s.thread c).state ≠ THREAD_RUNNING := by
      rcases hst with h | h | h
      · rw [h.1]; decide
      · rw [h]; decide
      · rw [h]; decide
    have hwc : (wake_sweep N s).thread c = s.thread c := wake_sweep_thread_not_due N s c hnd
    have h1c : s1.thread c = s.thread c := by rw [same_table_thread r2, hwc]
    constructor
    · rw [switch_to_thread N k c s1 sel c r5 r6]
      simp [h1c, hnr, hcs]
    · rw [r8, hwc]
      simp [hnr, hcs]

theorem ex3_two_blocked_reachable : Reachable 3 ex3_two_blocked :=
  Reachable.step _ _ ex3_two_run1_reachable
    (Step.block ex3_two_run1 ex3_two_blocked 2 (Outcome.ret 0) (by decide))

theorem ex4_dup_run1_reachable : Reachable 4 ex4_dup_run1 :=
  Reachable.step _ _
    (Reachable.step _ _
      (Reachable.step _ _
        (Reachable.step _ _ (Reachable.init 100000 (by decide)) (Step.spawn _ 7))
        (Step.block _
          ((uthread_block 4 (uthread_spawn 4 (uthread_init 4 (State.static_init 4) 100000).1 7).1
            1).getD (ex4_dup, Outcome.ret 0)).1 1 (Outcome.ret 0) (by decide)))
      ((by decide : (uthread_resume 4
          ((uthread_block 4 (uthread_spawn 4 (uthread_init 4 (State.static_init 4) 100000).1 7).1
            1).getD (ex4_dup, Outcome.ret 0)).1 1).1 = ex4_dup) ▸ Step.resume _ 1))
    (Step.tick ex4_dup ex4_dup_run1 (by decide))

/-- Witness for C20: the scheduler entered in `ex3_lost_marked`, where the
queue reads as empty, and in `ex3_two_blocked`. -/
theorem schedule_next_terminates_witness :
    ∃ s' sw, schedule_next 3 Context.in_timer ex3_two_blocked = some (s', sw) ∧
      select_loop 3 Context.in_timer ex3_two_blocked.q_head 1 3
        (wake_sweep 3 ex3_two_blocked) = some (s', sw) ∧
      (∀ more, select_loop 3 Context.in_timer ex3_two_blocked.q_head 1 (3 + more)
        (wake_sweep 3 ex3_two_blocked) = some (s', sw)) ∧
      (sw = false → s'.g_current = ex3_two_blocked.g_current) ∧
      (sw = true → ∃ tid, s'.g_current = some tid
        ∧ ((wake_sweep 3 ex3_two_blocked).thread tid).state = THREAD_READY) :=
  schedule_next_terminates 3 Context.in_timer ex3_two_blocked 1 (by decide) (by decide)

/-- Witness for C19: the scheduler entered from a timer tick (after
`tick_count`) in `ex3_two_blocked`, where the queue is `[2, 0]` and thread 2 is
`BLOCKED`, and in `ex3_both_blocked`, where the queue `[1, 2]` holds two stale
entries and comes out as `[2, 1]`. -/
theorem schedule_next_queue_witness :
    (queue_list 3 (wake_sweep 3 (tick_count ex3_two_blocked 1)) = [2] ++ 0 :: [] ∧
      ∃ s', schedule_next 3 Context.in_timer (tick_count ex3_two_blocked 1) = some (s', true) ∧
        s'.g_current = some 0 ∧
        queue_list 3 s'
          = [] ++ [2]
            ++ (if 1 = 0 ∨ ((wake_sweep 3 (tick_count ex3_two_blocked 1)).thread 1).state
                  = THREAD_RUNNING then
                  [((wake_sweep 3 (tick_count ex3_two_blocked 1)).thread 1).tid] else [])) ∧
    (queue_list 3 (wake_sweep 3 (tick_count ex3_both_blocked 0)) = [1, 2] ∧
      (queue_list 3 (wake_sweep 3 (tick_count ex3_both_blocked 0))).rotate 3 = [2, 1] ∧
      ∃ s', schedule_next 3 Context.in_timer (tick_count ex3_both_blocked 0)
          = some (s', false) ∧
        s'.g_current = some 0 ∧
        queue_list 3 s' = (queue_list 3 (wake_sweep 3 (tick_count ex3_both_blocked 0))).rotate 3 ∧
        (queue_list 3 s').Perm (queue_list 3 (wake_sweep 3 (tick_count ex3_both_blocked 0))) ∧
        (queue_list 3 s').length
          = (queue_list 3 (wake_sweep 3 (tick_count ex3_both_blocked 0))).length) :=
  ⟨⟨by decide,
    (schedule_next_queue 3 Context.in_timer (tick_count ex3_two_blocked 1) 1
      (by decide) (by decide) (by decide) (by decide)).1 [2] [] 0 (by decide)
      (fun x hx => by
        have hx2 : x = 2 := by simpa using hx
        subst hx2; decide)
      (by decide)⟩,
   ⟨by decide, by decide,
    (schedule_next_queue 3 Context.in_timer (tick_count ex3_both_blocked 0) 0
      (by decide) (by decide) (by decide) (by decide)).2.1
      (fun x hx => by
        have hl : queue_list 3 (wake_sweep 3 (tick_count ex3_both_blocked 0)) = [1, 2] := by
          decide
        rw [hl] at hx
        have hx2 : x = 1 ∨ x = 2 := by simpa using hx
        rcases hx2 with e | e <;> subst e <;> decide)⟩⟩

/-- C19 fails: a stale entry is not dropped.  In the reachable state
`ex3_two_blocked` thread 1 runs, the queue is `[2, 0]` and thread 2 is
`BLOCKED`.  The timer tick pops 2, finds it not `READY`, selects 0 and demotes
thread 1; the queue afterwards is `[2, 1]`, not `[1]`.  In the reachable state
`ex3_blocked` thread 0 runs and the queue holds only the entry of the `BLOCKED`
thread 1; the timer tick selects nobody and the queue afterwards is still
`[1]`. -/
theorem schedule_next_keeps_stale_entry :
    Reachable 3 ex3_two_blocked ∧
    uthread_get_tid ex3_two_blocked = 1 ∧
    queue_list 3 ex3_two_blocked = [2, 0] ∧
    (ex3_two_blocked.thread 2).state = THREAD_BLOCKED ∧
    (ex3_two_blocked.thread 0).state = THREAD_READY ∧
    timer_handler 3 ex3_two_blocked = some ex3_two_blocked_tick ∧
    uthread_get_tid ex3_two_blocked_tick = 0 ∧
    queue_list 3 ex3_two_blocked_tick = [2, 1] ∧
    queue_list 3 ex3_two_blocked_tick ≠ [1] ∧
    Reachable 3 ex3_blocked ∧
    queue_list 3 ex3_blocked = [1] ∧
    (ex3_blocked.thread 1).state = THREAD_BLOCKED ∧
    (timer_handler 3 ex3_blocked).map (fun r => (uthread_get_tid r, queue_list 3 r))
      = some (0, [1]) :=
  ⟨ex3_two_blocked_reachable, by decide, by decide, by decide, by decide, by decide,
    by decide, by decide, by decide, ex3_blocked_reachable, by decide, by decide, by decide⟩

/-- Witness for C18: the scheduler entered from a timer tick in `ex3_two_run1`
(after `tick_count`): thread 1 is `RUNNING`, the queue is `[2, 0]`. -/
theorem schedule_next_previous_witness :
    ((tick_count ex3_two_run1 1).thread 1).state = THREAD_RUNNING ∧
    ∃ s', schedule_next 3 Context.in_timer (tick_count ex3_two_run1 1) = some (s', true) ∧
      s'.g_current = some 2 ∧
      (s'.thread 1).state = THREAD_READY ∧
      queue_list 3 s' = [0] ++ [] ++ [1] ∧
      (queue_list 3 s').getLast? = some 1 :=
  have h := schedule_next_previous 3 Context.in_timer (tick_count ex3_two_run1 1) 1 [] [0] 2
    (by decide) (by decide) (by decide) (by decide) (by decide) (by decide)
    (fun x hx => absurd hx (List.not_mem_nil x)) (by decide) (by decide)
  ⟨by decide,
   h.elim (fun s' hs' => ⟨s', hs'.1, hs'.2.1, (hs'.2.2.1 (by decide)).1,
     (hs'.2.2.1 (by decide)).2.1, (hs'.2.2.1 (by decide)).2.2⟩)⟩

/-- C17, the code at the failing input.  In the reachable state `ex4_dup_run1`
thread 1 runs and the queue is `[1, 0]`.  Thread 1 calls `uthread_sleep(0)`:
the sweep wakes it at once, so after the sweep the queue is `[1, 0, 1]` and its
first `READY` entry is 1, with no overflow.  `schedule_next` makes 1 current,
but the TCB it selected ends `READY`, not `RUNNING`. -/
theorem schedule_next_selects_itself :
    Reachable 4 ex4_dup_run1 ∧
    uthread_get_tid ex4_dup_run1 = 1 ∧
    queue_list 4 ex4_dup_run1 = [1, 0] ∧
    queue_list 4 (wake_sweep 4 (sleep_mark ex4_dup_run1 1 0)) = [1, 0, 1] ∧
    ((wake_sweep 4 (sleep_mark ex4_dup_run1 1 0)).thread 1).state = THREAD_READY ∧
    schedule_next 4 Context.in_sleep (sleep_mark ex4_dup_run1 1 0) = some (ex4_self, true) ∧
    uthread_sleep 4 ex4_dup_run1 0 = some (ex4_self, Outcome.switched) ∧
    ex4_self.g_current = some 1 ∧
    (ex4_self.thread 1).state = THREAD_READY ∧
    (∀ i, i < 4 → (ex4_self.thread i).state ≠ THREAD_RUNNING) :=
  ⟨ex4_dup_run1_reachable, by decide, by decide, by decide, by decide, by decide, by decide,
    by decide, by decide, by decide⟩

/-! ## Timer ticks -/

theorem uthread_init_thread (N : Nat) (s : State) (q : Int) (hN : 0 < N) (hq : 0 < q) :
    ∀ i, (uthread_init N s q).1.thread i
      = if i = 0 then { thread_t.zero with
            tid := 0, state := THREAD_RUNNING, quantums := 1, sleep_until := 0,
            env := Context.in_init } else thread_t.zero := by
  have hq' : ¬ q ≤ 0 := by omega
  intro i
  by_cases hi : i = 0
  · subst hi
    simp [uthread_init, hq', State.thread, List.getD_eq_getElem?_getD, List.getElem?_set, hN]
  · have hne : ¬ 0 = i := fun e => hi e.symm
    simp only [uthread_init, hq', if_false, State.thread, List.getD_eq_getElem?_getD,
      List.getElem?_set, hne, hi, List.getElem?_replicate]
    split <;> rfl

theorem uthread_init_current (N : Nat) (s : State) (q : Int) (hq : 0 < q) :
    (uthread_init N s q).1.g_current = some 0 := by
  have hq' : ¬ q ≤ 0 := by omega
  simp [uthread_init, hq']

theorem uthread_init_total (N : Nat) (s : State) (q : Int) (hq : 0 < q) :
    (uthread_init N s q).1.g_total_quantums = 1 := by
  have hq' : ¬ q ≤ 0 := by omega
  simp [uthread_init, hq']


theorem select_loop_selects_member (N : Nat) (k : Context) (start prev : Nat) :
    ∀ (fuel : Nat) (s : State) (r : State × Bool), queue_wf N s →
      select_loop N k start prev fuel s = some r → r.2 = true →
        ∃ tid, tid ∈ queue_list N s ∧ (s.thread tid).state = THREAD_READY := by
  intro fuel
  induction fuel with
  | zero => intro s r _ h; simp [select_loop] at h
  | succ f ih =>
    intro s r hw h hr
    unfold select_loop at h
    by_cases he : s.q_head = s.q_tail
    · rw [dequeue_empty N s he] at h
      simp only [Option.some.injEq] at h
      rw [← h] at hr
      simp at hr
    · rw [dequeue_nonempty N s he] at h
      simp only at h
      have hql := queue_list_advance N s hw.2.1 hw.2.2.1 he
      have hst : same_table s { s with q_head := (s.q_head + 1) % N } := ⟨rfl, rfl, rfl, rfl⟩
      split_ifs at h with h1 h2
      · refine ⟨s.ready_queue.getD s.q_head 0, ?_, ?_⟩
        · rw [hql]; exact List.mem_cons_self _ _
        · rw [← same_table_thread hst]; exact h1
      · simp only [Option.some.injEq] at h
        rw [← h] at hr
        simp at hr
      · have hw1 := queue_wf_advance N s hw
        have hw2 := queue_wf_enqueue N _ (s.ready_queue.getD s.q_head 0) hw1
          (queue_head_entry_lt N s hw)
        have hN : 0 < N := by have := hw.2.1; omega
        have hlen := queue_len_advance N s hw.2.1 hw.2.2.1 he
        have hlt := queue_len_lt N s hN
        have hql2 := queue_list_enqueue N { s with q_head := (s.q_head + 1) % N }
          (s.ready_queue.getD s.q_head 0) hw1.1 hw1.2.1 hw1.2.2.1 (by omega)
        obtain ⟨tid, t1, t2⟩ := ih _ r hw2 h hr
        refine ⟨tid, ?_, t2⟩
        rw [hql2] at t1
        rw [hql]
        rcases List.mem_append.mp t1 with h3 | h3
        · exact List.mem_cons_of_mem _ h3
        · have : tid = s.ready_queue.getD s.q_head 0 := by simpa using h3
          rw [this]; exact List.mem_cons_self _ _

theorem tick_count_thread (s : State) (c j : Nat) (hc : c < s.g_thread.length) :
    (tick_count s c).thread j
      = if j = c then { s.thread c with quantums := (s.thread c).quantums + 1 }
        else s.thread j := by
  unfold tick_count
  simp only
  rw [thread_set_thread]
  by_cases hj : j = c
  · simp [hj, hc, State.thread]
  · simp [hj, State.thread]

theorem tick_count_frame (s : State) (c : Nat) :
    (tick_count s c).g_current = s.g_current ∧
    (tick_count s c).g_total_quantums = s.g_total_quantums + 1 ∧
    (tick_count s c).ready_queue = s.ready_queue ∧
    (tick_count s c).q_head = s.q_head ∧
    (tick_count s c).q_tail = s.q_tail ∧
    (tick_count s c).g_thread.length = s.g_thread.length := by
  unfold tick_count
  simp [State.set_thread]

/-- A scheduler pass over a queue that holds no `READY` entry, with no sleeper
to wake, returns without a switch and leaves the table alone. -/
theorem schedule_next_no_ready (N : Nat) (k : Context) (s : State) (c : Nat)
    (hw : queue_wf N s) (hc : s.g_current = some c)
    (hnodue : ∀ i, 1 ≤ i → i < N → ¬ is_due s i)
    (hq : ∀ x ∈ queue_list N s, (s.thread x).state ≠ THREAD_READY) :
    ∃ s', schedule_next N k s = some (s', false) ∧ same_table s s' ∧ queue_wf N s' := by
  obtain ⟨⟨s', sw⟩, hr⟩ := schedule_next_some N k s c hw.2.1 hc
  have hr' := hr
  rw [schedule_next_eq N k s c hc, wake_sweep_id N s hnodue] at hr'
  have hsw : sw = false := by
    cases sw with
    | false => rfl
    | true =>
      obtain ⟨tid, t1, t2⟩ := select_loop_selects_member N k s.q_head c N s (s', true) hw hr' rfl
      exact absurd t2 (hq tid t1)
  subst hsw
  rcases select_loop_cases N k s.q_head c N s (s', false) hr' with
    ⟨_, a2, a3⟩ | ⟨s1, tid, b1, _, _, _⟩
  · exact ⟨s', hr, a2, a3 hw⟩
  · simp only [Prod.mk.injEq] at b1
    exact absurd b1.2 (by decide)

/-- A timer tick that finds no `READY` entry and no sleeper to wake. -/
theorem timer_tick_alone (N : Nat) (s : State) (c : Nat)
    (hw : queue_wf N s) (hlen : s.g_thread.length = N)
    (hc : s.g_current = some c) (hcN : c < N)
    (hrun : (s.thread c).state = THREAD_RUNNING)
    (hnodue : ∀ i, 1 ≤ i → i < N →
      ¬ ((s.thread i).state = THREAD_BLOCKED ∧ (s.thread i).sleep_until ≠ 0
          ∧ (s.thread i).sleep_until ≤ s.g_total_quantums + 1))
    (hq : ∀ x ∈ queue_list N s, (s.thread x).state ≠ THREAD_READY) :
    ∃ s', timer_handler N s = some s' ∧
      s'.g_current = some c ∧
      (s'.thread c).state = THREAD_RUNNING ∧
      (∀ i, (s'.thread i).state = (s.thread i).state) ∧
      s'.g_total_quantums = s.g_total_quantums + 1 ∧
      (s'.thread c).quantums = (s.thread c).quantums + 1 ∧
      (∀ i, i ≠ c → s'.thread i = s.thread i) := by
  have hcl : c < s.g_thread.length := by omega
  obtain ⟨f1, f2, f3, f4, f5, _⟩ := tick_count_frame s c
  have hth : ∀ j, (tick_count s c).thread j
      = if j = c then { s.thread c with quantums := (s.thread c).quantums + 1 }
        else s.thread j := fun j => tick_count_thread s c j hcl
  have hst : ∀ j, ((tick_count s c).thread j).state = (s.thread j).state := by
    intro j; rw [hth j]; split
    · next h => rw [h]
    · rfl
  have hsu : ∀ j, ((tick_count s c).thread j).sleep_until = (s.thread j).sleep_until := by
    intro j; rw [hth j]; split
    · next h => rw [h]
    · rfl
  have hwt : queue_wf N (tick_count s c) := queue_wf_congr N s _ f3 f4 f5 hw
  have hnd : ∀ i, 1 ≤ i → i < N → ¬ is_due (tick_count s c) i := by
    intro i h1 h2 hd
    unfold is_due at hd
    rw [hst i, hsu i, f2] at hd
    exact hnodue i h1 h2 hd
  have hqt : ∀ x ∈ queue_list N (tick_count s c),
      ((tick_count s c).thread x).state ≠ THREAD_READY := by
    intro x hx
    rw [queue_list_congr N s _ f3 f4 f5] at hx
    rw [hst x]; exact hq x hx
  obtain ⟨s', r1, r2, _⟩ :=
    schedule_next_no_ready N Context.in_timer (tick_count s c) c hwt (f1.trans hc) hnd hqt
  have hs' : ∀ j, s'.thread j = (tick_count s c).thread j := same_table_thread r2
  refine ⟨s', ?_, ?_, ?_, ?_, ?_, ?_, ?_⟩
  · unfold timer_handler
    rw [hc]
    simp only [r1]
  · rw [r2.2.1, f1, hc]
  · rw [hs', hst, hrun]
  · intro i; rw [hs', hst]
  · rw [r2.2.2.1, f2]
  · rw [hs', hth c]; simp
  · intro i hi; rw [hs', hth i]; simp [hi]

/-- C12: in every state in which the current thread is `RUNNING`, the two
counters the tick increments are below `INT_MAX` (the `int` increments do not
overflow), no sleeper is due after the tick and no TID in the ready queue has
state `READY`, a timer tick keeps `current` unchanged and `RUNNING`, leaves
every TCB state (and every other TCB entirely) unchanged and increments
`total_quantums` and the `quantums` of the current thread by exactly 1, both
staying in the range of `int`; in particular one tick right after
`uthread_init` gives `get_total_quantums() = 2` and `get_quantums(0) = 2`. -/
theorem timer_tick_no_ready (N : Nat) (hN : 0 < N) :
    (∀ (s : State) (c : Nat), queue_wf N s → s.g_thread.length = N →
      s.g_current = some c → c < N → (s.thread c).state = THREAD_RUNNING →
      s.g_total_quantums < INT_MAX → (s.thread c).quantums < INT_MAX →
      (∀ i, 1 ≤ i → i < N →
        ¬ ((s.thread i).state = THREAD_BLOCKED ∧ (s.thread i).sleep_until ≠ 0
            ∧ (s.thread i).sleep_until ≤ s.g_total_quantums + 1)) →
      (∀ x ∈ queue_list N s, (s.thread x).state ≠ THREAD_READY) →
      ∃ s', timer_handler N s = some s' ∧
        s'.g_current = some c ∧
        (s'.thread c).state = THREAD_RUNNING ∧
        (∀ i, (s'.thread i).state = (s.thread i).state) ∧
        s'.g_total_quantums = s.g_total_quantums + 1 ∧
        s'.g_total_quantums ≤ INT_MAX ∧
        (s'.thread c).quantums = (s.thread c).quantums + 1 ∧
        (s'.thread c).quantums ≤ INT_MAX ∧
        (∀ i, i ≠ c → s'.thread i = s.thread i)) ∧
    (∀ q : Int, 0 < q →
      ∃ s', timer_handler N (uthread_init N (State.static_init N) q).1 = some s' ∧
        uthread_get_tid s' = 0 ∧
        uthread_get_total_quantums s' = 2 ∧
        uthread_get_quantums N s' 0 = 2) := by
  constructor
  · intro s c hw hlen hc hcN hrun hb1 hb2 hnodue hq
    obtain ⟨s', t1, t2, t3, t4, t5, t6, t7⟩ :=
      timer_tick_alone N s c hw hlen hc hcN hrun hnodue hq
    exact ⟨s', t1, t2, t3, t4, t5, by rw [t5]; omega, t6, by rw [t6]; omega, t7⟩
  · intro q hq
    have hth := uthread_init_thread N (State.static_init N) q hN hq
    have i5 := uthread_init_current N (State.static_init N) q hq
    have i6 := uthread_init_total N (State.static_init N) q hq
    have hinv := Inv_init N (State.static_init N) q hN (queue_wf_static_init N hN) hq
    have hql : queue_list N (uthread_init N (State.static_init N) q).1 = [] := by
      rw [queue_list_eq_nil N _ hinv.queue.2.1 hinv.queue.2.2.1]
      have hq' : ¬ q ≤ 0 := by omega
      simp [uthread_init, hq', State.static_init]
    obtain ⟨s', t1, t2, t3, _, t5, t6, _⟩ :=
      timer_tick_alone N _ 0 hinv.queue hinv.table_len i5 hN (by rw [hth 0]; rfl)
        (fun i h1 h2 hd => by
          rw [hth i] at hd
          have hi : ¬ i = 0 := by omega
          simp [hi, thread_t.zero] at hd)
        (fun x hx => by rw [hql] at hx; exact absurd hx (List.not_mem_nil x))
    refine ⟨s', t1, ?_, ?_, ?_⟩
    · have htid : (s'.thread 0).tid = 0 := by
        have hI := Inv_tick N _ s' hinv t1
        obtain ⟨c, c1, _, c3⟩ := hI.current
        rw [t2] at c1
        have : c = 0 := (Option.some.inj c1).symm
        rw [this] at c3; exact c3
      simp [uthread_get_tid, t2, htid]
    · simp [uthread_get_total_quantums, t5, i6]
    · have hN' : ¬ (N : Int) ≤ 0 := by omega
      have hne : (s'.thread 0).state ≠ THREAD_UNUSED := by rw [t3]; decide
      have hq0 : ((uthread_init N (State.static_init N) q).1.thread 0).quantums = 1 := by
        rw [hth 0]; rfl
      simp [uthread_get_quantums, hN', hne, t6, hq0]

/-- Witness for C12: a tick in `ex3_blocked`, where thread 0 runs and the queue
holds only the stale entry of the blocked thread 1, and a tick right after
`uthread_init(100000)`. -/
theorem timer_tick_no_ready_witness :
    (∃ s', timer_handler 3 ex3_blocked = some s' ∧
        s'.g_current = some 0 ∧
        (s'.thread 0).state = THREAD_RUNNING ∧
        (∀ i, (s'.thread i).state = (ex3_blocked.thread i).state) ∧
        s'.g_total_quantums = ex3_blocked.g_total_quantums + 1 ∧
        s'.g_total_quantums ≤ INT_MAX ∧
        (s'.thread 0).quantums = (ex3_blocked.thread 0).quantums + 1 ∧
        (s'.thread 0).quantums ≤ INT_MAX ∧
        (∀ i, i ≠ 0 → s'.thread i = ex3_blocked.thread i)) ∧
    (∃ s', timer_handler 3 (uthread_init 3 (State.static_init 3) 100000).1 = some s' ∧
        uthread_get_tid s' = 0 ∧
        uthread_get_total_quantums s' = 2 ∧
        uthread_get_quantums 3 s' 0 = 2) :=
  ⟨(timer_tick_no_ready 3 (by decide)).1 ex3_blocked 0 (by decide) (by decide) (by decide)
      (by decide) (by decide) (by decide) (by decide)
      (fun i h1 h2 => by interval_cases i <;> decide)
      (fun x hx => by
        have hx1 : x = 1 := by
          have : queue_list 3 ex3_blocked = [1] := by decide
          rw [this] at hx; simpa using hx
        subst hx1; decide),
   (timer_tick_no_ready 3 (by decide)).2 100000 (by decide)⟩

/-! ## The main thread and the `RUNNING` state -/

theorem RunInv_of_threads (s s' : State) (h : RunInv s)
    (hc : s'.g_current = s.g_current) (ht : ∀ j, s'.thread j = s.thread j) : RunInv s' := by
  refine ⟨?_, ?_, ?_, ?_⟩
  · rw [ht]; exact h.main_state
  · rw [ht]; exact h.main_sleep
  · rw [ht]; exact h.main_env
  · intro i hi; rw [ht] at hi; rw [hc]; exact h.run_cur i hi

theorem RunInv_set_thread (s : State) (i : Nat) (t : thread_t) (h : RunInv s)
    (h0 : i = 0 → (t.state = THREAD_READY ∨ t.state = THREAD_RUNNING) ∧ t.sleep_until = 0
      ∧ ∀ x, t.env ≠ Context.in_terminate x)
    (hr : t.state = THREAD_RUNNING → s.g_current = some i) :
    RunInv (s.set_thread i t) := by
  have hth := thread_set_thread s i
  refine ⟨?_, ?_, ?_, ?_⟩
  · rw [hth]; split
    · next hc => exact (h0 hc.1.symm).1
    · exact h.main_state
  · rw [hth]; split
    · next hc => exact (h0 hc.1.symm).2.1
    · exact h.main_sleep
  · rw [hth]; split
    · next hc => exact (h0 hc.1.symm).2.2
    · exact h.main_env
  · intro j hj
    rw [hth] at hj
    show s.g_current = some j
    split at hj
    · next hc => rw [hc.1]; exact hr hj
    · exact h.run_cur j hj

theorem RunInv_set_state (s : State) (i : Nat) (st : ThreadState) (h : RunInv s)
    (h0 : i = 0 → st = THREAD_READY ∨ st = THREAD_RUNNING)
    (hr : st = THREAD_RUNNING → s.g_current = some i) :
    RunInv (s.set_state i st) := by
  unfold State.set_state
  apply RunInv_set_thread s i _ h
  · intro hi
    subst hi
    exact ⟨h0 rfl, h.main_sleep, h.main_env⟩
  · exact hr

theorem RunInv_enqueue (N : Nat) (s : State) (x : Nat) (h : RunInv s) :
    RunInv (enqueue N s x) :=
  RunInv_of_threads s _ h rfl (fun _ => rfl)

theorem RunInv_wake_sweep (N : Nat) (s : State) (h : RunInv s) : RunInv (wake_sweep N s) := by
  have hth := wake_sweep_thread N s
  have hc := (wake_sweep_frame N s).1
  refine ⟨?_, ?_, ?_, ?_⟩
  · rw [hth]; simp; exact h.main_state
  · rw [hth]; simp; exact h.main_sleep
  · rw [hth]; simp; exact h.main_env
  · intro j hj
    rw [hth] at hj
    rw [hc]
    split at hj
    · simp at hj
    · exact h.run_cur j hj

theorem RunInv_switch_to (N : Nat) (k : Context) (c : Nat) (s : State) (tid : Nat)
    (h : RunInv s) (hc : s.g_current = some c)
    (ht : tid < s.g_thread.length) (hp : c < s.g_thread.length)
    (hk : ∀ x, k = Context.in_terminate x → c ≠ 0) :
    RunInv (switch_to N k c s tid) := by
  have hth := switch_to_thread N k c s tid
  have hcur := (switch_to_frame N k c s tid).1
  refine ⟨?_, ?_, ?_, ?_⟩
  · rw [hth 0 ht hp]
    by_cases h0c : 0 = c
    · subst h0c
      simp only [if_true]
      rcases h.main_state with hs | hs
      · by_cases hsel : 0 = tid
        · simp [hsel]
        · simp [hsel, hs]
      · simp [hs]
    · simp only [h0c, if_false]
      by_cases h0t : 0 = tid
      · simp [h0t]
      · simp only [h0t, if_false]; exact h.main_state
  · rw [hth 0 ht hp]
    by_cases h0c : 0 = c
    · subst h0c; simp only [if_true]; exact h.main_sleep
    · simp only [h0c, if_false]
      by_cases h0t : 0 = tid
      · subst h0t; simp only [if_true]; exact h.main_sleep
      · simp only [h0t, if_false]; exact h.main_sleep
  · rw [hth 0 ht hp]
    by_cases h0c : 0 = c
    · subst h0c
      simp only [if_true]
      intro x hx
      exact hk x hx rfl
    · simp only [h0c, if_false]
      by_cases h0t : 0 = tid
      · subst h0t; simp only [if_true]; exact h.main_env
      · simp only [h0t, if_false]; exact h.main_env
  · intro j hj
    rw [hcur]
    rw [hth j ht hp] at hj
    by_cases hjc : j = c
    · subst hjc
      simp only [if_true] at hj
      by_cases hcs : j = tid
      · rw [hcs]
      · exfalso
        by_cases hrun : (s.thread j).state = THREAD_RUNNING
        · simp [hrun] at hj
        · simp [hcs, hrun] at hj
    · simp only [hjc, if_false] at hj
      by_cases hjt : j = tid
      · rw [hjt]
      · simp only [hjt, if_false] at hj
        have := h.run_cur j hj
        rw [hc] at this
        exact absurd (Option.some.inj this).symm hjc

theorem RunInv_schedule_next (N : Nat) (k : Context) (s s' : State) (sw : Bool) (c : Nat)
    (hI : Inv N s) (h : RunInv s) (hc : s.g_current = some c)
    (hk : ∀ x, k = Context.in_terminate x → c ≠ 0)
    (hr : schedule_next N k s = some (s', sw)) : RunInv s' := by
  rw [schedule_next_eq N k s c hc] at hr
  have hw := Inv_wake_sweep N s hI
  have hrw := RunInv_wake_sweep N s h
  have hwc : (wake_sweep N s).g_current = some c := by
    rw [(wake_sweep_frame N s).1]; exact hc
  obtain ⟨c', c1, c2, _⟩ := hI.current
  have hcc : c' = c := by rw [hc] at c1; exact (Option.some.inj c1).symm
  subst hcc
  rcases select_loop_cases N k s.q_head c' N (wake_sweep N s) (s', sw) hr with
    ⟨_, a2, _⟩ | ⟨s1, tid, b1, b2, b3, _⟩
  · exact RunInv_of_threads _ _ hrw a2.2.1 (same_table_thread a2)
  · simp only [Prod.mk.injEq] at b1
    obtain ⟨rfl, rfl⟩ := b1
    have h1 : RunInv s1 := RunInv_of_threads _ _ hrw b2.2.1 (same_table_thread b2)
    have hl : s1.g_thread.length = N := by rw [b2.1]; exact hw.table_len
    exact RunInv_switch_to N k c' s1 tid h1 (by rw [b2.2.1]; exact hwc)
      (by rw [hl]; exact (b3 hw.queue).2) (by rw [hl]; exact c2) hk

theorem RunInv_resume_context (N : Nat) (s : State) (hI : Inv N s) (h : RunInv s) :
    RunInv (resume_context s) := by
  obtain ⟨c, c1, c2, c3⟩ := hI.current
  unfold resume_context
  rw [c1]
  simp only
  split
  · next x hx =>
    have hxc : x = c := hI.env_ok c x c2 hx
    subst hxc
    apply RunInv_set_state s x _ h
    · intro hx0
      subst hx0
      exact absurd hx (h.main_env _)
    · intro hh; cases hh
  · exact h

theorem RunInv_init (N : Nat) (s : State) (q : Int) (hN : 0 < N) (hq : 0 < q) :
    RunInv (uthread_init N s q).1 := by
  have hth := uthread_init_thread N s q hN hq
  have hc := uthread_init_current N s q hq
  refine ⟨?_, ?_, ?_, ?_⟩
  · rw [hth]; simp
  · rw [hth]; simp
  · rw [hth]; simp
  · intro i hi
    rw [hth] at hi
    by_cases h0 : i = 0
    · rw [h0]; exact hc
    · simp [h0, thread_t.zero] at hi

theorem RunInv_uthread_init (N : Nat) (s : State) (q : Int) (hN : 0 < N) (h : RunInv s) :
    RunInv (uthread_init N s q).1 := by
  by_cases hq : q ≤ 0
  · simp only [uthread_init, hq, if_true]; exact h
  · exact RunInv_init N s q hN (by omega)

theorem RunInv_spawn (N : Nat) (s : State) (e : Nat) (h : RunInv s) :
    RunInv (uthread_spawn N s e).1 := by
  unfold uthread_spawn
  split
  · exact h
  · split
    · exact h
    · next t hf =>
      have ht := (find_unused_eq_some N s t).mp hf
      simp only
      apply RunInv_enqueue
      apply RunInv_set_thread s t _ h
      · intro h0; omega
      · intro hh; cases hh

theorem RunInv_resume (N : Nat) (s : State) (tid : Int) (h : RunInv s) :
    RunInv (uthread_resume N s tid).1 := by
  unfold uthread_resume
  split
  · exact h
  · split
    · apply RunInv_enqueue
      apply RunInv_set_state s _ _ h
      · intro _; exact Or.inl rfl
      · intro hh; cases hh
    · exact h

theorem RunInv_terminate (N : Nat) (s s1 : State) (tid : Int) (o : Outcome)
    (hI : Inv N s) (h : RunInv s)
    (hr : uthread_terminate N s tid = some (s1, o)) : RunInv s1 := by
  unfold uthread_terminate at hr
  split at hr
  · simp only [Option.some.injEq, Prod.mk.injEq] at hr; rw [← hr.1]; exact h
  · next hv =>
    obtain ⟨v1, v2, v3⟩ := valid_tid_slot N s tid hI hv
    split at hr
    · simp only [Option.some.injEq, Prod.mk.injEq] at hr; rw [← hr.1]; exact h
    · next hne =>
      have hn0 : tid.toNat ≠ 0 := by omega
      have hu : RunInv (s.set_state tid.toNat THREAD_UNUSED) :=
        RunInv_set_state s _ _ h (fun e => absurd e hn0) (fun hh => by cases hh)
      split at hr
      · obtain ⟨c, c1, c2, c3⟩ := hI.current
        rw [c1] at hr
        simp only at hr
        split at hr
        · next heq =>
          have htc : tid.toNat = c := by rw [v2, c3] at heq; exact heq
          have hI1 : Inv N (s.set_state tid.toNat THREAD_TERMINATED) :=
            Inv_set_state N s _ _ hI v1 v2
          have h1 : RunInv (s.set_state tid.toNat THREAD_TERMINATED) :=
            RunInv_set_state s _ _ h (fun e => absurd e hn0) (fun hh => by cases hh)
          have hk : ∀ x, Context.in_terminate tid.toNat = Context.in_terminate x → c ≠ 0 :=
            fun _ _ => by rw [← htc]; exact hn0
          have hkI : ∀ x, Context.in_terminate tid.toNat = Context.in_terminate x → x = c :=
            fun x hx => by rw [← htc]; exact (Context.in_terminate.inj hx).symm
          split at hr
          · simp at hr
          · next s2 hs =>
            simp only [Option.some.injEq, Prod.mk.injEq] at hr
            rw [← hr.1]
            exact RunInv_resume_context N s2
              (Inv_schedule_next N _ _ s2 true c hI1 c1 hkI hs)
              (RunInv_schedule_next N _ _ s2 true c hI1 h1 c1 hk hs)
          · next s2 hs =>
            simp only [Option.some.injEq, Prod.mk.injEq] at hr
            rw [← hr.1]
            exact RunInv_set_state s2 _ _
              (RunInv_schedule_next N _ _ s2 false c hI1 h1 c1 hk hs)
              (fun e => absurd e hn0) (fun hh => by cases hh)
        · simp only [Option.some.injEq, Prod.mk.injEq] at hr
          rw [← hr.1]; exact hu
      · simp only [Option.some.injEq, Prod.mk.injEq] at hr
        rw [← hr.1]; exact hu

theorem RunInv_block (N : Nat) (s s1 : State) (tid : Int) (o : Outcome)
    (hI : Inv N s) (h : RunInv s)
    (hr : uthread_block N s tid = some (s1, o)) : RunInv s1 := by
  unfold uthread_block at hr
  split at hr
  · simp only [Option.some.injEq, Prod.mk.injEq] at hr; rw [← hr.1]; exact h
  · next hv =>
    have hv' : ¬ (tid < 0 ∨ tid ≥ (N : Int) ∨ (s.thread tid.toNat).state = THREAD_UNUSED) :=
      fun e => hv (Or.inr e)
    have hne : ¬ tid = 0 := fun e => hv (Or.inl e)
    obtain ⟨v1, v2, v3⟩ := valid_tid_slot N s tid hI hv'
    have hn0 : tid.toNat ≠ 0 := by omega
    have hb : RunInv (s.set_state tid.toNat THREAD_BLOCKED) :=
      RunInv_set_state s _ _ h (fun e => absurd e hn0) (fun hh => by cases hh)
    split at hr
    · simp only [Option.some.injEq, Prod.mk.injEq] at hr; rw [← hr.1]; exact h
    · obtain ⟨c, c1, c2, c3⟩ := hI.current
      rw [c1] at hr
      simp only at hr
      split at hr
      · have hI1 : Inv N (s.set_state tid.toNat THREAD_BLOCKED) :=
          Inv_set_state N s _ _ hI v1 v2
        split at hr
        · simp at hr
        · next s2 hs =>
          simp only [Option.some.injEq, Prod.mk.injEq] at hr
          rw [← hr.1]
          exact RunInv_resume_context N s2
            (Inv_schedule_next N Context.in_block _ s2 true c hI1 c1 (fun x hx => by cases hx) hs)
            (RunInv_schedule_next N Context.in_block _ s2 true c hI1 hb c1
              (fun x hx => by cases hx) hs)
        · next s2 hs =>
          simp only [Option.some.injEq, Prod.mk.injEq] at hr
          rw [← hr.1]
          exact RunInv_schedule_next N Context.in_block _ s2 false c hI1 hb c1
            (fun x hx => by cases hx) hs
      · simp only [Option.some.injEq, Prod.mk.injEq] at hr
        rw [← hr.1]; exact hb

theorem RunInv_sleep_mark (s : State) (c : Nat) (n : Int) (h : RunInv s) (hc : c ≠ 0) :
    RunInv (sleep_mark s c n) := by
  unfold sleep_mark
  apply RunInv_set_state
  · apply RunInv_set_thread s c _ h
    · intro e; exact absurd e hc
    · intro hh; exact h.run_cur c hh
  · intro e; exact absurd e hc
  · intro hh; cases hh

theorem RunInv_sleep (N : Nat) (s s1 : State) (n : Int) (o : Outcome)
    (hI : Inv N s) (h : RunInv s)
    (hr : uthread_sleep N s n = some (s1, o)) : RunInv s1 := by
  obtain ⟨c, c1, c2, c3⟩ := hI.current
  unfold uthread_sleep at hr
  rw [c1] at hr
  simp only at hr
  split at hr
  · simp only [Option.some.injEq, Prod.mk.injEq] at hr; rw [← hr.1]; exact h
  · next hne =>
    have hc0 : c ≠ 0 := by rw [c3] at hne; exact hne
    have hI1 := Inv_sleep_mark N s c n hI c2 c3
    have h1 := RunInv_sleep_mark s c n h hc0
    split at hr
    · simp at hr
    · next s2 hs =>
      simp only [Option.some.injEq, Prod.mk.injEq] at hr
      rw [← hr.1]
      exact RunInv_resume_context N s2
        (Inv_schedule_next N Context.in_sleep _ s2 true c hI1 c1 (fun x hx => by cases hx) hs)
        (RunInv_schedule_next N Context.in_sleep _ s2 true c hI1 h1 c1
          (fun x hx => by cases hx) hs)
    · next s2 hs =>
      simp only [Option.some.injEq, Prod.mk.injEq] at hr
      rw [← hr.1]
      exact RunInv_schedule_next N Context.in_sleep _ s2 false c hI1 h1 c1
        (fun x hx => by cases hx) hs

theorem Inv_tick_count (N : Nat) (s : State) (c : Nat) (h : Inv N s)
    (hc : c < N) (htid : (s.thread c).tid = c) : Inv N (tick_count s c) :=
  Inv_set_thread N _ c _ (Inv_set_total N s _ h) hc htid (fun x hx => h.env_ok c x hc hx)

theorem RunInv_tick_count (s : State) (c : Nat) (h : RunInv s)
    (hc : c < s.g_thread.length) : RunInv (tick_count s c) := by
  have hth := tick_count_thread s c
  have hcur := (tick_count_frame s c).1
  refine ⟨?_, ?_, ?_, ?_⟩
  · rw [hth 0 hc]; split
    · next e => rw [← e]; exact h.main_state
    · exact h.main_state
  · rw [hth 0 hc]; split
    · next e => rw [← e]; exact h.main_sleep
    · exact h.main_sleep
  · rw [hth 0 hc]; split
    · next e => rw [← e]; exact h.main_env
    · exact h.main_env
  · intro j hj
    rw [hcur]
    rw [hth j hc] at hj
    split at hj
    · next e => rw [e]; exact h.run_cur c hj
    · exact h.run_cur j hj

theorem RunInv_tick (N : Nat) (s s1 : State) (hI : Inv N s) (h : RunInv s)
    (hr : timer_handler N s = some s1) : RunInv s1 := by
  obtain ⟨c, c1, c2, c3⟩ := hI.current
  unfold timer_handler at hr
  rw [c1] at hr
  simp only at hr
  have hI1 : Inv N (tick_count s c) := Inv_tick_count N s c hI c2 c3
  have h1 : RunInv (tick_count s c) :=
    RunInv_tick_count s c h (by rw [hI.table_len]; exact c2)
  have hc1 : (tick_count s c).g_current = some c := (tick_count_frame s c).1.trans c1
  split at hr
  · simp at hr
  · next s2 hs =>
    simp only [Option.some.injEq] at hr
    rw [← hr]
    exact RunInv_resume_context N s2
      (Inv_schedule_next N Context.in_timer _ s2 true c hI1 hc1 (fun x hx => by cases hx) hs)
      (RunInv_schedule_next N Context.in_timer _ s2 true c hI1 h1 hc1
        (fun x hx => by cases hx) hs)
  · next s2 hs =>
    simp only [Option.some.injEq] at hr
    rw [← hr]
    exact RunInv_schedule_next N Context.in_timer _ s2 false c hI1 h1 hc1
      (fun x hx => by cases hx) hs

theorem RunInv_step (N : Nat) (s s1 : State) (hN : 0 < N) (hI : Inv N s) (h : RunInv s)
    (hs : Step N s s1) : RunInv s1 := by
  cases hs with
  | init q => exact RunInv_uthread_init N s q hN h
  | spawn e => exact RunInv_spawn N s e h
  | terminate _ tid o hr _ => exact RunInv_terminate N s s1 tid o hI h hr
  | block _ tid o hr => exact RunInv_block N s s1 tid o hI h hr
  | resume tid => exact RunInv_resume N s tid h
  | sleep _ n o hr => exact RunInv_sleep N s s1 n o hI h hr
  | tick _ hr => exact RunInv_tick N s s1 hI h hr

theorem RunInv_of_Reachable (N : Nat) (s : State) (hN : 0 < N) (h : Reachable N s) :
    RunInv s := by
  induction h with
  | init q hq => exact RunInv_init N _ q hN hq
  | step s s1 hr hs ih => exact RunInv_step N s s1 hN (Inv_of_Reachable N s hN hr) ih hs

/-- C16: in every state reachable from a successful `uthread_init` by public
calls and timer ticks, slot 0 is never `UNUSED`: its state is `READY` or
`RUNNING` (so `uthread_get_quantums(0)` never takes the error branch), and its
`sleep_until` is 0. -/
theorem main_thread_never_unused (N : Nat) (s : State) (hN : 0 < N) (h : Reachable N s) :
    ((s.thread 0).state = THREAD_READY ∨ (s.thread 0).state = THREAD_RUNNING) ∧
    (s.thread 0).state ≠ THREAD_UNUSED ∧
    (s.thread 0).sleep_until = 0 ∧
    uthread_get_quantums N s 0 = (s.thread 0).quantums := by
  have hR := RunInv_of_Reachable N s hN h
  have hne : (s.thread 0).state ≠ THREAD_UNUSED := by
    rcases hR.main_state with e | e <;> rw [e] <;> decide
  refine ⟨hR.main_state, hne, hR.main_sleep, ?_⟩
  have hN' : ¬ (N : Int) ≤ 0 := by omega
  simp [uthread_get_quantums, hN', hne]

/-- Witness for C16: the reachable state `ex3_stale`, in which thread 1 runs and
the main thread waits in the queue. -/
theorem main_thread_never_unused_witness :
    Reachable 3 ex3_stale ∧
    ((ex3_stale.thread 0).state = THREAD_READY ∨ (ex3_stale.thread 0).state = THREAD_RUNNING) ∧
    (ex3_stale.thread 0).state ≠ THREAD_UNUSED ∧
    (ex3_stale.thread 0).sleep_until = 0 ∧
    uthread_get_quantums 3 ex3_stale 0 = (ex3_stale.thread 0).quantums :=
  ⟨ex3_stale_reachable, main_thread_never_unused 3 ex3_stale (by decide) ex3_stale_reachable⟩

/-- C13 (amended): in every state reachable from a successful `uthread_init` by
public calls and timer ticks, at most one TCB has state `RUNNING`, and a TCB
whose state is `RUNNING` is the current one: `g_current` points to it and
`uthread_get_tid` returns its index. -/
theorem running_is_current (N : Nat) (s : State) (hN : 0 < N) (h : Reachable N s) :
    (∀ i, (s.thread i).state = THREAD_RUNNING →
      s.g_current = some i ∧ (s.thread i).tid = i ∧ uthread_get_tid s = (i : Int)) ∧
    (∀ i j, (s.thread i).state = THREAD_RUNNING → (s.thread j).state = THREAD_RUNNING →
      i = j) := by
  have hR := RunInv_of_Reachable N s hN h
  have hI := Inv_of_Reachable N s hN h
  constructor
  · intro i hi
    have hc := hR.run_cur i hi
    obtain ⟨c, c1, _, c3⟩ := hI.current
    have hci : c = i := by rw [hc] at c1; exact (Option.some.inj c1).symm
    subst hci
    refine ⟨hc, c3, ?_⟩
    simp [uthread_get_tid, hc, c3]
  · intro i j hi hj
    have h1 := hR.run_cur i hi
    have h2 := hR.run_cur j hj
    rw [h1] at h2
    exact Option.some.inj h2

/-- Witness for C13: the reachable state `ex3_two_run1`, in which thread 1 is the
`RUNNING` one. -/
theorem running_is_current_witness :
    Reachable 3 ex3_two_run1 ∧
    (ex3_two_run1.thread 1).state = THREAD_RUNNING ∧
    (∀ i, (ex3_two_run1.thread i).state = THREAD_RUNNING →
      ex3_two_run1.g_current = some i ∧ (ex3_two_run1.thread i).tid = i
        ∧ uthread_get_tid ex3_two_run1 = (i : Int)) ∧
    (∀ i j, (ex3_two_run1.thread i).state = THREAD_RUNNING →
      (ex3_two_run1.thread j).state = THREAD_RUNNING → i = j) :=
  ⟨ex3_two_run1_reachable, by decide,
    running_is_current 3 ex3_two_run1 (by decide) ex3_two_run1_reachable⟩

/-- C13 fails: a reachable state in which no TCB is `RUNNING`.  With
`MAX_THREAD_NUM = 3`, after `uthread_init`, two `uthread_spawn`, a timer tick,
`uthread_block(2)` and `uthread_resume(2)` the ring has overflowed and reads as
empty (`ex3_lost`, thread 1 running).  Thread 1 then calls `uthread_block(1)`:
it is marked `BLOCKED`, `schedule_next` finds nothing to select and the call
returns 0 with thread 1 still current.  A second run ends with every thread
`READY`: in `ex3_two_run1` thread 1 calls `uthread_sleep(0)`. -/
theorem no_running_thread :
    Reachable 3 ex3_lost ∧
    uthread_block 3 ex3_lost 1 = some (ex3_lost_marked, Outcome.ret 0) ∧
    Reachable 3 ex3_lost_marked ∧
    uthread_get_tid ex3_lost_marked = 1 ∧
    (ex3_lost_marked.thread 1).state = THREAD_BLOCKED ∧
    (∀ i, i < 3 → (ex3_lost_marked.thread i).state ≠ THREAD_RUNNING) ∧
    Reachable 3 ex3_two_run1 ∧
    uthread_sleep 3 ex3_two_run1 0 = some (ex3_all_ready, Outcome.ret 0) ∧
    (∀ i, i < 3 → (ex3_all_ready.thread i).state = THREAD_READY) :=
  ⟨ex3_lost_reachable, by decide,
    Reachable.step ex3_lost ex3_lost_marked ex3_lost_reachable
      (Step.block ex3_lost ex3_lost_marked 1 (Outcome.ret 0) (by decide)),
    by decide, by decide, by decide, ex3_two_run1_reachable, by decide, by decide⟩

/-! ## Quantum counters -/

theorem same_counts_refl (s : State) : same_counts s s :=
  ⟨rfl, fun _ => ⟨rfl, rfl⟩⟩

theorem same_counts_trans {s s1 s2 : State} (h1 : same_counts s s1) (h2 : same_counts s1 s2) :
    same_counts s s2 :=
  ⟨h2.1.trans h1.1, fun i => ⟨(h2.2 i).1.trans (h1.2 i).1, (h2.2 i).2.trans (h1.2 i).2⟩⟩

theorem same_counts_set_thread (s : State) (i : Nat) (t : thread_t)
    (hq : t.quantums = (s.thread i).quantums) (ht : t.tid = (s.thread i).tid) :
    same_counts s (s.set_thread i t) := by
  refine ⟨rfl, fun j => ?_⟩
  rw [thread_set_thread]
  split
  · next hc => rw [hc.1]; exact ⟨hq, ht⟩
  · exact ⟨rfl, rfl⟩

theorem same_counts_set_state (s : State) (i : Nat) (st : ThreadState) :
    same_counts s (s.set_state i st) :=
  same_counts_set_thread s i _ rfl rfl

theorem same_counts_enqueue (N : Nat) (s : State) (x : Nat) : same_counts s (enqueue N s x) :=
  ⟨rfl, fun _ => ⟨rfl, rfl⟩⟩

theorem same_counts_of_same_table {s s' : State} (h : same_table s s') : same_counts s s' :=
  ⟨h.2.2.1, fun i => by rw [same_table_thread h i]; exact ⟨rfl, rfl⟩⟩

theorem same_counts_wake_sweep (N : Nat) (s : State) : same_counts s (wake_sweep N s) := by
  refine ⟨(wake_sweep_frame N s).2.1, fun j => ?_⟩
  rw [wake_sweep_thread]
  split
  · exact ⟨rfl, rfl⟩
  · exact ⟨rfl, rfl⟩

theorem same_counts_context_switch (k : Context) (s : State) (c n : Nat) :
    same_counts s (context_switch k s c n) := by
  unfold context_switch
  exact same_counts_set_thread { s with g_current := some n } c _ rfl rfl

theorem same_counts_switch_to (N : Nat) (k : Context) (prev : Nat) (s : State) (tid : Nat) :
    same_counts s (switch_to N k prev s tid) := by
  unfold switch_to
  simp only
  apply same_counts_trans _ (same_counts_context_switch k _ prev tid)
  split
  · exact same_counts_trans (same_counts_set_state s tid _)
      (same_counts_trans (same_counts_set_state _ prev _) (same_counts_enqueue N _ _))
  · exact same_counts_set_state s tid _

theorem same_counts_schedule_next (N : Nat) (k : Context) (s s' : State) (sw : Bool)
    (hr : schedule_next N k s = some (s', sw)) : same_counts s s' := by
  cases hc : s.g_current with
  | none => simp [schedule_next, hc] at hr
  | some c =>
    rw [schedule_next_eq N k s c hc] at hr
    have hw := same_counts_wake_sweep N s
    rcases select_loop_cases N k s.q_head c N (wake_sweep N s) (s', sw) hr with
      ⟨_, a2, _⟩ | ⟨s1, tid, b1, b2, _, _⟩
    · exact same_counts_trans hw (same_counts_of_same_table a2)
    · simp only [Prod.mk.injEq] at b1
      obtain ⟨rfl, rfl⟩ := b1
      exact same_counts_trans hw
        (same_counts_trans (same_counts_of_same_table b2) (same_counts_switch_to N k c s1 tid))

theorem same_counts_resume_context (s : State) : same_counts s (resume_context s) := by
  unfold resume_context
  split
  · exact same_counts_refl s
  · split
    · exact same_counts_set_state s _ _
    · exact same_counts_refl s

/-- A timer tick: the total grows by 1, so does the `quantums` field of the
thread that was current when the tick arrived, every other counter and every
`tid` field is unchanged. -/
theorem tick_counts (N : Nat) (s s1 : State) (c : Nat) (hc : s.g_current = some c)
    (hcl : c < s.g_thread.length)
    (hr : timer_handler N s = some s1) :
    s1.g_total_quantums = s.g_total_quantums + 1 ∧
    ∀ i, (s1.thread i).quantums = (s.thread i).quantums + (if i = c then 1 else 0)
      ∧ (s1.thread i).tid = (s.thread i).tid := by
  unfold timer_handler at hr
  rw [hc] at hr
  simp only at hr
  have hth := tick_count_thread s c
  have htot := (tick_count_frame s c).2.1
  have key : ∀ s2, same_counts (tick_count s c) s2 →
      s2.g_total_quantums = s.g_total_quantums + 1 ∧
      ∀ i, (s2.thread i).quantums = (s.thread i).quantums + (if i = c then 1 else 0)
        ∧ (s2.thread i).tid = (s.thread i).tid := by
    intro s2 h2
    refine ⟨h2.1.trans htot, fun i => ?_⟩
    rw [(h2.2 i).1, (h2.2 i).2, hth i hcl]
    by_cases hi : i = c
    · simp [hi]
    · simp [hi]
  split at hr
  · simp at hr
  · next s2 hs =>
    simp only [Option.some.injEq] at hr
    rw [← hr]
    exact key _ (same_counts_trans (same_counts_schedule_next N _ _ s2 true hs)
      (same_counts_resume_context s2))
  · next s2 hs =>
    simp only [Option.some.injEq] at hr
    rw [← hr]
    exact key _ (same_counts_schedule_next N _ _ s2 false hs)

theorem uthread_spawn_eq (N : Nat) (s : State) (e t : Nat) (he : e ≠ 0)
    (hf : find_unused N s = some t) :
    uthread_spawn N s e
      = (enqueue N (s.set_thread t
          { tid := t, state := THREAD_READY, quantums := 0, sleep_until := 0,
            entry := e, env := Context.at_entry e }) t, (t : Int)) := by
  simp [uthread_spawn, he, hf]

/-- One timer tick in the round-robin situation: the first waiting thread runs,
the preempted one goes to the tail. -/
theorem RoundRobin_tick (N : Nat) (s : State) (c a b : Nat) (h : RoundRobin N s c a b) :
    ∃ s', timer_handler N s = some s' ∧ RoundRobin N s' a b c := by
  obtain ⟨c', c1, c2, c3⟩ := h.inv.current
  have hcc : c' = c := by rw [h.cur] at c1; exact (Option.some.inj c1).symm
  subst hcc
  have hcl : c' < s.g_thread.length := by rw [h.inv.table_len]; exact c2
  obtain ⟨f1, f2, f3, f4, f5, f6⟩ := tick_count_frame s c'
  have hth : ∀ j, (tick_count s c').thread j
      = if j = c' then { s.thread c' with quantums := (s.thread c').quantums + 1 }
        else s.thread j := fun j => tick_count_thread s c' j hcl
  have hst : ∀ j, ((tick_count s c').thread j).state = (s.thread j).state := by
    intro j; rw [hth j]; split
    · next e => rw [e]
    · rfl
  have henv : ∀ j, ((tick_count s c').thread j).env = (s.thread j).env := by
    intro j; rw [hth j]; split
    · next e => rw [e]
    · rfl
  have htid : ∀ j, ((tick_count s c').thread j).tid = (s.thread j).tid := by
    intro j; rw [hth j]; split
    · next e => rw [e]
    · rfl
  have hwt : queue_wf N (tick_count s c') := queue_wf_congr N s _ f3 f4 f5 h.inv.queue
  have hws : wake_sweep N (tick_count s c') = tick_count s c' := by
    apply wake_sweep_id
    intro i _ _ hd
    exact h.awake i ((hst i) ▸ hd.1)
  have hql : queue_list N (wake_sweep N (tick_count s c')) = [] ++ a :: [b] := by
    rw [hws, queue_list_congr N s _ f3 f4 f5, h.queue]; rfl
  obtain ⟨s1, r1, r2, _, _, r5, r6, r7, r8⟩ :=
    schedule_next_switch N Context.in_timer (tick_count s c') c' [] [b] a hwt
      (f6.trans h.inv.table_len) (f1.trans h.cur) c2 hql
      (fun x hx => absurd hx (List.not_mem_nil x))
      (by rw [hws, hst]; exact h.ready_a)
  rw [hws] at r2 r8
  have hs1 : ∀ j, s1.thread j = (tick_count s c').thread j := same_table_thread r2
  have hsw : ∀ j, (switch_to N Context.in_timer c' s1 a).thread j
      = if j = c' then
          { s1.thread c' with
              state := if c' = a ∨ (s1.thread c').state = THREAD_RUNNING then THREAD_READY
                       else (s1.thread c').state,
              env := Context.in_timer }
        else if j = a then { s1.thread a with state := THREAD_RUNNING }
        else s1.thread j := fun j => switch_to_thread N Context.in_timer c' s1 a j r5 r6
  have hrun1 : (s1.thread c').state = THREAD_RUNNING := by rw [hs1, hst]; exact h.run
  have hac : ¬ a = c' := fun e => h.hca e.symm
  have hbc : ¬ b = c' := fun e => h.hcb e.symm
  have hba : ¬ b = a := fun e => h.hab e.symm
  have hres : resume_context (switch_to N Context.in_timer c' s1 a)
      = switch_to N Context.in_timer c' s1 a := by
    apply resume_context_id _ a r7
    intro x
    rw [hsw a]
    simp only [hac, if_false, if_true]
    rw [hs1, henv]
    exact h.env_a x
  have hres' : timer_handler N s = some (switch_to N Context.in_timer c' s1 a) := by
    unfold timer_handler
    rw [h.cur]
    simp only [r1, hres]
  refine ⟨_, hres', ?_⟩
  have hI := Inv_tick N s _ h.inv hres'
  refine ⟨hI, r7, h.hb, c2, h.hab, hac, hbc, ?_, ?_, ?_, ?_, ?_, ?_, ?_⟩
  · rw [hsw a]; simp [hac]
  · rw [hsw b]; simp only [hbc, hba, if_false]; rw [hs1, hst]; exact h.ready_b
  · rw [hsw c']; simp [hrun1]
  · intro i
    rw [hsw i]
    by_cases hic : i = c'
    · simp [hic, hrun1]
    · by_cases hia : i = a
      · simp [hia, hac]
      · simp only [hic, hia, if_false]; rw [hs1, hst]; exact h.awake i
  · intro x
    rw [hsw b]; simp only [hbc, hba, if_false]; rw [hs1, henv]; exact h.env_b x
  · intro x
    rw [hsw c']; simp
  · rw [r8]
    have : ((tick_count s c').thread c').state = THREAD_RUNNING := by rw [hst]; exact h.run
    simp [this, htid, c3]

/-- The state before the first tick of the round-robin scenario. -/
theorem rr_start_spec (N : Nat) (q : Int) (f g : Nat)
    (hN : 3 ≤ N) (hq : 0 < q) (hf : f ≠ 0) (hg : g ≠ 0) :
    (uthread_spawn N (uthread_init N (State.static_init N) q).1 f).2 = 1 ∧
    (uthread_spawn N (uthread_spawn N (uthread_init N (State.static_init N) q).1 f).1 g).2 = 2 ∧
    RoundRobin N (rr_start N q f g) 0 1 2 ∧
    (rr_start N q f g).g_total_quantums = 1 ∧
    ((rr_start N q f g).thread 0).quantums = 1 ∧
    ((rr_start N q f g).thread 1).quantums = 0 ∧
    ((rr_start N q f g).thread 2).quantums = 0 := by
  have hN0 : 0 < N := by omega
  have hth := uthread_init_thread N (State.static_init N) q hN0 hq
  have hcur := uthread_init_current N (State.static_init N) q hq
  have htot := uthread_init_total N (State.static_init N) q hq
  have hI0 := Inv_init N (State.static_init N) q hN0 (queue_wf_static_init N hN0) hq
  have hq' : ¬ q ≤ 0 := by omega
  have hht : (uthread_init N (State.static_init N) q).1.q_head = 0
      ∧ (uthread_init N (State.static_init N) q).1.q_tail = 0 := by
    simp [uthread_init, hq', State.static_init]
  have hql0 : queue_list N (uthread_init N (State.static_init N) q).1 = [] := by
    rw [queue_list_eq_nil N _ hI0.queue.2.1 hI0.queue.2.2.1, hht.1, hht.2]
  have hlen0 : queue_len N (uthread_init N (State.static_init N) q).1 = 0 := by
    rw [queue_len_eq_zero N _ hI0.queue.2.1 hI0.queue.2.2.1, hht.1, hht.2]
  have hf1 : find_unused N (uthread_init N (State.static_init N) q).1 = some 1 := by
    rw [find_unused_eq_some]
    refine ⟨le_refl 1, by omega, ?_, ?_⟩
    · rw [hth 1]; rfl
    · intro j h1 h2; omega
  have e1 := uthread_spawn_eq N _ f 1 hf hf1
  generalize hs0 : (uthread_init N (State.static_init N) q).1 = s0 at *
  have hl0 : s0.g_thread.length = N := hI0.table_len
  have hI1 : Inv N (uthread_spawn N s0 f).1 := Inv_spawn N s0 f hI0
  have hth1 : ∀ j, (uthread_spawn N s0 f).1.thread j
      = if j = 1 then
          { tid := 1, state := THREAD_READY, quantums := 0, sleep_until := 0,
            entry := f, env := Context.at_entry f }
        else s0.thread j := by
    intro j
    rw [e1]
    show (enqueue N _ 1).thread j = _
    rw [thread_enqueue, thread_set_thread]
    have : 1 < s0.g_thread.length := by omega
    simp [this]
  have hql1 : queue_list N (uthread_spawn N s0 f).1 = [1] := by
    rw [e1]
    show queue_list N (enqueue N _ 1) = _
    rw [queue_list_enqueue N (s0.set_thread 1 _) 1 hI0.queue.1 hI0.queue.2.1 hI0.queue.2.2.1]
    · show queue_list N s0 ++ [1] = [1]
      rw [hql0]; rfl
    · show queue_len N s0 + 1 < N
      rw [hlen0]; omega
  have hlen1 : queue_len N (uthread_spawn N s0 f).1 = 1 := by
    rw [e1]
    show queue_len N (enqueue N _ 1) = _
    rw [queue_len_enqueue N (s0.set_thread 1 _) 1 hI0.queue.2.1 hI0.queue.2.2.1]
    · show queue_len N s0 + 1 = 1
      rw [hlen0]
    · show queue_len N s0 + 1 < N
      rw [hlen0]; omega
  have hc1 : (uthread_spawn N s0 f).1.g_current = some 0 := by rw [e1]; exact hcur
  have ht1 : (uthread_spawn N s0 f).1.g_total_quantums = 1 := by rw [e1]; exact htot
  have hf2 : find_unused N (uthread_spawn N s0 f).1 = some 2 := by
    rw [find_unused_eq_some]
    refine ⟨by omega, by omega, ?_, ?_⟩
    · rw [hth1 2, hth 2]; rfl
    · intro j h1 h2
      have : j = 1 := by omega
      subst this
      rw [hth1 1]; simp
  have e2 := uthread_spawn_eq N _ g 2 hg hf2
  generalize hs1 : (uthread_spawn N s0 f).1 = s1 at *
  have hl1 : s1.g_thread.length = N := hI1.table_len
  have hI2 : Inv N (uthread_spawn N s1 g).1 := Inv_spawn N s1 g hI1
  have hth2 : ∀ j, (uthread_spawn N s1 g).1.thread j
      = if j = 2 then
          { tid := 2, state := THREAD_READY, quantums := 0, sleep_until := 0,
            entry := g, env := Context.at_entry g }
        else s1.thread j := by
    intro j
    rw [e2]
    show (enqueue N _ 2).thread j = _
    rw [thread_enqueue, thread_set_thread]
    have : 2 < s1.g_thread.length := by omega
    simp [this]
  have hql2 : queue_list N (uthread_spawn N s1 g).1 = [1, 2] := by
    rw [e2]
    show queue_list N (enqueue N _ 2) = _
    rw [queue_list_enqueue N (s1.set_thread 2 _) 2 hI1.queue.1 hI1.queue.2.1 hI1.queue.2.2.1]
    · show queue_list N s1 ++ [2] = [1, 2]
      rw [hql1]; rfl
    · show queue_len N s1 + 1 < N
      rw [hlen1]; omega
  have hs2 : rr_start N q f g = (uthread_spawn N s1 g).1 := by
    unfold rr_start
    rw [hs0, hs1]
  refine ⟨by rw [e1]; rfl, by rw [e2]; rfl, ?_, ?_, ?_, ?_, ?_⟩
  · rw [hs2]
    refine ⟨hI2, by rw [e2]; exact hc1, by omega, by omega, by decide, by decide, by decide,
      ?_, ?_, ?_, ?_, ?_, ?_, hql2⟩
    · rw [hth2 0, hth1 0, hth 0]; rfl
    · rw [hth2 1, hth1 1]; rfl
    · rw [hth2 2]; rfl
    · intro i
      rw [hth2 i]
      by_cases h2 : i = 2
      · simp [h2]
      · rw [if_neg h2, hth1 i]
        by_cases h1 : i = 1
        · simp [h1]
        · rw [if_neg h1, hth i]
          by_cases h0 : i = 0
          · simp [h0]
          · simp [h0, thread_t.zero]
    · intro x
      rw [hth2 1, hth1 1]; simp
    · intro x
      rw [hth2 2]; simp
  · rw [hs2, e2]; exact ht1
  · rw [hs2, hth2 0, hth1 0, hth 0]; rfl
  · rw [hs2, hth2 1, hth1 1]; rfl
  · rw [hs2, hth2 2]; rfl

/-- One tick of the round-robin scenario with its counters: the tick arrives
while `c` is current and is credited to `c`. -/
theorem RoundRobin_tick_counts (N : Nat) (s : State) (c a b : Nat)
    (h : RoundRobin N s c a b) :
    ∃ s', timer_handler N s = some s' ∧ RoundRobin N s' a b c ∧
      uthread_get_tid s = (c : Int) ∧
      s'.g_total_quantums = s.g_total_quantums + 1 ∧
      (s'.thread c).quantums = (s.thread c).quantums + 1 ∧
      (s'.thread a).quantums = (s.thread a).quantums ∧
      (s'.thread b).quantums = (s.thread b).quantums := by
  obtain ⟨s', h1, h2⟩ := RoundRobin_tick N s c a b h
  obtain ⟨c', c1, c2, c3⟩ := h.inv.current
  have hcc : c' = c := by rw [h.cur] at c1; exact (Option.some.inj c1).symm
  subst hcc
  obtain ⟨t1, t2⟩ := tick_counts N s s' c' h.cur (by rw [h.inv.table_len]; exact c2) h1
  refine ⟨s', h1, h2, ?_, t1, ?_, ?_, ?_⟩
  · simp [uthread_get_tid, h.cur, c3]
  · rw [(t2 c').1]; simp
  · have hac : ¬ a = c' := fun e => h.hca e.symm
    rw [(t2 a).1]; simp [hac]
  · have hbc : ¬ b = c' := fun e => h.hcb e.symm
    rw [(t2 b).1]; simp [hbc]

theorem RoundRobin_getters (N : Nat) (s : State) (c a b : Nat) (h : RoundRobin N s c a b) :
    uthread_get_tid s = (c : Int) ∧
    uthread_get_quantums N s c = (s.thread c).quantums ∧
    uthread_get_quantums N s a = (s.thread a).quantums ∧
    uthread_get_quantums N s b = (s.thread b).quantums := by
  obtain ⟨c', c1, c2, c3⟩ := h.inv.current
  have hcc : c' = c := by rw [h.cur] at c1; exact (Option.some.inj c1).symm
  subst hcc
  have ha := h.ha
  have hb := h.hb
  refine ⟨?_, ?_, ?_, ?_⟩
  · simp [uthread_get_tid, h.cur, c3]
  · have : ¬ (N : Int) ≤ (c' : Int) := by omega
    simp [uthread_get_quantums, this, h.run]
  · have : ¬ (N : Int) ≤ (a : Int) := by omega
    simp [uthread_get_quantums, this, h.ready_a]
  · have : ¬ (N : Int) ≤ (b : Int) := by omega
    simp [uthread_get_quantums, this, h.ready_b]

/-- C11 (amended): the round-robin scenario, for every `MAX_THREAD_NUM >= 3`,
every quantum length `q > 0` and all non-null entry points.  After
`uthread_init`, the two `uthread_spawn` calls return 1 and 2; each of the next
six timer ticks returns; the thread that is current when the ticks arrive is
0, 1, 2, 0, 1, 2 in this order and thread 0 is current after the sixth; then
`uthread_get_quantums` returns 3 for TID 0 and 2 for the TIDs 1 and 2, and
`uthread_get_total_quantums` returns 7. -/
theorem round_robin_six_ticks (N : Nat) (q : Int) (f g : Nat)
    (hN : 3 ≤ N) (hq : 0 < q) (hf : f ≠ 0) (hg : g ≠ 0) :
    (uthread_spawn N (uthread_init N (State.static_init N) q).1 f).2 = 1 ∧
    (uthread_spawn N (uthread_spawn N (uthread_init N (State.static_init N) q).1 f).1 g).2 = 2 ∧
    ∃ s1 s2 s3 s4 s5 s6,
      timer_handler N (rr_start N q f g) = some s1 ∧
      timer_handler N s1 = some s2 ∧
      timer_handler N s2 = some s3 ∧
      timer_handler N s3 = some s4 ∧
      timer_handler N s4 = some s5 ∧
      timer_handler N s5 = some s6 ∧
      ticks N 6 (rr_start N q f g) = some s6 ∧
      uthread_get_tid (rr_start N q f g) = 0 ∧
      uthread_get_tid s1 = 1 ∧
      uthread_get_tid s2 = 2 ∧
      uthread_get_tid s3 = 0 ∧
      uthread_get_tid s4 = 1 ∧
      uthread_get_tid s5 = 2 ∧
      uthread_get_tid s6 = 0 ∧
      uthread_get_quantums N s6 0 = 3 ∧
      uthread_get_quantums N s6 1 = 2 ∧
      uthread_get_quantums N s6 2 = 2 ∧
      uthread_get_total_quantums s6 = 7 := by
  obtain ⟨r1, r2, h0, i1, i2, i3, i4⟩ := rr_start_spec N q f g hN hq hf hg
  refine ⟨r1, r2, ?_⟩
  obtain ⟨s1, a1, h1, g0, a2, a3, a4, a5⟩ := RoundRobin_tick_counts N _ 0 1 2 h0
  obtain ⟨s2, b1, h2, g1, b2, b3, b4, b5⟩ := RoundRobin_tick_counts N s1 1 2 0 h1
  obtain ⟨s3, c1, h3, g2, c2, c3, c4, c5⟩ := RoundRobin_tick_counts N s2 2 0 1 h2
  obtain ⟨s4, d1, h4, g3, d2, d3, d4, d5⟩ := RoundRobin_tick_counts N s3 0 1 2 h3
  obtain ⟨s5, e1, h5, g4, e2, e3, e4, e5⟩ := RoundRobin_tick_counts N s4 1 2 0 h4
  obtain ⟨s6, f1, h6, g5, f2, f3, f4, f5⟩ := RoundRobin_tick_counts N s5 2 0 1 h5
  obtain ⟨g6, q0, q1, q2⟩ := RoundRobin_getters N s6 0 1 2 h6
  push_cast at q0 q1 q2
  refine ⟨s1, s2, s3, s4, s5, s6, a1, b1, c1, d1, e1, f1, ?_, ?_, ?_, ?_, ?_, ?_, ?_, ?_,
    ?_, ?_, ?_, ?_⟩
  · simp [ticks, a1, b1, c1, d1, e1, f1]
  · simpa using g0
  · simpa using g1
  · simpa using g2
  · simpa using g3
  · simpa using g4
  · simpa using g5
  · simpa using g6
  · rw [q0]; omega
  · rw [q1]; omega
  · rw [q2]; omega
  · show s6.g_total_quantums = 7
    omega

/-- Witness for C11: `MAX_THREAD_NUM = 4`, `uthread_init(100000)` and the entry
points 7 and 8. -/
theorem round_robin_six_ticks_witness :
    (uthread_spawn 4 (uthread_init 4 (State.static_init 4) 100000).1 7).2 = 1 ∧
    (uthread_spawn 4
      (uthread_spawn 4 (uthread_init 4 (State.static_init 4) 100000).1 7).1 8).2 = 2 ∧
    ∃ s1 s2 s3 s4 s5 s6,
      timer_handler 4 (rr_start 4 100000 7 8) = some s1 ∧
      timer_handler 4 s1 = some s2 ∧
      timer_handler 4 s2 = some s3 ∧
      timer_handler 4 s3 = some s4 ∧
      timer_handler 4 s4 = some s5 ∧
      timer_handler 4 s5 = some s6 ∧
      ticks 4 6 (rr_start 4 100000 7 8) = some s6 ∧
      uthread_get_tid (rr_start 4 100000 7 8) = 0 ∧
      uthread_get_tid s1 = 1 ∧
      uthread_get_tid s2 = 2 ∧
      uthread_get_tid s3 = 0 ∧
      uthread_get_tid s4 = 1 ∧
      uthread_get_tid s5 = 2 ∧
      uthread_get_tid s6 = 0 ∧
      uthread_get_quantums 4 s6 0 = 3 ∧
      uthread_get_quantums 4 s6 1 = 2 ∧
      uthread_get_quantums 4 s6 2 = 2 ∧
      uthread_get_total_quantums s6 = 7 :=
  round_robin_six_ticks 4 100000 7 8 (by decide) (by decide) (by decide) (by decide)

/-- C11 fails in its last part.  With `MAX_THREAD_NUM = 4`, after
`uthread_init(100000)`, two `uthread_spawn` calls returning 1 and 2 and
exactly six timer ticks, `uthread_get_quantums(0)` returns 3, not 2: the main
thread starts with `quantums = 1` and is credited the first and the fourth
tick.  The total is 7, the sum of 3, 2 and 2. -/
theorem round_robin_main_has_three :
    (uthread_spawn 4 (uthread_init 4 (State.static_init 4) 100000).1 7).2 = 1 ∧
    (uthread_spawn 4
      (uthread_spawn 4 (uthread_init 4 (State.static_init 4) 100000).1 7).1 8).2 = 2 ∧
    rr_start 4 100000 7 8 = ex4_two ∧
    ticks 4 6 ex4_two = some ex4_six_ticks ∧
    uthread_get_quantums 4 ex4_six_ticks 0 = 3 ∧
    uthread_get_quantums 4 ex4_six_ticks 0 ≠ 2 ∧
    uthread_get_quantums 4 ex4_six_ticks 1 = 2 ∧
    uthread_get_quantums 4 ex4_six_ticks 2 = 2 ∧
    uthread_get_total_quantums ex4_six_ticks = 7 :=
  ⟨by decide, by decide, rfl, by decide, by decide, by decide, by decide, by decide, by decide⟩

/-! ## The queue discipline -/

theorem nodup_length_add_two (N : Nat) (l : List Nat) (a b : Nat)
    (hl : l.Nodup) (hlt : ∀ x ∈ l, x < N) (ha : a < N) (hb : b < N) (hab : a ≠ b)
    (hal : a ∉ l) (hbl : b ∉ l) : l.length + 2 ≤ N := by
  have hnd : (a :: b :: l).Nodup := by
    simp only [List.nodup_cons, List.mem_cons, not_or]
    exact ⟨⟨hab, hal⟩, hbl, hl⟩
  have hsub : (a :: b :: l).toFinset ⊆ Finset.range N := by
    intro x hx
    simp only [List.toFinset_cons, Finset.mem_insert, List.mem_toFinset] at hx
    rw [Finset.mem_range]
    rcases hx with rfl | rfl | hx
    · exact ha
    · exact hb
    · exact hlt x hx
  have hcard := Finset.card_le_card hsub
  rw [List.toFinset_card_of_nodup hnd, Finset.card_range] at hcard
  simpa using hcard

theorem queue_list_lt (N : Nat) (s : State) (hw : queue_wf N s) :
    ∀ x ∈ queue_list N s, x < N := by
  intro x hx
  unfold queue_list at hx
  rw [List.mem_map] at hx
  obtain ⟨k, _, rfl⟩ := hx
  have hN : 0 < N := by have := hw.2.1; omega
  have hidx : (s.q_head + k) % N < s.ready_queue.length := by
    rw [hw.1]; exact Nat.mod_lt _ hN
  rw [List.getD_eq_getElem _ _ hidx]
  exact hw.2.2.2 _ (List.getElem_mem _)

/-- Appending an index that is not in the queue, while a second index is
missing from it as well, does not overflow the ring. -/
theorem enqueue_fresh (N : Nat) (s : State) (x c : Nat) (hw : queue_wf N s)
    (hn : (queue_list N s).Nodup) (hx : x < N) (hc : c < N) (hxc : x ≠ c)
    (hxl : x ∉ queue_list N s) (hcl : c ∉ queue_list N s) :
    queue_list N (enqueue N s x) = queue_list N s ++ [x] := by
  have h2 := nodup_length_add_two N _ x c hn (queue_list_lt N s hw) hx hc hxc hxl hcl
  rw [queue_list_length] at h2
  exact queue_list_enqueue N s x hw.1 hw.2.1 hw.2.2.1 (by omega)

theorem QueueInv_congr (N : Nat) (s s' : State) (h : QueueInv N s)
    (hq : queue_list N s' = queue_list N s)
    (hst : ∀ i, (s'.thread i).state = (s.thread i).state)
    (hsl : ∀ i, (s'.thread i).sleep_until = (s.thread i).sleep_until)
    (henv : ∀ i, (s'.thread i).env = (s.thread i).env) : QueueInv N s' := by
  refine ⟨?_, ?_, ?_, ?_⟩
  · rw [hq]; exact h.nodup
  · intro i; rw [hq, hst]; exact h.mem i
  · intro i hi; rw [hst] at hi; rw [hsl]; exact h.awake i hi
  · intro i x hx; rw [henv] at hx; rw [hst]; exact h.env_term i x hx

/-- A slot that is not `READY` is overwritten by a TCB that is not `READY`. -/
theorem QueueInv_set_thread_idle (N : Nat) (s : State) (i : Nat) (t : thread_t)
    (h : QueueInv N s) (h1 : (s.thread i).state ≠ THREAD_READY)
    (h2 : t.state ≠ THREAD_READY)
    (h3 : t.state = THREAD_RUNNING → t.sleep_until = 0)
    (h4 : ∀ x, t.env = Context.in_terminate x →
      t.state = THREAD_TERMINATED ∨ t.state = THREAD_UNUSED) :
    QueueInv N (s.set_thread i t) := by
  have hth := thread_set_thread s i
  have hq : queue_list N (s.set_thread i t) = queue_list N s := rfl
  refine ⟨?_, ?_, ?_, ?_⟩
  · rw [hq]; exact h.nodup
  · intro j
    rw [hq, hth j t]
    split
    · next hc =>
      rw [h.mem j, hc.1]
      exact ⟨fun e => absurd e h1, fun e => absurd e h2⟩
    · exact h.mem j
  · intro j hj
    rw [hth j t] at hj ⊢
    split
    · next hc =>
      rw [if_pos hc] at hj
      rcases hj with e | e
      · exact absurd e h2
      · exact h3 e
    · next hc =>
      rw [if_neg hc] at hj
      exact h.awake j hj
  · intro j x hx
    rw [hth j t] at hx ⊢
    split
    · next hc =>
      rw [if_pos hc] at hx
      exact h4 x hx
    · next hc =>
      rw [if_neg hc] at hx
      exact h.env_term j x hx

theorem QueueInv_set_state_idle (N : Nat) (s : State) (i : Nat) (st : ThreadState)
    (h : QueueInv N s) (h1 : (s.thread i).state ≠ THREAD_READY)
    (h2 : st ≠ THREAD_READY)
    (h3 : st = THREAD_RUNNING → (s.thread i).sleep_until = 0)
    (h4 : ∀ x, (s.thread i).env = Context.in_terminate x →
      st = THREAD_TERMINATED ∨ st = THREAD_UNUSED) :
    QueueInv N (s.set_state i st) :=
  QueueInv_set_thread_idle N s i _ h h1 h2 h3 h4

/-- A slot that is not `READY` receives a `READY` TCB and its index is
appended to the queue, `c` being an index that is not in the queue either. -/
theorem QueueInv_ready_enqueue (N : Nat) (s : State) (i c : Nat) (t : thread_t)
    (hw : queue_wf N s) (hlen : s.g_thread.length = N) (h : QueueInv N s)
    (hi : i < N) (hc : c < N) (hic : i ≠ c)
    (h1 : (s.thread i).state ≠ THREAD_READY)
    (hcr : (s.thread c).state ≠ THREAD_READY)
    (h2 : t.state = THREAD_READY) (h3 : t.sleep_until = 0)
    (h4 : ∀ x, t.env ≠ Context.in_terminate x) :
    QueueInv N (enqueue N (s.set_thread i t) i) := by
  have hil : i ∉ queue_list N s := fun e => h1 ((h.mem i).mp e)
  have hcl : c ∉ queue_list N s := fun e => hcr ((h.mem c).mp e)
  have hq : queue_list N (enqueue N (s.set_thread i t) i) = queue_list N s ++ [i] :=
    enqueue_fresh N (s.set_thread i t) i c hw h.nodup hi hc hic hil hcl
  have hth : ∀ j, (enqueue N (s.set_thread i t) i).thread j
      = if j = i then t else s.thread j := by
    intro j
    rw [thread_enqueue, thread_set_thread]
    have : i < s.g_thread.length := by omega
    simp [this]
  refine ⟨?_, ?_, ?_, ?_⟩
  · rw [hq]
    exact List.Nodup.append h.nodup (List.nodup_singleton i)
      (by simpa [List.disjoint_singleton] using hil)
  · intro j
    rw [hq, hth j, List.mem_append, List.mem_singleton]
    by_cases hj : j = i
    · simp [hj, h2]
    · simp only [hj, or_false, if_false]; exact h.mem j
  · intro j hj
    rw [hth j] at hj ⊢
    by_cases hji : j = i
    · simp [hji, h3]
    · simp only [hji, if_false] at hj ⊢; exact h.awake j hj
  · intro j x hx
    rw [hth j] at hx ⊢
    by_cases hji : j = i
    · simp only [hji, if_true] at hx; exact absurd hx (h4 x)
    · simp only [hji, if_false] at hx ⊢; exact h.env_term j x hx

theorem SweepInv_wake_step (N : Nat) (s : State) (c i : Nat) (hi : i < N)
    (h : SweepInv N s c) : SweepInv N (wake_step N s i) c := by
  by_cases hd : is_due s i
  · have hic : i ≠ c := fun e => h.not_due (e ▸ hd)
    have hres : wake_step N s i
        = enqueue N (s.set_thread i
            { s.thread i with sleep_until := 0, state := THREAD_READY }) i := by
      unfold wake_step
      exact if_pos hd
    have hth := wake_step_thread N s i
    have hcth : (wake_step N s i).thread c = s.thread c := by
      rw [hth c]
      have : ¬ (c = i ∧ is_due s i) := fun e => hic e.1.symm
      rw [if_neg this]
    refine ⟨wake_step_queue_wf N s i hi h.wf, ?_, h.hc, ?_, ?_, ?_⟩
    · rw [(wake_step_frame N s i).2.2.2.2]; exact h.len
    · rw [hres]
      apply QueueInv_ready_enqueue N s i c _ h.wf h.len h.q hi h.hc hic
      · rw [hd.1]; decide
      · exact h.not_ready
      · rfl
      · rfl
      · intro x hx
        have := h.q.env_term i x hx
        rw [hd.1] at this
        rcases this with e | e <;> cases e
    · rw [hcth]; exact h.not_ready
    · intro hdc
      apply h.not_due
      unfold is_due at hdc ⊢
      rw [hcth, (wake_step_frame N s i).2.1] at hdc
      exact hdc
  · have hres : wake_step N s i = s := by
      unfold wake_step
      exact if_neg hd
    rw [hres]; exact h

theorem SweepInv_fold (N : Nat) (c : Nat) (l : List Nat) (hl : ∀ i ∈ l, i < N) :
    ∀ s : State, SweepInv N s c → SweepInv N (l.foldl (wake_step N) s) c := by
  induction l with
  | nil => intro s h; exact h
  | cons i l ih =>
    intro s h
    rw [List.foldl_cons]
    exact ih (fun j hj => hl j (List.mem_cons_of_mem _ hj)) _
      (SweepInv_wake_step N s c i (hl i (List.mem_cons_self _ _)) h)

theorem SweepInv_wake_sweep (N : Nat) (s : State) (c : Nat) (h : SweepInv N s c) :
    SweepInv N (wake_sweep N s) c := by
  unfold wake_sweep
  apply SweepInv_fold N c _ _ s h
  intro i hi
  rw [List.mem_range'_1] at hi
  omega

theorem select_loop_empty (N : Nat) (k : Context) (start prev fuel : Nat) (s : State)
    (he : s.q_head = s.q_tail) :
    select_loop N k start prev (fuel + 1) s = some (s, false) := by
  simp [select_loop, dequeue_empty N s he]

theorem schedule_next_empty (N : Nat) (k : Context) (s : State) (c : Nat)
    (hw : queue_wf N (wake_sweep N s)) (hc : s.g_current = some c)
    (he : queue_list N (wake_sweep N s) = []) :
    schedule_next N k s = some (wake_sweep N s, false) := by
  rw [schedule_next_eq N k s c hc]
  have hht := (queue_list_eq_nil N _ hw.2.1 hw.2.2.1).mp he
  have hN : 0 < N := by have := hw.2.1; omega
  have h1 := select_loop_empty N k s.q_head c (N - 1) (wake_sweep N s) hht
  rw [show N - 1 + 1 = N by omega] at h1
  exact h1

/-- A scheduler pass under the queue discipline.  Every queue entry is `READY`,
so the head of the queue after the sweep is selected; the pass ends without a
switch only when the queue is empty, and then the caller is still `RUNNING`. -/
theorem OrderlyInv_schedule_next (N : Nat) (k : Context) (s s' : State) (sw : Bool) (c : Nat)
    (hI : Inv N s) (h : SweepInv N s c) (hc : s.g_current = some c)
    (hk : ∀ x, k = Context.in_terminate x → (s.thread c).state = THREAD_TERMINATED)
    (hidle : (s.thread c).state ≠ THREAD_RUNNING → queue_list N (wake_sweep N s) ≠ [])
    (hr : schedule_next N k s = some (s', sw)) :
    OrderlyInv N s' ∧ resume_context s' = s' ∧
      (sw = false → (s.thread c).state = THREAD_RUNNING) := by
  have hW := SweepInv_wake_sweep N s c h
  have hwc : (wake_sweep N s).g_current = some c := by
    rw [(wake_sweep_frame N s).1]; exact hc
  have hcth : (wake_sweep N s).thread c = s.thread c := by
    rw [wake_sweep_thread]
    have : ¬ ((1 ≤ c ∧ c < N) ∧ is_due s c) := fun e => h.not_due e.2
    rw [if_neg this]
  obtain ⟨c', c1, c2, c3⟩ := hI.current
  have hcc : c' = c := by rw [hc] at c1; exact (Option.some.inj c1).symm
  subst hcc
  cases hql : queue_list N (wake_sweep N s) with
  | nil =>
    have hres := schedule_next_empty N k s c' hW.wf hc hql
    rw [hres] at hr
    simp only [Option.some.injEq, Prod.mk.injEq] at hr
    obtain ⟨rfl, rfl⟩ := hr
    have hrun : (s.thread c').state = THREAD_RUNNING := by
      by_contra hn
      exact hidle hn hql
    refine ⟨⟨hW.q, ?_⟩, ?_, fun _ => hrun⟩
    · intro c hcur
      rw [hwc] at hcur
      rw [← Option.some.inj hcur, hcth]; exact hrun
    · apply resume_context_id _ c' hwc
      intro x hx
      have := hW.q.env_term c' x hx
      rw [hcth, hrun] at this
      rcases this with e | e <;> cases e
  | cons sel post =>
    have hselr : ((wake_sweep N s).thread sel).state = THREAD_READY :=
      (hW.q.mem sel).mp (by rw [hql]; exact List.mem_cons_self _ _)
    obtain ⟨s1, r1, r2, _, _, r5, r6, r7, r8⟩ :=
      schedule_next_switch N k s c' [] post sel h.wf h.len hc c2
        (by rw [hql]; rfl) (fun x hx => absurd hx (List.not_mem_nil x)) hselr
    rw [r1] at hr
    simp only [Option.some.injEq, Prod.mk.injEq] at hr
    obtain ⟨rfl, rfl⟩ := hr
    have hs1 : ∀ j, s1.thread j = (wake_sweep N s).thread j := same_table_thread r2
    have hcs : ¬ c' = sel := by
      intro e
      apply hW.not_ready
      rw [e]; exact hselr
    have hsc : ¬ sel = c' := fun e => hcs e.symm
    have hsw : ∀ j, (switch_to N k c' s1 sel).thread j
        = if j = c' then
            { s1.thread c' with
                state := if c' = sel ∨ (s1.thread c').state = THREAD_RUNNING then THREAD_READY
                         else (s1.thread c').state,
                env := k }
          else if j = sel then { s1.thread sel with state := THREAD_RUNNING }
          else s1.thread j := fun j => switch_to_thread N k c' s1 sel j r5 r6
    have hnd := hW.q.nodup
    rw [hql, List.nodup_cons] at hnd
    have hcq : c' ∉ post := by
      intro e
      apply hW.not_ready
      exact (hW.q.mem c').mp (by rw [hql]; exact List.mem_cons_of_mem _ e)
    have htid : ((wake_sweep N s).thread c').tid = c' := by rw [hcth]; exact c3
    have hq' : queue_list N (switch_to N k c' s1 sel)
        = post ++ (if (s.thread c').state = THREAD_RUNNING then [c'] else []) := by
      rw [r8, hcth, c3]
      simp [hcs]
    have hstate : ∀ j, ((switch_to N k c' s1 sel).thread j).state
        = if j = c' then
            (if (s.thread c').state = THREAD_RUNNING then THREAD_READY else (s.thread c').state)
          else if j = sel then THREAD_RUNNING
          else ((wake_sweep N s).thread j).state := by
      intro j
      rw [hsw j]
      by_cases hjc : j = c'
      · simp only [hjc, if_true, hs1, hcth, hcs, false_or]
      · by_cases hjs : j = sel
        · simp [hjc, hjs, hsc]
        · simp only [hjc, hjs, if_false, hs1]
    have hsleep : ∀ j, ((switch_to N k c' s1 sel).thread j).sleep_until
        = ((wake_sweep N s).thread j).sleep_until := by
      intro j
      rw [hsw j]
      by_cases hjc : j = c'
      · simp only [hjc, if_true, hs1]
      · by_cases hjs : j = sel
        · simp only [hjs, hsc, if_false, if_true, hs1]
        · simp only [hjc, hjs, if_false, hs1]
    have henv : ∀ j, ((switch_to N k c' s1 sel).thread j).env
        = if j = c' then k else ((wake_sweep N s).thread j).env := by
      intro j
      rw [hsw j]
      by_cases hjc : j = c'
      · simp only [hjc, if_true]
      · by_cases hjs : j = sel
        · simp only [hjs, hsc, if_false, if_true, hs1]
        · simp only [hjc, hjs, if_false, hs1]
    have hselenv : ∀ x, ((wake_sweep N s).thread sel).env ≠ Context.in_terminate x := by
      intro x hx
      have := hW.q.env_term sel x hx
      rw [hselr] at this
      rcases this with e | e <;> cases e
    refine ⟨⟨⟨?_, ?_, ?_, ?_⟩, ?_⟩, ?_, fun e => by cases e⟩
    · rw [hq']
      split
      · apply List.Nodup.append hnd.2 (List.nodup_singleton c')
        simpa [List.disjoint_singleton] using hcq
      · simpa using hnd.2
    · intro j
      rw [hq', hstate j]
      by_cases hjc : j = c'
      · subst hjc
        by_cases hrun : (s.thread j).state = THREAD_RUNNING
        · simp [hrun]
        · have hnr : (s.thread j).state ≠ THREAD_READY := by rw [← hcth]; exact hW.not_ready
          simp [hrun, hcq, hnr]
      · by_cases hjs : j = sel
        · subst hjs
          have : j ∉ post := hnd.1
          by_cases hrun : (s.thread c').state = THREAD_RUNNING
          · simp [hrun, hjc, this]
          · simp [hrun, hjc, this]
        · have hm := hW.q.mem j
          rw [hql, List.mem_cons] at hm
          have hm' : j ∈ post ↔ ((wake_sweep N s).thread j).state = THREAD_READY := by
            rw [← hm]
            exact ⟨fun e => Or.inr e, fun e => e.resolve_left hjs⟩
          by_cases hrun : (s.thread c').state = THREAD_RUNNING
          · simp [hrun, hjc, hjs, hm']
          · simp [hrun, hjc, hjs, hm']
    · intro j hj
      rw [hsleep j]
      rw [hstate j] at hj
      by_cases hjc : j = c'
      · subst hjc
        apply hW.q.awake j
        rw [hcth]
        by_cases hrun : (s.thread j).state = THREAD_RUNNING
        · exact Or.inr hrun
        · simpa [hrun] using hj
      · by_cases hjs : j = sel
        · subst hjs
          exact hW.q.awake j (Or.inl hselr)
        · simp only [hjc, hjs, if_false] at hj
          exact hW.q.awake j hj
    · intro j x hx
      rw [henv j] at hx
      rw [hstate j]
      by_cases hjc : j = c'
      · subst hjc
        simp only [if_true] at hx
        have ht := hk x hx
        simp [ht]
      · simp only [hjc, if_false] at hx
        by_cases hjs : j = sel
        · subst hjs
          exact absurd hx (hselenv x)
        · simp only [hjc, hjs, if_false]
          exact hW.q.env_term j x hx
    · intro c hcur
      rw [r7] at hcur
      rw [← Option.some.inj hcur, hstate sel]
      simp [hsc]
    · apply resume_context_id _ sel r7
      intro x
      rw [henv sel]
      simp only [hsc, if_false]
      exact hselenv x

/-- The table is changed in one slot, which is not `READY` before or after, and
the queue is the same. -/
theorem QueueInv_update_idle (N : Nat) (s s' : State) (i : Nat) (t : thread_t)
    (h : QueueInv N s) (hq : queue_list N s' = queue_list N s)
    (hth : ∀ j, s'.thread j = if j = i then t else s.thread j)
    (h1 : (s.thread i).state ≠ THREAD_READY)
    (h2 : t.state ≠ THREAD_READY)
    (h3 : t.state = THREAD_RUNNING → t.sleep_until = 0)
    (h4 : ∀ x, t.env = Context.in_terminate x →
      t.state = THREAD_TERMINATED ∨ t.state = THREAD_UNUSED) :
    QueueInv N s' := by
  refine ⟨?_, ?_, ?_, ?_⟩
  · rw [hq]; exact h.nodup
  · intro j
    rw [hq, hth j]
    by_cases hj : j = i
    · rw [if_pos hj, h.mem j, hj]
      exact ⟨fun e => absurd e h1, fun e => absurd e h2⟩
    · rw [if_neg hj]; exact h.mem j
  · intro j hj
    rw [hth j] at hj ⊢
    by_cases hji : j = i
    · rw [if_pos hji] at hj ⊢
      rcases hj with e | e
      · exact absurd e h2
      · exact h3 e
    · rw [if_neg hji] at hj ⊢
      exact h.awake j hj
  · intro j x hx
    rw [hth j] at hx ⊢
    by_cases hji : j = i
    · rw [if_pos hji] at hx ⊢
      exact h4 x hx
    · rw [if_neg hji] at hx ⊢
      exact h.env_term j x hx

theorem pass_has_ready (N : Nat) (st : State) (c : Nat) (h : SweepInv N st c)
    (h0 : (st.thread 0).state = THREAD_READY) : queue_list N (wake_sweep N st) ≠ [] := by
  have hW := SweepInv_wake_sweep N st c h
  have h0' : ((wake_sweep N st).thread 0).state = THREAD_READY := by
    rw [wake_sweep_thread]
    simp [h0]
  intro e
  have := (hW.q.mem 0).mpr h0'
  rw [e] at this
  exact absurd this (List.not_mem_nil 0)

/-- In an orderly state the main thread waits in the queue whenever another
thread runs. -/
theorem main_ready_of_other (s : State) (c : Nat) (hR : RunInv s)
    (hc : s.g_current = some c) (hc0 : c ≠ 0) : (s.thread 0).state = THREAD_READY := by
  rcases hR.main_state with e | e
  · exact e
  · have := hR.run_cur 0 e
    rw [hc] at this
    exact absurd (Option.some.inj this) hc0

theorem running_env (N : Nat) (s : State) (c : Nat) (h : QueueInv N s)
    (hrun : (s.thread c).state = THREAD_RUNNING) :
    ∀ x, (s.thread c).env ≠ Context.in_terminate x := by
  intro x hx
  have := h.env_term c x hx
  rw [hrun] at this
  rcases this with e | e <;> cases e

theorem OrderlyInv_init (N : Nat) (q : Int) (hN : 0 < N) (hq : 0 < q) :
    OrderlyInv N (uthread_init N (State.static_init N) q).1 := by
  have hth := uthread_init_thread N (State.static_init N) q hN hq
  have hcur := uthread_init_current N (State.static_init N) q hq
  have hI := Inv_init N (State.static_init N) q hN (queue_wf_static_init N hN) hq
  have hq' : ¬ q ≤ 0 := by omega
  have hql : queue_list N (uthread_init N (State.static_init N) q).1 = [] := by
    rw [queue_list_eq_nil N _ hI.queue.2.1 hI.queue.2.2.1]
    simp [uthread_init, hq', State.static_init]
  refine ⟨⟨?_, ?_, ?_, ?_⟩, ?_⟩
  · rw [hql]; exact List.nodup_nil
  · intro i
    rw [hql, hth i]
    by_cases h0 : i = 0
    · simp [h0]
    · simp [h0, thread_t.zero]
  · intro i _
    rw [hth i]
    by_cases h0 : i = 0
    · simp [h0]
    · simp [h0, thread_t.zero]
  · intro i x hx
    rw [hth i] at hx
    by_cases h0 : i = 0
    · simp [h0] at hx
    · simp [h0, thread_t.zero] at hx
  · intro c hc
    rw [hcur] at hc
    rw [← Option.some.inj hc, hth 0]
    rfl

theorem OrderlyInv_spawn (N : Nat) (s : State) (e : Nat) (hI : Inv N s)
    (h : OrderlyInv N s) : OrderlyInv N (uthread_spawn N s e).1 := by
  unfold uthread_spawn
  split
  · exact h
  · split
    · exact h
    · next t hf =>
      have ht := (find_unused_eq_some N s t).mp hf
      obtain ⟨c, c1, c2, _⟩ := hI.current
      have hrun := h.cur_run c c1
      have htc : t ≠ c := by
        intro e'
        rw [e', hrun] at ht
        exact absurd ht.2.2.1 (by decide)
      simp only
      refine ⟨?_, ?_⟩
      · apply QueueInv_ready_enqueue N s t c _ hI.queue hI.table_len h.q ht.2.1 c2 htc
        · rw [ht.2.2.1]; decide
        · rw [hrun]; decide
        · rfl
        · rfl
        · intro x hx; cases hx
      · intro c' hc'
        have hcc : c' = c := by
          have : s.g_current = some c' := hc'
          rw [c1] at this
          exact (Option.some.inj this).symm
        rw [hcc, thread_enqueue, thread_set_thread_ne _ _ _ _ (fun e' => htc e'.symm)]
        exact hrun

theorem OrderlyInv_resume (N : Nat) (s : State) (tid : Int) (hI : Inv N s)
    (h : OrderlyInv N s)
    (hg : ¬ ((s.thread tid.toNat).state = THREAD_BLOCKED
      ∧ (s.thread tid.toNat).sleep_until ≠ 0)) :
    OrderlyInv N (uthread_resume N s tid).1 := by
  unfold uthread_resume
  split
  · exact h
  · next hv =>
    obtain ⟨v1, v2, _⟩ := valid_tid_slot N s tid hI hv
    split
    · next hb =>
      obtain ⟨c, c1, c2, _⟩ := hI.current
      have hrun := h.cur_run c c1
      have htc : tid.toNat ≠ c := by
        intro e'
        rw [e', hrun] at hb
        cases hb
      have hsl : (s.thread tid.toNat).sleep_until = 0 := by
        by_contra hne
        exact hg ⟨hb, hne⟩
      simp only
      refine ⟨?_, ?_⟩
      · unfold State.set_state
        apply QueueInv_ready_enqueue N s tid.toNat c _ hI.queue hI.table_len h.q v1 c2 htc
        · rw [hb]; decide
        · rw [hrun]; decide
        · rfl
        · exact hsl
        · intro x hx
          have := h.q.env_term tid.toNat x hx
          rw [hb] at this
          rcases this with e' | e' <;> cases e'
      · intro c' hc'
        have hcc : c' = c := by
          have : s.g_current = some c' := hc'
          rw [c1] at this
          exact (Option.some.inj this).symm
        rw [hcc, thread_enqueue]
        unfold State.set_state
        rw [thread_set_thread_ne _ _ _ _ (fun e' => htc e'.symm)]
        exact hrun
    · exact h

theorem SweepInv_of_mark (N : Nat) (s st : State) (c : Nat) (t : thread_t)
    (hI : Inv N s) (hIt : Inv N st) (h : OrderlyInv N s) (hc : s.g_current = some c)
    (hq : queue_list N st = queue_list N s)
    (hth : ∀ j, st.thread j = if j = c then t else s.thread j)
    (h2 : t.state ≠ THREAD_READY)
    (h3 : t.state = THREAD_RUNNING → t.sleep_until = 0)
    (h4 : ∀ x, t.env = Context.in_terminate x →
      t.state = THREAD_TERMINATED ∨ t.state = THREAD_UNUSED)
    (h5 : ¬ (t.state = THREAD_BLOCKED ∧ t.sleep_until ≠ 0
      ∧ t.sleep_until ≤ st.g_total_quantums)) :
    SweepInv N st c := by
  obtain ⟨c', c1, c2, _⟩ := hI.current
  have hcc : c' = c := by rw [hc] at c1; exact (Option.some.inj c1).symm
  subst hcc
  have hrun := h.cur_run c' hc
  refine ⟨hIt.queue, hIt.table_len, c2, ?_, ?_, ?_⟩
  · exact QueueInv_update_idle N s st c' t h.q hq hth (by rw [hrun]; decide) h2 h3 h4
  · rw [hth c', if_pos rfl]; exact h2
  · unfold is_due
    rw [hth c', if_pos rfl]
    exact h5

theorem OrderlyInv_tick (N : Nat) (s s1 : State) (hI : Inv N s) (h : OrderlyInv N s)
    (hr : timer_handler N s = some s1) : OrderlyInv N s1 := by
  obtain ⟨c, c1, c2, c3⟩ := hI.current
  have hrun := h.cur_run c c1
  have hcl : c < s.g_thread.length := by rw [hI.table_len]; exact c2
  obtain ⟨f1, f2, f3, f4, f5, f6⟩ := tick_count_frame s c
  have hIt := Inv_tick_count N s c hI c2 c3
  have hS : SweepInv N (tick_count s c) c :=
    SweepInv_of_mark N s _ c _ hI hIt h c1 (queue_list_congr N s _ f3 f4 f5)
      (fun j => tick_count_thread s c j hcl)
      (by show (s.thread c).state ≠ THREAD_READY; rw [hrun]; decide)
      (fun _ => h.q.awake c (Or.inr hrun))
      (fun x hx => absurd hx (running_env N s c h.q hrun x))
      (by
        intro e
        have e1 : (s.thread c).state = THREAD_BLOCKED := e.1
        rw [hrun] at e1
        cases e1)
  have hst : ((tick_count s c).thread c).state = THREAD_RUNNING := by
    rw [tick_count_thread s c c hcl, if_pos rfl]; exact hrun
  unfold timer_handler at hr
  rw [c1] at hr
  simp only at hr
  split at hr
  · simp at hr
  · next s2 hs =>
    simp only [Option.some.injEq] at hr
    obtain ⟨o1, o2, _⟩ := OrderlyInv_schedule_next N Context.in_timer _ s2 true c hIt hS
      (f1.trans c1) (fun x hx => by cases hx) (fun e => absurd hst e) hs
    rw [← hr, o2]; exact o1
  · next s2 hs =>
    simp only [Option.some.injEq] at hr
    obtain ⟨o1, _, _⟩ := OrderlyInv_schedule_next N Context.in_timer _ s2 false c hIt hS
      (f1.trans c1) (fun x hx => by cases hx) (fun e => absurd hst e) hs
    rw [← hr]; exact o1

theorem OrderlyInv_sleep (N : Nat) (s s1 : State) (n : Int) (o : Outcome)
    (hI : Inv N s) (hR : RunInv s) (h : OrderlyInv N s) (hn : 1 ≤ n)
    (hr : uthread_sleep N s n = some (s1, o)) : OrderlyInv N s1 := by
  obtain ⟨c, c1, c2, c3⟩ := hI.current
  have hrun := h.cur_run c c1
  have hcl : c < s.g_thread.length := by rw [hI.table_len]; exact c2
  unfold uthread_sleep at hr
  rw [c1] at hr
  simp only at hr
  split at hr
  · simp only [Option.some.injEq, Prod.mk.injEq] at hr; rw [← hr.1]; exact h
  · next hne =>
    have hc0 : c ≠ 0 := by rw [c3] at hne; exact hne
    have hIt := Inv_sleep_mark N s c n hI c2 c3
    have hcur : (sleep_mark s c n).g_current = some c := c1
    have htot : (sleep_mark s c n).g_total_quantums = s.g_total_quantums := rfl
    have hS : SweepInv N (sleep_mark s c n) c :=
      SweepInv_of_mark N s _ c _ hI hIt h c1 rfl
        (fun j => sleep_mark_thread s c n j hcl)
        (fun e => by cases e) (fun e => by cases e) (fun x hx => absurd hx (running_env N s c h.q hrun x))
        (by
          rw [htot]
          intro e
          have := e.2.2
          simp only at this
          omega)
    have h0 : ((sleep_mark s c n).thread 0).state = THREAD_READY := by
      rw [sleep_mark_thread s c n 0 hcl, if_neg (fun e => hc0 e.symm)]
      exact main_ready_of_other s c hR c1 hc0
    have hidle := fun (_ : ((sleep_mark s c n).thread c).state ≠ THREAD_RUNNING) =>
      pass_has_ready N _ c hS h0
    split at hr
    · simp at hr
    · next s2 hs =>
      simp only [Option.some.injEq, Prod.mk.injEq] at hr
      obtain ⟨o1, o2, _⟩ := OrderlyInv_schedule_next N Context.in_sleep _ s2 true c hIt hS
        hcur (fun x hx => by cases hx) hidle hs
      rw [← hr.1, o2]; exact o1
    · next s2 hs =>
      simp only [Option.some.injEq, Prod.mk.injEq] at hr
      obtain ⟨o1, _, _⟩ := OrderlyInv_schedule_next N Context.in_sleep _ s2 false c hIt hS
        hcur (fun x hx => by cases hx) hidle hs
      rw [← hr.1]; exact o1

theorem OrderlyInv_block (N : Nat) (s s1 : State) (tid : Int) (o : Outcome)
    (hI : Inv N s) (hR : RunInv s) (h : OrderlyInv N s)
    (g1 : (s.thread tid.toNat).state ≠ THREAD_READY)
    (g2 : (s.thread tid.toNat).state ≠ THREAD_TERMINATED)
    (hr : uthread_block N s tid = some (s1, o)) : OrderlyInv N s1 := by
  unfold uthread_block at hr
  split at hr
  · simp only [Option.some.injEq, Prod.mk.injEq] at hr; rw [← hr.1]; exact h
  · next hv =>
    have hv' : ¬ (tid < 0 ∨ tid ≥ (N : Int) ∨ (s.thread tid.toNat).state = THREAD_UNUSED) :=
      fun e => hv (Or.inr e)
    have hne : ¬ tid = 0 := fun e => hv (Or.inl e)
    have hnu : (s.thread tid.toNat).state ≠ THREAD_UNUSED := fun e => hv' (Or.inr (Or.inr e))
    obtain ⟨v1, v2, v3⟩ := valid_tid_slot N s tid hI hv'
    have hn0 : tid.toNat ≠ 0 := by omega
    split at hr
    · simp only [Option.some.injEq, Prod.mk.injEq] at hr; rw [← hr.1]; exact h
    · next hnb =>
      have hrunT : (s.thread tid.toNat).state = THREAD_RUNNING := by
        cases hst : (s.thread tid.toNat).state with
        | THREAD_UNUSED => exact absurd hst hnu
        | THREAD_READY => exact absurd hst g1
        | THREAD_RUNNING => rfl
        | THREAD_BLOCKED => exact absurd hst hnb
        | THREAD_TERMINATED => exact absurd hst g2
      have hcur := hR.run_cur _ hrunT
      have hcl : tid.toNat < s.g_thread.length := by rw [hI.table_len]; exact v1
      rw [hcur] at hr
      simp only at hr
      split at hr
      · have hIt : Inv N (s.set_state tid.toNat THREAD_BLOCKED) :=
          Inv_set_state N s _ _ hI v1 v2
        have hS : SweepInv N (s.set_state tid.toNat THREAD_BLOCKED) tid.toNat :=
          SweepInv_of_mark N s _ tid.toNat
            { s.thread tid.toNat with state := THREAD_BLOCKED } hI hIt h hcur rfl
            (fun j => by rw [thread_set_state]; simp [hcl])
            (by simp) (by simp)
            (fun x hx => absurd hx (running_env N s _ h.q hrunT x))
            (by
              intro e
              exact e.2.1 (h.q.awake _ (Or.inr hrunT)))
        have h0 : ((s.set_state tid.toNat THREAD_BLOCKED).thread 0).state = THREAD_READY := by
          rw [thread_set_state]
          have : ¬ (0 = tid.toNat ∧ tid.toNat < s.g_thread.length) := fun e => hn0 e.1.symm
          rw [if_neg this]
          exact main_ready_of_other s _ hR hcur hn0
        have hidle := fun (_ : ((s.set_state tid.toNat THREAD_BLOCKED).thread tid.toNat).state
            ≠ THREAD_RUNNING) => pass_has_ready N _ _ hS h0
        split at hr
        · simp at hr
        · next s2 hs =>
          simp only [Option.some.injEq, Prod.mk.injEq] at hr
          obtain ⟨o1, o2, _⟩ := OrderlyInv_schedule_next N Context.in_block _ s2 true _ hIt hS
            hcur (fun x hx => by cases hx) hidle hs
          rw [← hr.1, o2]; exact o1
        · next s2 hs =>
          simp only [Option.some.injEq, Prod.mk.injEq] at hr
          obtain ⟨o1, _, _⟩ := OrderlyInv_schedule_next N Context.in_block _ s2 false _ hIt hS
            hcur (fun x hx => by cases hx) hidle hs
          rw [← hr.1]; exact o1
      · next hneq =>
        exfalso
        apply hneq
        rw [v2]; exact v3.symm

theorem OrderlyInv_terminate (N : Nat) (s s1 : State) (tid : Int) (o : Outcome)
    (hI : Inv N s) (hR : RunInv s) (h : OrderlyInv N s)
    (hex : ∀ st, o ≠ Outcome.exited st)
    (g1 : (s.thread tid.toNat).state ≠ THREAD_READY)
    (hr : uthread_terminate N s tid = some (s1, o)) : OrderlyInv N s1 := by
  unfold uthread_terminate at hr
  split at hr
  · simp only [Option.some.injEq, Prod.mk.injEq] at hr; rw [← hr.1]; exact h
  · next hv =>
    obtain ⟨v1, v2, v3⟩ := valid_tid_slot N s tid hI hv
    split at hr
    · simp only [Option.some.injEq, Prod.mk.injEq] at hr
      exact absurd hr.2.symm (hex 0)
    · next hne =>
      have hn0 : tid.toNat ≠ 0 := by omega
      have hcl : tid.toNat < s.g_thread.length := by rw [hI.table_len]; exact v1
      have hfree : (s.thread tid.toNat).state ≠ THREAD_RUNNING →
          OrderlyInv N (s.set_state tid.toNat THREAD_UNUSED) := by
        intro hnr
        refine ⟨QueueInv_set_state_idle N s _ _ h.q g1 (by decide) (fun e => by cases e)
          (fun _ _ => Or.inr rfl), ?_⟩
        intro c hc
        have hc' : s.g_current = some c := hc
        have hrun := h.cur_run c hc'
        have hct : ¬ (c = tid.toNat ∧ tid.toNat < s.g_thread.length) := by
          intro e
          apply hnr
          rw [← e.1]; exact hrun
        rw [thread_set_state, if_neg hct]
        exact hrun
      split at hr
      · next hrunT =>
        have hcur := hR.run_cur _ hrunT
        rw [hcur] at hr
        simp only at hr
        split at hr
        · have hIt : Inv N (s.set_state tid.toNat THREAD_TERMINATED) :=
            Inv_set_state N s _ _ hI v1 v2
          have hthc : ((s.set_state tid.toNat THREAD_TERMINATED).thread tid.toNat).state
              = THREAD_TERMINATED := by
            rw [thread_set_state]; simp [hcl]
          have hS : SweepInv N (s.set_state tid.toNat THREAD_TERMINATED) tid.toNat :=
            SweepInv_of_mark N s _ tid.toNat
              { s.thread tid.toNat with state := THREAD_TERMINATED } hI hIt h hcur rfl
              (fun j => by rw [thread_set_state]; simp [hcl])
              (by simp) (by simp)
              (fun _ _ => Or.inl rfl)
              (by
                intro e
                have := e.1
                cases this)
          have h0 : ((s.set_state tid.toNat THREAD_TERMINATED).thread 0).state
              = THREAD_READY := by
            rw [thread_set_state]
            have : ¬ (0 = tid.toNat ∧ tid.toNat < s.g_thread.length) := fun e => hn0 e.1.symm
            rw [if_neg this]
            exact main_ready_of_other s _ hR hcur hn0
          have hidle := fun (_ : ((s.set_state tid.toNat THREAD_TERMINATED).thread
              tid.toNat).state ≠ THREAD_RUNNING) => pass_has_ready N _ _ hS h0
          split at hr
          · simp at hr
          · next s2 hs =>
            simp only [Option.some.injEq, Prod.mk.injEq] at hr
            obtain ⟨o1, o2, _⟩ := OrderlyInv_schedule_next N (Context.in_terminate tid.toNat)
              _ s2 true _ hIt hS hcur (fun _ _ => hthc) hidle hs
            rw [← hr.1, o2]; exact o1
          · next s2 hs =>
            exfalso
            obtain ⟨_, _, o3⟩ := OrderlyInv_schedule_next N (Context.in_terminate tid.toNat)
              _ s2 false _ hIt hS hcur (fun _ _ => hthc) hidle hs
            have := o3 rfl
            rw [hthc] at this
            cases this
        · next hneq => exact (hneq (by trivial)).elim
      · next hnr =>
        simp only [Option.some.injEq, Prod.mk.injEq] at hr
        rw [← hr.1]; exact hfree hnr

theorem Step_of_OrderlyStep (N : Nat) (s s1 : State) (h : OrderlyStep N s s1) :
    Step N s s1 := by
  cases h with
  | spawn e => exact Step.spawn s e
  | terminate _ tid o hr hne _ => exact Step.terminate s s1 tid o hr hne
  | block _ tid o hr _ _ => exact Step.block s s1 tid o hr
  | resume tid _ => exact Step.resume s tid
  | sleep _ n o hr _ _ => exact Step.sleep s s1 n o hr
  | tick _ hr _ _ => exact Step.tick s s1 hr

theorem Reachable_of_OrderlyReachable (N : Nat) (s : State) (h : OrderlyReachable N s) :
    Reachable N s := by
  induction h with
  | init q hq => exact Reachable.init q hq
  | step s s1 _ hs ih => exact Reachable.step s s1 ih (Step_of_OrderlyStep N s s1 hs)

theorem OrderlyInv_step (N : Nat) (s s1 : State) (hI : Inv N s) (hR : RunInv s)
    (h : OrderlyInv N s) (hs : OrderlyStep N s s1) : OrderlyInv N s1 := by
  cases hs with
  | spawn e => exact OrderlyInv_spawn N s e hI h
  | terminate _ tid o hr hne g1 => exact OrderlyInv_terminate N s s1 tid o hI hR h hne g1 hr
  | block _ tid o hr g1 g2 => exact OrderlyInv_block N s s1 tid o hI hR h g1 g2 hr
  | resume tid hg => exact OrderlyInv_resume N s tid hI h hg
  | sleep _ n o hr hn _ => exact OrderlyInv_sleep N s s1 n o hI hR h hn hr
  | tick _ hr _ _ => exact OrderlyInv_tick N s s1 hI h hr

theorem OrderlyInv_of_OrderlyReachable (N : Nat) (s : State) (hN : 0 < N)
    (h : OrderlyReachable N s) : OrderlyInv N s := by
  induction h with
  | init q hq => exact OrderlyInv_init N q hN hq
  | step s s1 hr hs ih =>
    have hreach := Reachable_of_OrderlyReachable N s hr
    exact OrderlyInv_step N s s1 (Inv_of_Reachable N s hN hreach)
      (RunInv_of_Reachable N s hN hreach) ih hs

theorem nodup_length_add_one (N : Nat) (l : List Nat) (a : Nat)
    (hl : l.Nodup) (hlt : ∀ x ∈ l, x < N) (ha : a < N) (hal : a ∉ l) : l.length + 1 ≤ N := by
  have hnd : (a :: l).Nodup := List.nodup_cons.mpr ⟨hal, hl⟩
  have hsub : (a :: l).toFinset ⊆ Finset.range N := by
    intro x hx
    simp only [List.toFinset_cons, Finset.mem_insert, List.mem_toFinset] at hx
    rw [Finset.mem_range]
    rcases hx with rfl | hx
    · exact ha
    · exact hlt x hx
  have hcard := Finset.card_le_card hsub
  rw [List.toFinset_card_of_nodup hnd, Finset.card_range] at hcard
  simpa using hcard

/-- C14 (amended): the queue discipline of orderly runs in which no `int`
addition overflows.  In every state reachable from a successful `uthread_init`
at program start by timer ticks (arriving while `total_quantums` and the
`quantums` fields are below `INT_MAX`), `uthread_spawn`, `uthread_sleep(n)`
with `n >= 1` and `total_quantums + n <= INT_MAX`, `uthread_block` and
`uthread_terminate` applied to the calling thread or to a thread that is not
`READY` (`uthread_block` not to a `TERMINATED` one) and `uthread_resume` applied
to a thread that is not sleeping: no index stands more than once in the ready
queue, every index whose thread is `READY` stands in it exactly once, every
index in it belongs to a `READY` thread, the current thread is `RUNNING` and
not in the queue, and the queue holds at most `N - 1` entries, which is what the
ring can hold. -/
theorem ready_queue_discipline (N : Nat) (s : State) (hN : 0 < N)
    (h : OrderlyReachable N s) :
    (queue_list N s).Nodup ∧
    (∀ i, (queue_list N s).count i ≤ 1) ∧
    (∀ i, (s.thread i).state = THREAD_READY → (queue_list N s).count i = 1) ∧
    (∀ i, i ∈ queue_list N s → (s.thread i).state = THREAD_READY) ∧
    (∃ c, s.g_current = some c ∧ (s.thread c).state = THREAD_RUNNING
      ∧ c ∉ queue_list N s) ∧
    (queue_list N s).length + 1 ≤ N := by
  have hO := OrderlyInv_of_OrderlyReachable N s hN h
  have hI := Inv_of_Reachable N s hN (Reachable_of_OrderlyReachable N s h)
  obtain ⟨c, c1, c2, _⟩ := hI.current
  have hrun := hO.cur_run c c1
  have hcq : c ∉ queue_list N s := by
    intro e
    have := (hO.q.mem c).mp e
    rw [hrun] at this
    cases this
  refine ⟨hO.q.nodup, List.nodup_iff_count_le_one.mp hO.q.nodup, ?_, ?_, ⟨c, c1, hrun, hcq⟩, ?_⟩
  · intro i hi
    exact List.count_eq_one_of_mem hO.q.nodup ((hO.q.mem i).mpr hi)
  · intro i hi
    exact (hO.q.mem i).mp hi
  · exact nodup_length_add_one N _ c hO.q.nodup (queue_list_lt N s hI.queue) c2 hcq

theorem ex3_two_woken_orderly : OrderlyReachable 3 ex3_two_woken :=
  OrderlyReachable.step _ _
    (OrderlyReachable.step _ _
      (OrderlyReachable.step _ _
        (OrderlyReachable.step _ _
          (OrderlyReachable.step _ _ (OrderlyReachable.init 100000 (by decide))
            (OrderlyStep.spawn ex3_init 7))
          (OrderlyStep.spawn ex3_spawn 8))
        (OrderlyStep.tick ex3_two ex3_two_run1 (by decide) (by decide) (by decide)))
      (OrderlyStep.sleep ex3_two_run1 ex3_two_asleep 1 Outcome.switched (by decide)
        (by decide) (by decide)))
    (OrderlyStep.tick ex3_two_asleep ex3_two_woken (by decide) (by decide) (by decide))

/-- Witness for C14: the state `ex3_two_woken`, reached by `uthread_init`, two
`uthread_spawn`, a timer tick, `uthread_sleep(1)` called by thread 1 and a
second timer tick, which wakes thread 1: thread 0 runs and the queue is
`[1, 2]`, the two `READY` threads. -/
theorem ready_queue_discipline_witness :
    OrderlyReachable 3 ex3_two_woken ∧
    queue_list 3 ex3_two_woken = [1, 2] ∧
    (ex3_two_woken.thread 1).state = THREAD_READY ∧
    (ex3_two_woken.thread 2).state = THREAD_READY ∧
    (queue_list 3 ex3_two_woken).Nodup ∧
    (∀ i, (queue_list 3 ex3_two_woken).count i ≤ 1) ∧
    (∀ i, (ex3_two_woken.thread i).state = THREAD_READY →
      (queue_list 3 ex3_two_woken).count i = 1) ∧
    (∀ i, i ∈ queue_list 3 ex3_two_woken → (ex3_two_woken.thread i).state = THREAD_READY) ∧
    (∃ c, ex3_two_woken.g_current = some c ∧ (ex3_two_woken.thread c).state = THREAD_RUNNING
      ∧ c ∉ queue_list 3 ex3_two_woken) ∧
    (queue_list 3 ex3_two_woken).length + 1 ≤ 3 :=
  ⟨ex3_two_woken_orderly, by decide, by decide, by decide,
    ready_queue_discipline 3 ex3_two_woken (by decide) ex3_two_woken_orderly⟩

/-- C14 fails: a reachable state whose ready queue holds an index twice, and a
reachable state whose ready queue misses the `READY` threads.  With
`MAX_THREAD_NUM = 3`, after `uthread_init`, `uthread_spawn`, `uthread_block(1)`
and `uthread_resume(1)` the queue is `[1, 1]`: `uthread_block` left the entry
of the `READY` thread 1 in the queue and `uthread_resume` added a second one.
In `ex3_lost` the ring has wrapped: the queue reads as empty although threads
0 and 2 are `READY`. -/
theorem ready_queue_duplicate :
    Reachable 3 ex3_full ∧
    queue_list 3 ex3_full = [1, 1] ∧
    (queue_list 3 ex3_full).count 1 = 2 ∧
    ¬ (queue_list 3 ex3_full).Nodup ∧
    Reachable 3 ex3_lost ∧
    queue_list 3 ex3_lost = [] ∧
    (ex3_lost.thread 0).state = THREAD_READY ∧
    (ex3_lost.thread 2).state = THREAD_READY ∧
    (queue_list 3 ex3_lost).count 0 = 0 :=
  ⟨ex3_full_reachable, by decide, by decide, by decide, ex3_lost_reachable, by decide,
    by decide, by decide, by decide⟩

end UThreads
